import Mathlib

/-! LittleHTTP (`httpd.c`): request parser and response dispatcher

A shallow embedding of `src/httpd/httpd.c`; `httpd2.c` shares these functions
word for word and adds the accept loop around `service`.

Conventions of the embedding.

* A byte is a natural number; a C string is the list of its bytes before the
  terminating NUL.  `bytes "GET"` is the byte list of an ASCII literal.
* `FILE *in` is the list of bytes not yet read; end of list is end of file.
  Every reading function returns the unread remainder.  Read errors other
  than end of file are not modelled.
* `log_exit` ends the process.  A function that may call it returns an
  `Outcome`: either `ok v rest`, or `exit msg rest alloc` where `msg` names the
  `log_exit` call site, `rest` is the unread input at that moment and `alloc`
  is the size of the body buffer obtained from `xmalloc` before the exit, if
  any.  `xmalloc` itself is assumed to succeed.
* The C library is the one of an LP64 Linux system in the "C" locale (`main`
  never calls `setlocale`): `int` has 32 bits and `long` 64, `atol` is
  `strtol(s, NULL, 10)` and `atoi` is that value converted to `int`.
* `FILE *out` is the list of bytes written, in order; writes are assumed to
  succeed, and `exit` flushes what was written.  The clock enters through
  `Env.date`, the text `strftime` leaves in its buffer (`gmtime` is assumed to
  succeed); the file system through `Env.lstat` and `Env.open_read`.
* The two loops of the source take a fuel argument.  `Fatal.fuel` and the
  `none` of `copy_blocks` mark fuel running out; `read_header_fields_fuel`,
  `read_request_not_fuel` and `copy_blocks_all` show that the fuel the callers
  pass is never used up.
-/

namespace Httpd

/-! ## Bytes and constants -/



/-- The bytes of an ASCII string literal. -/
def bytes (s : String) : List Nat := s.toList.map Char.toNat

def SERVER_NAME : List Nat := bytes "LittleHTTP"
def SERVER_VERSION : List Nat := bytes "1.0"
def HTTP_MINOR_VERSION : Nat := 0
def BLOCK_BUF_SIZE : Nat := 1024
def LINE_BUF_SIZE : Nat := 4096
def MAX_REQUEST_BODY_LENGTH : Int := 1024 * 1024

def NUL : Nat := 0
def HT : Nat := 9
def LF : Nat := 10
def CR : Nat := 13
def SP : Nat := 32
def COLON : Nat := 58

def CRLF : List Nat := [CR, LF]

/-! ## C library -/

/-- `toupper` in the "C" locale. -/
def toupper (c : Nat) : Nat := if 97 ≤ c ∧ c ≤ 122 then c - 32 else c

/-- `tolower` in the "C" locale. -/
def tolower (c : Nat) : Nat := if 65 ≤ c ∧ c ≤ 90 then c + 32 else c

/-- `isspace` in the "C" locale: space, `\t`, `\n`, `\v`, `\f`, `\r`. -/
def isspace (c : Nat) : Bool := c == 32 || (9 ≤ c && c ≤ 13)

/-- `isdigit`. -/
def isdigit (c : Nat) : Bool := 48 ≤ c && c ≤ 57

/-- The C string held by a buffer: its bytes before the first NUL. -/
def cstr : List Nat → List Nat
  | [] => []
  | c :: s => if c = NUL then [] else c :: cstr s

/-- `strchr(s, c)` for `c ≠ NUL` on a C string: `none` for a NULL result,
otherwise the text before the first `c` and the text after it (the callers
overwrite the found byte with NUL and step past it). -/
def strchr : List Nat → Nat → Option (List Nat × List Nat)
  | [], _ => none
  | x :: s, c =>
    if x = c then some ([], s)
    else match strchr s c with
      | none => none
      | some (l, r) => some (x :: l, r)

/-- `strcmp(s, t) == 0` on C strings. -/
def strcmp_eq (s t : List Nat) : Bool := s == t

/-- `strcasecmp(s, t) == 0` on C strings. -/
def strcasecmp_eq (s t : List Nat) : Bool := s.map tolower == t.map tolower

/-- `strncasecmp(s, t, n) == 0` on C strings. -/
def strncasecmp_eq (s t : List Nat) (n : Nat) : Bool :=
  (s.take n).map tolower == (t.take n).map tolower

/-- `p += strspn(p, " \t")`: skip the leading spaces and tabs. -/
def skip_strspn_blank : List Nat → List Nat
  | [] => []
  | c :: s => if c = SP ∨ c = HT then skip_strspn_blank s else c :: s

/-- Skip leading white space, as `strtol` does first. -/
def skip_space : List Nat → List Nat
  | [] => []
  | c :: s => if isspace c then skip_space s else c :: s

/-- The value of the longest prefix of decimal digits, continuing from `acc`. -/
def digits_value : List Nat → Nat → Nat
  | [], acc => acc
  | c :: s, acc => if isdigit c then digits_value s (acc * 10 + (c - 48)) else acc

def LONG_MAX : Int := 2 ^ 63 - 1
def LONG_MIN : Int := -(2 ^ 63)

/-- `strtol(s, NULL, 10)`: white space, an optional sign, then digits; a value
out of range of `long` is clamped to `LONG_MAX` or `LONG_MIN`. -/
def strtol (s : List Nat) : Int :=
  match skip_space s with
  | [] => 0
  | c :: t =>
    if c = 45 then max LONG_MIN (-(digits_value t 0 : Int))
    else if c = 43 then min LONG_MAX (digits_value t 0 : Int)
    else min LONG_MAX (digits_value (c :: t) 0 : Int)

/-- `atol`. -/
def atol (s : List Nat) : Int := strtol s

/-- Conversion of a `long` to `int`: reduction modulo `2 ^ 32` into the signed range. -/
def long_to_int (v : Int) : Int := (v + 2 ^ 31) % 2 ^ 32 - 2 ^ 31

/-- `atoi`. -/
def atoi (s : List Nat) : Int := long_to_int (strtol s)

/-- The characters `fgets` stores when it may still store `n` of them, and the
unread remainder: it stops after a newline, at end of file, or when `n` is used up. -/
def fgets_chars : List Nat → Nat → List Nat × List Nat
  | [], _ => ([], [])
  | c :: s, n =>
    if n = 0 then ([], c :: s)
    else if c = LF then ([c], s)
    else ((fgets_chars s (n - 1)).1.cons c, (fgets_chars s (n - 1)).2)

/-- `fgets(buf, size, in)`: `none` for NULL (end of file before any byte),
otherwise the bytes stored in `buf` before the terminating NUL, and the
unread remainder. -/
def fgets (size : Nat) (inp : List Nat) : Option (List Nat × List Nat) :=
  match inp with
  | [] => none
  | _ :: _ => some (fgets_chars inp (size - 1))

/-- `fread(ptr, size, 1, in)`: the `size` bytes read when that many are
available (return value 1), `none` on a short read (return value 0), which
leaves the stream at end of file. -/
def fread (size : Nat) (inp : List Nat) : Option (List Nat) × List Nat :=
  if size ≤ inp.length then (some (inp.take size), inp.drop size) else (none, [])

/-! ## Data types -/

structure HTTPHeaderField where
  name : List Nat
  value : List Nat
  deriving DecidableEq, Repr

/-- `struct HTTPRequest`; `header` is the linked list from its head, `body` is
`none` for a NULL pointer. -/
structure HTTPRequest where
  protocol_minor_version : Int
  method : List Nat
  path : List Nat
  header : List HTTPHeaderField
  body : Option (List Nat)
  length : Int
  deriving DecidableEq, Repr

/-- The `log_exit` call sites of the request parser and of the file response. -/
inductive Fatal where
  | no_request_line
  | request_line_1
  | request_line_2
  | request_line_3
  | header_read
  | header_parse
  | negative_content_length
  | body_too_long
  | body_read
  | file_open
  | fuel
  deriving DecidableEq, Repr

inductive Outcome (α : Type) where
  | ok (val : α) (rest : List Nat)
  | exit (msg : Fatal) (rest : List Nat) (alloc : Option Nat)
  deriving DecidableEq, Repr

/-- The request as `xmalloc` hands it to `read_request_line`, before any field is set. -/
def HTTPRequest.blank : HTTPRequest :=
  { protocol_minor_version := 0, method := [], path := [], header := [],
    body := none, length := 0 }

/-! ## Request parser -/

def upcase (str : List Nat) : List Nat := str.map toupper

def read_request_line (req : HTTPRequest) (inp : List Nat) : Outcome HTTPRequest :=
  match fgets LINE_BUF_SIZE inp with
  | none => .exit .no_request_line inp none
  | some (buf, rest) =>
    match strchr (cstr buf) SP with
    | none => .exit .request_line_1 rest none
    | some (method, path) =>
      match strchr path SP with
      | none => .exit .request_line_2 rest none
      | some (path, p) =>
        if strncasecmp_eq p (bytes "HTTP/1.") 7 then
          .ok { req with method := upcase method, path := path,
                         protocol_minor_version := atoi (p.drop 7) } rest
        else .exit .request_line_3 rest none

/-- `read_header_field`: `ok none` is the NULL returned on the empty line. -/
def read_header_field (inp : List Nat) : Outcome (Option HTTPHeaderField) :=
  match fgets LINE_BUF_SIZE inp with
  | none => .exit .header_read inp none
  | some (buf, rest) =>
    if buf.head? = some LF ∨ cstr buf = CRLF then .ok none rest
    else match strchr (cstr buf) COLON with
      | none => .exit .header_parse rest none
      | some (name, p) => .ok (some { name := name, value := skip_strspn_blank p }) rest

/-- The `while (h = read_header_field(in))` loop of `read_request`, each field
pushed on the front of the list.  Every round consumes at least one byte, so
`fuel` above the length of the input is never used up
(`read_header_fields_fuel`); `Fatal.fuel` marks the fuel running out. -/
def read_header_fields : Nat → List Nat → List HTTPHeaderField →
    Outcome (List HTTPHeaderField)
  | 0, inp, _ => .exit .fuel inp none
  | fuel + 1, inp, header =>
    match read_header_field inp with
    | .exit msg rest alloc => .exit msg rest alloc
    | .ok none rest => .ok header rest
    | .ok (some h) rest => read_header_fields fuel rest (h :: header)

def lookup_header_field_value : List HTTPHeaderField → List Nat → Option (List Nat)
  | [], _ => none
  | h :: next, name =>
    if strcasecmp_eq h.name name then some h.value
    else lookup_header_field_value next name

/-- `content_length`: the `long` returned, or the `log_exit` it ends in. -/
def content_length (req : HTTPRequest) : Except Fatal Int :=
  match lookup_header_field_value req.header (bytes "Content-Length") with
  | none => .ok 0
  | some val =>
    if atol val < 0 then .error .negative_content_length else .ok (atol val)

def read_request (inp : List Nat) : Outcome HTTPRequest :=
  match read_request_line HTTPRequest.blank inp with
  | .exit msg rest alloc => .exit msg rest alloc
  | .ok req rest =>
    match read_header_fields (rest.length + 1) rest [] with
    | .exit msg rest alloc => .exit msg rest alloc
    | .ok header rest =>
      match content_length { req with header := header } with
      | .error msg => .exit msg rest none
      | .ok length =>
        if length ≠ 0 then
          if length > MAX_REQUEST_BODY_LENGTH then .exit .body_too_long rest none
          else match fread length.toNat rest with
            | (none, rest) => .exit .body_read rest (some length.toNat)
            | (some body, rest) =>
              .ok { req with header := header, length := length, body := some body } rest
        else .ok { req with header := header, length := length, body := none } rest

/-! ## File resolver -/

/-- What `lstat` stores in `struct stat`, as far as the server looks at it. -/
structure Stat where
  is_reg : Bool
  st_size : Int
  deriving DecidableEq, Repr

/-- The world outside the process: `date` is the text `strftime` produces for
the current time; `lstat p` is `none` when `lstat` fails on `p`; `open_read p`
is `none` when `open(p, O_RDONLY)` fails and otherwise the bytes the opened
file delivers to successive `read` calls. -/
structure Env where
  date : List Nat
  lstat : List Nat → Option Stat
  open_read : List Nat → Option (List Nat)

/-- `struct FileInfo`; `size` is left at 0 where the C code leaves it unset. -/
structure FileInfo where
  path : List Nat
  size : Int
  ok : Bool
  deriving DecidableEq, Repr

/-- `sprintf(path, "%s/%s", docroot, urlpath)`. -/
def build_fspath (docroot urlpath : List Nat) : List Nat :=
  docroot ++ bytes "/" ++ urlpath

def get_fileinfo (env : Env) (docroot urlpath : List Nat) : FileInfo :=
  let path := build_fspath docroot urlpath
  match env.lstat path with
  | none => { path := path, size := 0, ok := false }
  | some st =>
    if st.is_reg then { path := path, size := st.st_size, ok := true }
    else { path := path, size := 0, ok := false }

def guess_content_type (_info : FileInfo) : List Nat := bytes "text/plain"

/-! ## Response dispatcher -/

/-- Decimal digits of `n`, most significant first, in front of `acc`. -/
def fmt_digits : Nat → Nat → List Nat → List Nat
  | 0, _, acc => acc
  | fuel + 1, n, acc =>
    if n < 10 then (48 + n) :: acc
    else fmt_digits fuel (n / 10) ((48 + n % 10) :: acc)

/-- The conversion `%d` / `%ld` of `printf`. -/
def fmt_ld (v : Int) : List Nat :=
  if v < 0 then 45 :: fmt_digits (v.natAbs + 1) v.natAbs []
  else fmt_digits (v.natAbs + 1) v.natAbs []

/-- What a responder has written to `out`, and the `log_exit` it ended in, if any. -/
structure Written where
  out : List Nat
  exit : Option Fatal
  deriving DecidableEq, Repr

def output_common_header_fields (env : Env) (_req : HTTPRequest) (status : List Nat) :
    List Nat :=
  bytes "HTTP/1." ++ fmt_ld HTTP_MINOR_VERSION ++ bytes " " ++ status ++ bytes "\r\n"
  ++ (bytes "Date: " ++ env.date ++ bytes "\r\n")
  ++ (bytes "Server: " ++ SERVER_NAME ++ bytes "/" ++ SERVER_VERSION ++ bytes "\r\n")
  ++ bytes "Connection: close\r\n"

def not_found (env : Env) (req : HTTPRequest) : List Nat :=
  output_common_header_fields env req (bytes "404 Not Found")
  ++ bytes "Content-Type: text/html\r\n"
  ++ bytes "\r\n"
  ++ (if strcmp_eq req.method (bytes "HEAD") then []
      else bytes "<html>\r\n"
        ++ bytes "<header><title>Not Found</title><header>\r\n"
        ++ bytes "<body><p>File not found</p></body>\r\n"
        ++ bytes "</html>\r\n")

def method_not_allowed (env : Env) (req : HTTPRequest) : List Nat :=
  output_common_header_fields env req (bytes "405 Method Not Allowed")
  ++ bytes "Content-Type: text/html\r\n"
  ++ bytes "\r\n"
  ++ (bytes "<html>\r\n"
    ++ bytes "<header>\r\n"
    ++ bytes "<title>405 Method Not Allowed</title>\r\n"
    ++ bytes "<header>\r\n"
    ++ bytes "<body>\r\n"
    ++ (bytes "<p>The request method " ++ req.method ++ bytes " is not allowed</p>\r\n")
    ++ bytes "</body>\r\n"
    ++ bytes "</html>\r\n")

def not_implemented (env : Env) (req : HTTPRequest) : List Nat :=
  output_common_header_fields env req (bytes "501 Not Implemented")
  ++ bytes "Content-Type: text/html\r\n"
  ++ bytes "\r\n"
  ++ (bytes "<html>\r\n"
    ++ bytes "<header>\r\n"
    ++ bytes "<title>501 Not Implemented</title>\r\n"
    ++ bytes "<header>\r\n"
    ++ bytes "<body>\r\n"
    ++ (bytes "<p>The request method " ++ req.method ++ bytes " is not implemented</p>\r\n")
    ++ bytes "</body>\r\n"
    ++ bytes "</html>\r\n")

/-- The `for (;;)` loop of `do_file_response` on the unread part of the file:
`read` up to `BLOCK_BUF_SIZE` bytes, stop when it returns 0, otherwise `fwrite`
them.  The result is the bytes written by the loop, `none` when `fuel` rounds
did not reach the end of the file. -/
def copy_blocks : Nat → List Nat → Option (List Nat)
  | 0, _ => none
  | fuel + 1, file =>
    let buf := file.take BLOCK_BUF_SIZE
    if buf.length = 0 then some []
    else (copy_blocks fuel (file.drop BLOCK_BUF_SIZE)).map (buf ++ ·)

def do_file_response (env : Env) (req : HTTPRequest) (docroot : List Nat) : Written :=
  let info := get_fileinfo env docroot req.path
  if !info.ok then { out := not_found env req, exit := none }
  else
    let head := output_common_header_fields env req (bytes "200 OK")
      ++ (bytes "Content-Length: " ++ fmt_ld info.size ++ bytes "\r\n")
      ++ (bytes "Content-Type: " ++ guess_content_type info ++ bytes "\r\n")
      ++ bytes "\r\n"
    if strcmp_eq req.method (bytes "HEAD") then { out := head, exit := none }
    else match env.open_read info.path with
      | none => { out := head, exit := some .file_open }
      | some file =>
        match copy_blocks (file.length + 1) file with
        | none => { out := head, exit := some .fuel }
        | some body => { out := head ++ body, exit := none }

def respond_to (env : Env) (req : HTTPRequest) (docroot : List Nat) : Written :=
  if strcmp_eq req.method (bytes "GET") then do_file_response env req docroot
  else if strcmp_eq req.method (bytes "HEAD") then do_file_response env req docroot
  else if strcmp_eq req.method (bytes "POST") then
    { out := method_not_allowed env req, exit := none }
  else { out := not_implemented env req, exit := none }

/-- `service`: a request that does not parse ends the process inside
`read_request`, before `respond_to` is reached. -/
def service (env : Env) (inp : List Nat) (docroot : List Nat) : Written :=
  match read_request inp with
  | .exit msg _ _ => { out := [], exit := some msg }
  | .ok req _ => respond_to env req docroot

/-! ## Vocabulary of the statements -/

/-- The number written by a string of decimal digits. -/
def decimal_number (d : List Nat) : Nat := d.foldl (fun acc c => acc * 10 + (c - 48)) 0

/-- The header block of a 200 response for a file of the given size, up to and
including the blank line, as `do_file_response` writes it. -/
def file_response_head (env : Env) (req : HTTPRequest) (size : Int) : List Nat :=
  output_common_header_fields env req (bytes "200 OK")
  ++ (bytes "Content-Length: " ++ fmt_ld size ++ bytes "\r\n")
  ++ (bytes "Content-Type: text/plain\r\n")
  ++ bytes "\r\n"

/-- The header block of a 404, 405 or 501 response, up to and including the blank line. -/
def error_response_head (env : Env) (req : HTTPRequest) (status : List Nat) : List Nat :=
  output_common_header_fields env req status
  ++ bytes "Content-Type: text/html\r\n"
  ++ bytes "\r\n"

/-- The URL path resolves to an existing regular file: `lstat` succeeds on the
joined path and reports a regular file. -/
def resolves (env : Env) (docroot urlpath : List Nat) : Prop :=
  ∃ st, env.lstat (build_fspath docroot urlpath) = some st ∧ st.is_reg = true

/-- The output starts with the status line `HTTP/1.0 <status> CRLF`. -/
def has_status (out status : List Nat) : Prop :=
  (bytes "HTTP/1.0 " ++ status ++ bytes "\r\n") <+: out

instance (out status : List Nat) : Decidable (has_status out status) := by
  unfold has_status
  infer_instance

/-- Two bytes are the same up to ASCII letter case: they are equal, or one is
an upper-case letter and the other its lower-case form. -/
def same_letter (x y : Nat) : Prop :=
  x = y ∨ (65 ≤ x ∧ x ≤ 90 ∧ y = x + 32) ∨ (65 ≤ y ∧ y ≤ 90 ∧ x = y + 32)

/-- Two strings are equal ignoring ASCII letter case. -/
def eq_ignore_case (s t : List Nat) : Prop := List.Forall₂ same_letter s t

/-- The header fields of a header block in the order in which
`read_header_field` returns them, which is their order on the wire, and the
input left after the empty line; `none` when the block does not reach its
empty line. -/
def fields_in_wire_order : Nat → List Nat → Option (List HTTPHeaderField × List Nat)
  | 0, _ => none
  | fuel + 1, inp =>
    match read_header_field inp with
    | .exit _ _ _ => none
    | .ok none rest => some ([], rest)
    | .ok (some h) rest =>
      match fields_in_wire_order fuel rest with
      | none => none
      | some (fs, r) => some (h :: fs, r)

/-- The same outcome with the unread input replaced. -/
def Outcome.with_rest {α : Type} (o : Outcome α) (rest : List Nat) : Outcome α :=
  match o with
  | .ok v _ => .ok v rest
  | .exit msg _ alloc => .exit msg rest alloc

/-- The bytes of the lines with the given contents on the wire, each followed
by the line terminator `eol`. -/
def lines_on_wire (eol : List Nat) : List (List Nat) → List Nat
  | [] => []
  | l :: ls => l ++ eol ++ lines_on_wire eol ls

/-- The header line `name ':' w`, without its LF. -/
def field_line (f : List Nat × List Nat) : List Nat := f.1 ++ COLON :: f.2

/-- The field that the header line `name ':' w LF` stands for: its value is the
text after the ':' through the LF, leading spaces and tabs removed. -/
def field_of_line (f : List Nat × List Nat) : HTTPHeaderField :=
  { name := f.1, value := (f.2 ++ [LF]).dropWhile (fun c => c == SP || c == HT) }

/-- Two parses agree: both exit at the same `log_exit`, or both return a
request, with the same method, path, minor version, header names in the same
order, length and body, and leave the same input unread. -/
def same_parse (a b : Outcome HTTPRequest) : Prop :=
  match a, b with
  | .ok r1 s1, .ok r2 s2 =>
    r1.method = r2.method ∧ r1.path = r2.path
    ∧ r1.protocol_minor_version = r2.protocol_minor_version
    ∧ r1.header.map (fun h => h.name) = r2.header.map (fun h => h.name)
    ∧ r1.length = r2.length ∧ r1.body = r2.body ∧ s1 = s2
  | .exit m1 _ _, .exit m2 _ _ => m1 = m2
  | _, _ => False

/-- The ends of the two C strings read from one line sent once with CRLF and
once with LF: the two terminators, or nothing when a NUL byte of the line has
cut both strings short. -/
def eol_pair (e1 e2 : List Nat) : Prop := (e1 = [] ∧ e2 = []) ∨ (e1 = CRLF ∧ e2 = [LF])

/-- Two header fields have the same name and values that `atol` reads as the
same number. -/
def same_field (h1 h2 : HTTPHeaderField) : Prop :=
  h1.name = h2.name ∧ atol h1.value = atol h2.value

/-- A file system holding one regular file. -/
def one_file (date path content : List Nat) : Env :=
  { date := date,
    lstat := fun p =>
      if p = path then some { is_reg := true, st_size := content.length } else none,
    open_read := fun p => if p = path then some content else none }

theorem bytes_http : bytes "HTTP/1." = [72, 84, 84, 80, 47, 49, 46] := by decide

theorem fgets_chars_line (line rest : List Nat) (n : Nat) (hlf : LF ∉ line)
    (hn : line.length + 1 ≤ n) :
    fgets_chars (line ++ LF :: rest) n = (line ++ [LF], rest) := by
  induction line generalizing n with
  | nil =>
    have h0 : n ≠ 0 := by simp at hn; omega
    simp [fgets_chars, h0]
  | cons c l ih =>
    have h0 : n ≠ 0 := by simp at hn; omega
    have hc : c ≠ LF := fun h => hlf (by simp [h])
    have hl : LF ∉ l := fun h => hlf (by simp [h])
    have hn1 : l.length + 1 ≤ n - 1 := by simp at hn; omega
    simp [fgets_chars, h0, hc, ih (n - 1) hl hn1]

theorem cstr_no_nul (s : List Nat) (h : NUL ∉ s) : cstr s = s := by
  induction s with
  | nil => rfl
  | cons c l ih =>
    have hc : c ≠ NUL := fun e => h (by simp [e])
    have hl : NUL ∉ l := fun e => h (by simp [e])
    simp [cstr, hc, ih hl]

theorem strchr_split (l r : List Nat) (c : Nat) (h : c ∉ l) :
    strchr (l ++ c :: r) c = some (l, r) := by
  induction l with
  | nil => simp [strchr]
  | cons x l ih =>
    have hx : x ≠ c := fun e => h (by simp [e])
    have hl : c ∉ l := fun e => h (by simp [e])
    simp [strchr, hx, ih hl]

theorem digits_value_append (d t : List Nat) (acc : Nat) (hd : ∀ c ∈ d, isdigit c = true)
    (ht : ∀ c, t.head? = some c → isdigit c = false) :
    digits_value (d ++ t) acc = d.foldl (fun acc c => acc * 10 + (c - 48)) acc := by
  induction d generalizing acc with
  | nil =>
    cases t with
    | nil => rfl
    | cons c t => simp [digits_value, ht c rfl]
  | cons x d ih =>
    have hx : isdigit x = true := hd x (by simp)
    have hd2 : ∀ c ∈ d, isdigit c = true := fun c hc => hd c (by simp [hc])
    simp [digits_value, hx, ih _ hd2]

theorem strtol_digits (d t : List Nat) (hd : ∀ c ∈ d, isdigit c = true)
    (ht : ∀ c, t.head? = some c → isdigit c = false) (hsp : skip_space t = [])
    (hmax : (decimal_number d : Int) ≤ LONG_MAX) :
    strtol (d ++ t) = decimal_number d := by
  cases d with
  | nil =>
    simp [strtol, hsp, decimal_number]
  | cons x d =>
    have hx : 48 ≤ x ∧ x ≤ 57 := by simpa [isdigit] using hd x (by simp)
    have hxs : isspace x = false := by
      simp only [isspace, Bool.or_eq_false_iff, beq_eq_false_iff_ne, Bool.and_eq_false_iff,
        decide_eq_false_iff_not]
      omega
    have h45 : x ≠ 45 := by omega
    have h43 : x ≠ 43 := by omega
    have hv := digits_value_append (x :: d) t 0 hd ht
    simp only [List.cons_append] at hv
    have hs : skip_space (x :: (d ++ t)) = x :: (d ++ t) := by simp [skip_space, hxs]
    unfold strtol
    rw [List.cons_append, hs]
    simp only [h45, h43, if_false]
    rw [hv]
    exact min_eq_right hmax


theorem long_to_int_small (v : Int) (h0 : 0 ≤ v) (h1 : v < 2 ^ 31) : long_to_int v = v := by
  unfold long_to_int
  omega

theorem atoi_digits (d t : List Nat) (hd : ∀ c ∈ d, isdigit c = true)
    (ht : ∀ c, t.head? = some c → isdigit c = false) (hsp : skip_space t = [])
    (hmax : decimal_number d < 2 ^ 31) :
    atoi (d ++ t) = decimal_number d := by
  have h1 : (decimal_number d : Int) < 2 ^ 31 := by exact_mod_cast hmax
  have h2 : (decimal_number d : Int) ≤ LONG_MAX := by
    unfold LONG_MAX
    omega
  unfold atoi
  rw [strtol_digits d t hd ht hsp h2]
  exact long_to_int_small _ (by omega) h1

theorem read_header_field_crlf (tail : List Nat) :
    read_header_field (CR :: LF :: tail) = .ok none tail := by
  simp [read_header_field, fgets, fgets_chars, LINE_BUF_SIZE, CR, LF, cstr, NUL, CRLF]

theorem fgets_line (size : Nat) (line rest : List Nat) (hlf : LF ∉ line)
    (hn : line.length + 1 ≤ size - 1) :
    fgets size (line ++ LF :: rest) = some (line ++ [LF], rest) := by
  have h := fgets_chars_line line rest (size - 1) hlf hn
  cases line with
  | nil => simpa [fgets] using h
  | cons c l => simpa [fgets] using h

theorem isdigit_ne (c x : Nat) (hc : isdigit c = true) (hx : x < 48 ∨ 57 < x) : c ≠ x := by
  have h : 48 ≤ c ∧ c ≤ 57 := by simpa [isdigit] using hc
  omega

theorem read_request_line_ok (req : HTTPRequest) (M P d tail : List Nat)
    (hM : ∀ c ∈ M, c ≠ SP ∧ c ≠ NUL ∧ c ≠ LF) (hP : ∀ c ∈ P, c ≠ SP ∧ c ≠ NUL ∧ c ≠ LF)
    (hd : ∀ c ∈ d, isdigit c = true) (hv : decimal_number d < 2 ^ 31)
    (hlen : M.length + P.length + d.length + 11 ≤ 4095) :
    read_request_line req (M ++ SP :: (P ++ SP :: (bytes "HTTP/1." ++ d ++ CR :: LF :: tail)))
      = .ok { req with method := upcase M, path := P,
                       protocol_minor_version := decimal_number d } tail := by
  have hin : M ++ SP :: (P ++ SP :: (bytes "HTTP/1." ++ d ++ CR :: LF :: tail))
      = (M ++ SP :: (P ++ SP :: (bytes "HTTP/1." ++ d ++ [CR]))) ++ LF :: tail := by simp
  have hmem : ∀ c ∈ M ++ SP :: (P ++ SP :: (bytes "HTTP/1." ++ d ++ [CR])), c ≠ LF ∧ c ≠ NUL := by
    intro c hc
    simp only [bytes_http, List.mem_append, List.mem_cons, List.mem_singleton, List.not_mem_nil,
      or_false] at hc
    rcases hc with h | h | h | h | (h | h) | h
    · exact ⟨(hM c h).2.2, (hM c h).2.1⟩
    · subst h; decide
    · exact ⟨(hP c h).2.2, (hP c h).2.1⟩
    · subst h; decide
    · rcases h with h | h | h | h | h | h | h <;> subst h <;> decide
    · exact ⟨isdigit_ne c LF (hd c h) (by decide), isdigit_ne c NUL (hd c h) (by decide)⟩
    · subst h; decide
  have hlf : LF ∉ M ++ SP :: (P ++ SP :: (bytes "HTTP/1." ++ d ++ [CR])) :=
    fun h => (hmem LF h).1 rfl
  have hnul : NUL ∉ (M ++ SP :: (P ++ SP :: (bytes "HTTP/1." ++ d ++ [CR]))) ++ [LF] := by
    intro h
    rcases List.mem_append.1 h with h | h
    · exact (hmem NUL h).2 rfl
    · simp [NUL, LF] at h
  have hl : (M ++ SP :: (P ++ SP :: (bytes "HTTP/1." ++ d ++ [CR]))).length + 1
      ≤ LINE_BUF_SIZE - 1 := by
    simp [bytes_http, LINE_BUF_SIZE]
    omega
  have hsM : SP ∉ M := fun h => (hM SP h).1 rfl
  have hsP : SP ∉ P := fun h => (hP SP h).1 rfl
  have hbuf : (M ++ SP :: (P ++ SP :: (bytes "HTTP/1." ++ d ++ [CR]))) ++ [LF]
      = M ++ SP :: (P ++ SP :: (bytes "HTTP/1." ++ (d ++ [CR, LF]))) := by simp
  have hcmp : strncasecmp_eq (bytes "HTTP/1." ++ (d ++ [CR, LF])) (bytes "HTTP/1.") 7 = true := by
    simp [strncasecmp_eq, bytes_http]
  have hdrop : (bytes "HTTP/1." ++ (d ++ [CR, LF])).drop 7 = d ++ [CR, LF] := by
    simp [bytes_http]
  have hatoi : atoi (d ++ [CR, LF]) = decimal_number d :=
    atoi_digits d [CR, LF] hd (by simp [CR, isdigit]) (by simp [skip_space, isspace, CR, LF]) hv
  unfold read_request_line
  rw [hin, fgets_line _ _ _ hlf hl]
  simp only []
  rw [cstr_no_nul _ hnul, hbuf, strchr_split _ _ _ hsM]
  simp only []
  rw [strchr_split _ _ _ hsP]
  simp only [hcmp, if_true, hdrop, hatoi]



theorem fgets_chars_full (l rest : List Nat) (n : Nat) (hlf : LF ∉ l) (hn : l.length = n) :
    fgets_chars (l ++ rest) n = (l, rest) := by
  induction l generalizing n with
  | nil =>
    subst hn
    cases rest <;> simp [fgets_chars]
  | cons c l ih =>
    have h0 : n ≠ 0 := by simp at hn; omega
    have hc : c ≠ LF := fun h => hlf (by simp [h])
    have hl : LF ∉ l := fun h => hlf (by simp [h])
    have hn1 : l.length = n - 1 := by simp at hn; omega
    simp [fgets_chars, h0, hc, ih (n - 1) hl hn1]

theorem strchr_none (s : List Nat) (c : Nat) (h : c ∉ s) : strchr s c = none := by
  induction s with
  | nil => rfl
  | cons x s ih =>
    have hx : x ≠ c := fun e => h (by simp [e])
    have hs : c ∉ s := fun e => h (by simp [e])
    simp [strchr, hx, ih hs]

theorem fgets_full (chunk more : List Nat) (hlf : LF ∉ chunk)
    (hlen : chunk.length = LINE_BUF_SIZE - 1) :
    fgets LINE_BUF_SIZE (chunk ++ more) = some (chunk, more) := by
  have h := fgets_chars_full chunk more (LINE_BUF_SIZE - 1) hlf hlen
  cases chunk with
  | nil => simp [LINE_BUF_SIZE] at hlen
  | cons c l => simpa [fgets] using h

theorem read_request_line_truncated (req : HTTPRequest) (M P rest : List Nat)
    (hM : ∀ c ∈ M, c ≠ SP ∧ c ≠ NUL ∧ c ≠ LF) (hP : ∀ c ∈ P, c ≠ SP ∧ c ≠ NUL ∧ c ≠ LF)
    (hlen : M.length + 1 + P.length = LINE_BUF_SIZE - 1) :
    read_request_line req (M ++ SP :: (P ++ rest)) = .exit .request_line_2 rest none := by
  have hin : M ++ SP :: (P ++ rest) = (M ++ SP :: P) ++ rest := by simp
  have hmem : ∀ c ∈ M ++ SP :: P, c ≠ LF ∧ c ≠ NUL := by
    intro c hc
    simp only [List.mem_append, List.mem_cons] at hc
    rcases hc with h | h | h
    · exact ⟨(hM c h).2.2, (hM c h).2.1⟩
    · subst h; decide
    · exact ⟨(hP c h).2.2, (hP c h).2.1⟩
  have hlf : LF ∉ M ++ SP :: P := fun h => (hmem LF h).1 rfl
  have hnul : NUL ∉ M ++ SP :: P := fun h => (hmem NUL h).2 rfl
  have hl : (M ++ SP :: P).length = LINE_BUF_SIZE - 1 := by simp; omega
  have hsM : SP ∉ M := fun h => (hM SP h).1 rfl
  have hsP : SP ∉ P := fun h => (hP SP h).1 rfl
  have hf : fgets LINE_BUF_SIZE ((M ++ SP :: P) ++ rest) = some (M ++ SP :: P, rest) := by
    have h := fgets_chars_full (M ++ SP :: P) rest (LINE_BUF_SIZE - 1) hlf hl
    cases M with
    | nil => simpa [fgets] using h
    | cons c l => simpa [fgets] using h
  unfold read_request_line
  rw [hin, hf]
  simp only []
  rw [cstr_no_nul _ hnul, strchr_split _ _ _ hsM]
  simp only []
  rw [strchr_none _ _ hsP]

theorem bytes_GET_slash : bytes "GET /" = bytes "GET" ++ SP :: bytes "/" := by decide

/-! ## The request line alone (C1) -/

/-- C1, as stated, fails in four ways.  A request line longer than the line
buffer is cut by `fgets` after 4095 bytes and the parser exits on the cut
line; a NUL byte in the path ends the C string early and the parser exits; a
LF byte in the path ends the line early and the parser exits; and a version
number that does not fit `int` is not the number stored. -/
theorem read_request_line_only_counterexample :
    read_request (bytes "GET /" ++ List.replicate 4090 97 ++ bytes " HTTP/1.0\r\n\r\n")
        = .exit .request_line_2 (bytes " HTTP/1.0\r\n\r\n") none
    ∧ read_request (bytes "GET /a" ++ [NUL] ++ bytes "b HTTP/1.0\r\n\r\n")
        = .exit .request_line_2 (bytes "\r\n") none
    ∧ read_request (bytes "GET /a" ++ [LF] ++ bytes "b HTTP/1.0\r\n\r\n")
        = .exit .request_line_2 (bytes "b HTTP/1.0\r\n\r\n") none
    ∧ read_request (bytes "GET / HTTP/1.4294967296\r\n\r\n")
        = .ok { protocol_minor_version := 0, method := bytes "GET", path := bytes "/",
                header := [], body := none, length := 0 } [] := by
  refine ⟨?_, by decide, by decide, by decide⟩
  have h := read_request_line_truncated HTTPRequest.blank (bytes "GET")
    (bytes "/" ++ List.replicate 4090 97) (bytes " HTTP/1.0\r\n\r\n") (by decide)
    (by
      intro c hc
      rcases List.mem_append.1 hc with h | h
      · have hb : bytes "/" = [47] := by decide
        rw [hb, List.mem_singleton] at h
        subst h
        decide
      · have := List.eq_of_mem_replicate h
        subst this
        decide)
    (by
      rw [List.length_append, List.length_replicate]
      decide)
  have hin : bytes "GET /" ++ List.replicate 4090 97 ++ bytes " HTTP/1.0\r\n\r\n"
      = bytes "GET" ++ SP :: (bytes "/" ++ List.replicate 4090 97 ++ bytes " HTTP/1.0\r\n\r\n") := by
    rw [bytes_GET_slash]
    simp only [List.append_assoc, List.cons_append]
  unfold read_request
  rw [hin, h]

/-- C1 (amended): a request made of the request line `M SP P SP HTTP/1.d CRLF`
and the empty line, where `M` and `P` hold no space, NUL or LF byte, `d` is a
string of decimal digits whose number is below `2 ^ 31` and the request line
with its CRLF is at most 4095 bytes long, parses to the upcased `M`, the path
`P` byte for byte, the minor version `d`, no header, no body and length 0,
with nothing left unread. -/
theorem read_request_line_only (M P d : List Nat)
    (hM : ∀ c ∈ M, c ≠ SP ∧ c ≠ NUL ∧ c ≠ LF) (hP : ∀ c ∈ P, c ≠ SP ∧ c ≠ NUL ∧ c ≠ LF)
    (hd : ∀ c ∈ d, isdigit c = true) (hv : decimal_number d < 2 ^ 31)
    (hlen : M.length + P.length + d.length + 11 ≤ 4095) :
    read_request (M ++ [SP] ++ P ++ [SP] ++ bytes "HTTP/1." ++ d ++ CRLF ++ CRLF)
      = .ok { protocol_minor_version := decimal_number d, method := M.map toupper, path := P,
              header := [], body := none, length := 0 } [] := by
  have hin : M ++ [SP] ++ P ++ [SP] ++ bytes "HTTP/1." ++ d ++ CRLF ++ CRLF
      = M ++ SP :: (P ++ SP :: (bytes "HTTP/1." ++ d ++ CR :: LF :: CRLF)) := by
    simp [CRLF]
  rw [hin]
  unfold read_request
  rw [read_request_line_ok HTTPRequest.blank M P d CRLF hM hP hd hv hlen]
  simp only [CRLF, List.length_cons, List.length_nil, read_header_fields,
    read_header_field_crlf]
  simp [content_length, lookup_header_field_value, HTTPRequest.blank, upcase]

/-- The request `GET /index.html HTTP/1.0` of the specification, through `read_request_line_only`. -/
theorem read_request_line_only_witness :
    read_request (bytes "GET /index.html HTTP/1.0\r\n\r\n")
      = .ok { protocol_minor_version := 0, method := bytes "GET", path := bytes "/index.html",
              header := [], body := none, length := 0 } [] :=
  read_request_line_only (bytes "GET") (bytes "/index.html") (bytes "0")
    (by decide) (by decide) (by decide) (by decide) (by decide)

/-! ## The header loop always ends -/

theorem fgets_chars_rest_le (inp : List Nat) (n : Nat) :
    (fgets_chars inp n).2.length ≤ inp.length := by
  induction inp generalizing n with
  | nil => simp [fgets_chars]
  | cons c s ih =>
    unfold fgets_chars
    split
    · simp
    · split
      · simp
      · have := ih (n - 1)
        simp only [List.length_cons]
        omega

theorem fgets_rest_lt (inp buf rest : List Nat) (h : fgets LINE_BUF_SIZE inp = some (buf, rest)) :
    rest.length < inp.length := by
  cases inp with
  | nil => simp [fgets] at h
  | cons c s =>
    simp only [fgets, LINE_BUF_SIZE, Option.some.injEq] at h
    have hr : rest = (fgets_chars (c :: s) (4096 - 1)).2 := by rw [h]
    rw [hr]
    unfold fgets_chars
    simp only [Nat.add_one_sub_one, OfNat.ofNat_ne_zero, if_false]
    split
    · simp
    · have := fgets_chars_rest_le s 4094
      simp only [List.length_cons]
      omega

theorem read_header_field_rest_lt (inp rest : List Nat) (h : Option HTTPHeaderField)
    (hr : read_header_field inp = .ok h rest) : rest.length < inp.length := by
  unfold read_header_field at hr
  split at hr
  · cases hr
  · rename_i buf rest1 hf
    have hlt := fgets_rest_lt inp buf rest1 hf
    split at hr
    · cases hr; exact hlt
    · split at hr
      · cases hr
      · cases hr; exact hlt

theorem read_header_field_not_fuel (inp rest : List Nat) (alloc : Option Nat) :
    read_header_field inp ≠ .exit .fuel rest alloc := by
  unfold read_header_field
  intro hr
  split at hr
  · cases hr
  · split at hr
    · cases hr
    · split at hr <;> cases hr

/-- With more fuel than unread bytes, the header loop never runs out of fuel. -/
theorem read_header_fields_fuel (fuel : Nat) (inp : List Nat) (header : List HTTPHeaderField)
    (hf : inp.length < fuel) (rest : List Nat) (alloc : Option Nat) :
    read_header_fields fuel inp header ≠ .exit .fuel rest alloc := by
  induction fuel generalizing inp header with
  | zero => omega
  | succ f ih =>
    unfold read_header_fields
    intro hr
    split at hr
    · rename_i msg r a he
      cases hr
      exact read_header_field_not_fuel inp _ _ he
    · cases hr
    · rename_i h r he
      have := read_header_field_rest_lt inp r _ he
      exact ih r (h :: header) (by omega) hr

/-- `read_request` never ends in the fuel marker: each of its exits is a `log_exit` of the source. -/
theorem read_request_not_fuel (inp rest : List Nat) (alloc : Option Nat) :
    read_request inp ≠ .exit .fuel rest alloc := by
  unfold read_request
  intro hr
  split at hr
  · rename_i msg r a he
    cases hr
    unfold read_request_line at he
    split at he
    · cases he
    · split at he
      · cases he
      · split at he
        · cases he
        · split at he <;> cases he
  · split at hr
    · rename_i msg r a he
      cases hr
      exact read_header_fields_fuel _ _ _ (Nat.lt_succ_self _) _ _ he
    · split at hr
      · rename_i msg he
        cases hr
        unfold content_length at he
        split at he
        · cases he
        · split at he <;> cases he
      · split at hr
        · split at hr
          · cases hr
          · split at hr <;> cases hr
        · cases hr

/-! ## The request body (C2, C8, C9) -/

/-- `read_request` once the request line and the header block have been read
and the `Content-Length` value has been found. -/
theorem read_request_after_headers (inp s1 rest val : List Nat) (req : HTTPRequest)
    (header : List HTTPHeaderField)
    (hline : read_request_line HTTPRequest.blank inp = .ok req s1)
    (hhead : read_header_fields (s1.length + 1) s1 [] = .ok header rest)
    (hval : lookup_header_field_value header (bytes "Content-Length") = some val) :
    read_request inp =
      if atol val < 0 then .exit .negative_content_length rest none
      else if atol val = 0 then
        .ok { req with header := header, length := atol val, body := none } rest
      else if atol val > MAX_REQUEST_BODY_LENGTH then .exit .body_too_long rest none
      else if (atol val).toNat ≤ rest.length then
        .ok { req with header := header, length := atol val,
                       body := some (rest.take (atol val).toNat) }
          (rest.drop (atol val).toNat)
      else .exit .body_read [] (some (atol val).toNat) := by
  unfold read_request
  rw [hline]
  simp only []
  rw [hhead]
  simp only [content_length, hval]
  by_cases hneg : atol val < 0
  · simp [hneg]
  · by_cases h0 : atol val = 0
    · simp [h0]
    · by_cases hbig : atol val > MAX_REQUEST_BODY_LENGTH
      · simp [hneg, h0, hbig]
      · by_cases hav : (atol val).toNat ≤ rest.length
        · simp [hneg, h0, hbig, fread, hav]
        · simp [hneg, h0, hbig, fread, hav]

/-- C2: when the `Content-Length` value parses to `n` with `1 ≤ n ≤ 1048576`,
`read_request` succeeds exactly when at least `n` bytes follow the header
block; it then returns length `n`, the first `n` of those bytes as the body,
and leaves every later byte unread; with fewer than `n` bytes it ends in the
fatal error of the body read. -/
theorem read_request_body (inp s1 rest val : List Nat) (req : HTTPRequest)
    (header : List HTTPHeaderField) (n : Nat)
    (hline : read_request_line HTTPRequest.blank inp = .ok req s1)
    (hhead : read_header_fields (s1.length + 1) s1 [] = .ok header rest)
    (hval : lookup_header_field_value header (bytes "Content-Length") = some val)
    (hn : atol val = n) (h1 : 1 ≤ n) (h2 : n ≤ 1048576) :
    ((∃ r s, read_request inp = .ok r s) ↔ n ≤ rest.length)
    ∧ (n ≤ rest.length →
        read_request inp = .ok { req with header := header, length := n,
                                          body := some (rest.take n) } (rest.drop n))
    ∧ (rest.length < n → read_request inp = .exit .body_read [] (some n)) := by
  have h := read_request_after_headers inp s1 rest val req header hline hhead hval
  have hneg : ¬ ((n : Int) < 0) := by omega
  have h0 : ¬ ((n : Int) = 0) := by omega
  have hbig : ¬ ((n : Int) > MAX_REQUEST_BODY_LENGTH) := by
    unfold MAX_REQUEST_BODY_LENGTH
    omega
  rw [hn] at h
  simp only [hneg, h0, hbig, if_false, Int.toNat_ofNat] at h
  have hok : n ≤ rest.length →
      read_request inp = .ok { req with header := header, length := n,
                                        body := some (rest.take n) } (rest.drop n) := by
    intro hle
    rw [h, if_pos hle]
  have hbad : rest.length < n → read_request inp = .exit .body_read [] (some n) := by
    intro hlt
    rw [h, if_neg (by omega)]
  refine ⟨⟨?_, fun hle => ⟨_, _, hok hle⟩⟩, hok, hbad⟩
  rintro ⟨r, s, hr⟩
  by_contra hlt
  rw [hbad (by omega)] at hr
  cases hr

/-- The request `Content-Length: 5` followed by `HELLO` and more, through `read_request_body`. -/
theorem read_request_body_witness :
    read_request (bytes "GET / HTTP/1.0\r\nContent-Length: 5\r\n\r\nHELLO and more")
      = .ok { protocol_minor_version := 0, method := bytes "GET", path := bytes "/",
              header := [{ name := bytes "Content-Length", value := bytes "5\r\n" }],
              body := some (bytes "HELLO"), length := 5 } (bytes " and more") :=
  (read_request_body (bytes "GET / HTTP/1.0\r\nContent-Length: 5\r\n\r\nHELLO and more")
    (bytes "Content-Length: 5\r\n\r\nHELLO and more") (bytes "HELLO and more") (bytes "5\r\n")
    { HTTPRequest.blank with method := bytes "GET", path := bytes "/" }
    [{ name := bytes "Content-Length", value := bytes "5\r\n" }] 5
    (by decide) (by decide) (by decide) (by decide) (by decide) (by decide)).2.1 (by decide)

/-- C8: when the `Content-Length` value parses to a negative number,
`read_request` ends in the fatal error of `content_length` with every byte
after the header block still unread and no body buffer allocated. -/
theorem read_request_negative_content_length (inp s1 rest val : List Nat) (req : HTTPRequest)
    (header : List HTTPHeaderField)
    (hline : read_request_line HTTPRequest.blank inp = .ok req s1)
    (hhead : read_header_fields (s1.length + 1) s1 [] = .ok header rest)
    (hval : lookup_header_field_value header (bytes "Content-Length") = some val)
    (hneg : atol val < 0) :
    read_request inp = .exit .negative_content_length rest none := by
  rw [read_request_after_headers inp s1 rest val req header hline hhead hval, if_pos hneg]

/-- The request `Content-Length: -1` followed by three bytes, through
`read_request_negative_content_length`. -/
theorem read_request_negative_content_length_witness :
    read_request (bytes "GET / HTTP/1.0\r\nContent-Length: -1\r\n\r\nabc")
      = .exit .negative_content_length (bytes "abc") none :=
  read_request_negative_content_length (bytes "GET / HTTP/1.0\r\nContent-Length: -1\r\n\r\nabc")
    (bytes "Content-Length: -1\r\n\r\nabc") (bytes "abc") (bytes "-1\r\n")
    { HTTPRequest.blank with method := bytes "GET", path := bytes "/" }
    [{ name := bytes "Content-Length", value := bytes "-1\r\n" }]
    (by decide) (by decide) (by decide) (by decide)

/-- C9: when the `Content-Length` value parses to more than 1048576,
`read_request` ends in the fatal error "request body too long" with every byte
after the header block still unread and no body buffer allocated; at exactly
1048576 it does not end in that error. -/
theorem read_request_body_too_long (inp s1 rest val : List Nat) (req : HTTPRequest)
    (header : List HTTPHeaderField)
    (hline : read_request_line HTTPRequest.blank inp = .ok req s1)
    (hhead : read_header_fields (s1.length + 1) s1 [] = .ok header rest)
    (hval : lookup_header_field_value header (bytes "Content-Length") = some val) :
    (1048576 < atol val → read_request inp = .exit .body_too_long rest none)
    ∧ (atol val = 1048576 → ∀ r a, read_request inp ≠ .exit .body_too_long r a) := by
  have h := read_request_after_headers inp s1 rest val req header hline hhead hval
  constructor
  · intro hbig
    have hneg : ¬ (atol val < 0) := by omega
    have h0 : ¬ (atol val = 0) := by omega
    have hgt : atol val > MAX_REQUEST_BODY_LENGTH := by
      unfold MAX_REQUEST_BODY_LENGTH
      omega
    rw [h, if_neg hneg, if_neg h0, if_pos hgt]
  · intro heq r a
    have hneg : ¬ (atol val < 0) := by omega
    have h0 : ¬ (atol val = 0) := by omega
    have hgt : ¬ (atol val > MAX_REQUEST_BODY_LENGTH) := by
      unfold MAX_REQUEST_BODY_LENGTH
      omega
    rw [h, if_neg hneg, if_neg h0, if_neg hgt]
    split <;> simp

/-- The request `Content-Length: 1048577`, through `read_request_body_too_long`. -/
theorem read_request_body_too_long_witness :
    read_request (bytes "GET / HTTP/1.0\r\nContent-Length: 1048577\r\n\r\nabc")
      = .exit .body_too_long (bytes "abc") none :=
  (read_request_body_too_long (bytes "GET / HTTP/1.0\r\nContent-Length: 1048577\r\n\r\nabc")
    (bytes "Content-Length: 1048577\r\n\r\nabc") (bytes "abc") (bytes "1048577\r\n")
    { HTTPRequest.blank with method := bytes "GET", path := bytes "/" }
    [{ name := bytes "Content-Length", value := bytes "1048577\r\n" }]
    (by decide) (by decide) (by decide)).1 (by decide)

/-! ## No response without a request (C10) -/

/-- C10: when `read_request` ends in a fatal error, whichever it is, `service`
has written no byte to the response output. -/
theorem service_silent_on_parse_failure (env : Env) (inp docroot rest : List Nat) (msg : Fatal)
    (alloc : Option Nat) (h : read_request inp = .exit msg rest alloc) :
    (service env inp docroot).out = [] ∧ (service env inp docroot).exit = some msg := by
  unfold service
  rw [h]
  exact ⟨rfl, rfl⟩

/-- A request line without protocol version, through `service_silent_on_parse_failure`. -/
theorem service_silent_on_parse_failure_witness :
    (service (one_file [] (bytes "/www//index.html") (bytes "hello"))
        (bytes "GET /index.html\r\n\r\n") (bytes "/www")).out = []
    ∧ (service (one_file [] (bytes "/www//index.html") (bytes "hello"))
        (bytes "GET /index.html\r\n\r\n") (bytes "/www")).exit = some .request_line_2 :=
  service_silent_on_parse_failure (one_file [] (bytes "/www//index.html") (bytes "hello"))
    (bytes "GET /index.html\r\n\r\n") (bytes "/www") (bytes "\r\n") .request_line_2 none
    (by decide)

/-! ## Lemmas on the responders -/

theorem get_fileinfo_regular (env : Env) (docroot urlpath : List Nat) (st : Stat)
    (hst : env.lstat (build_fspath docroot urlpath) = some st) (hreg : st.is_reg = true) :
    get_fileinfo env docroot urlpath
      = { path := build_fspath docroot urlpath, size := st.st_size, ok := true } := by
  simp [get_fileinfo, hst, hreg]

theorem get_fileinfo_unresolved (env : Env) (docroot urlpath : List Nat)
    (h : ¬ resolves env docroot urlpath) : (get_fileinfo env docroot urlpath).ok = false := by
  unfold get_fileinfo
  simp only []
  split
  · rfl
  · rename_i st hst
    split
    · rename_i hreg
      exact absurd ⟨st, hst, hreg⟩ h
    · rfl

theorem status_line_first (env : Env) (req : HTTPRequest) (status : List Nat) :
    has_status (output_common_header_fields env req status) status := by
  have h : bytes "HTTP/1." ++ fmt_ld (HTTP_MINOR_VERSION : Nat) ++ bytes " " = bytes "HTTP/1.0 " := by
    decide
  unfold has_status output_common_header_fields
  rw [h]
  exact (List.prefix_append _ _).trans ((List.prefix_append _ _).trans (List.prefix_append _ _))

theorem has_status_append (out more status : List Nat) (h : has_status out status) :
    has_status (out ++ more) status :=
  List.IsPrefix.trans h (List.prefix_append _ _)

theorem has_status_error_response_head (env : Env) (req : HTTPRequest) (status : List Nat) :
    has_status (error_response_head env req status) status := by
  unfold error_response_head
  exact has_status_append _ _ _ (has_status_append _ _ _ (status_line_first env req status))

theorem has_status_file_response_head (env : Env) (req : HTTPRequest) (size : Int) :
    has_status (file_response_head env req size) (bytes "200 OK") := by
  unfold file_response_head
  exact has_status_append _ _ _ (has_status_append _ _ _
    (has_status_append _ _ _ (status_line_first env req _)))

/-- The copy loop, given more rounds than the file has bytes, ends and has
written the file. -/
theorem copy_blocks_all (fuel : Nat) (file : List Nat) (h : file.length < fuel) :
    copy_blocks fuel file = some file := by
  induction fuel generalizing file with
  | zero => omega
  | succ f ih =>
    unfold copy_blocks
    simp only []
    by_cases h0 : (file.take BLOCK_BUF_SIZE).length = 0
    · rw [if_pos h0]
      have : file = [] := by
        cases file with
        | nil => rfl
        | cons c l => simp [BLOCK_BUF_SIZE] at h0
      rw [this]
    · rw [if_neg h0]
      have hpos : 0 < file.length := by
        cases file with
        | nil => simp at h0
        | cons c l => simp
      have hlt : (file.drop BLOCK_BUF_SIZE).length < f := by
        simp only [List.length_drop, BLOCK_BUF_SIZE]
        omega
      rw [ih _ hlt]
      simp

theorem content_type_line :
    bytes "Content-Type: " ++ (bytes "text/plain" ++ bytes "\r\n")
      = bytes "Content-Type: text/plain\r\n" := by decide

theorem do_file_response_get (env : Env) (req : HTTPRequest) (docroot : List Nat) (st : Stat)
    (c : List Nat) (hm : req.method = bytes "GET")
    (hst : env.lstat (build_fspath docroot req.path) = some st) (hreg : st.is_reg = true)
    (hopen : env.open_read (build_fspath docroot req.path) = some c) :
    do_file_response env req docroot
      = { out := file_response_head env req st.st_size ++ c, exit := none } := by
  have hne : strcmp_eq req.method (bytes "HEAD") = false := by
    rw [hm]
    decide
  unfold do_file_response
  simp only [get_fileinfo_regular env docroot req.path st hst hreg, hne, hopen,
    copy_blocks_all _ c (Nat.lt_succ_self _), guess_content_type]
  simp [file_response_head, ← content_type_line]

theorem do_file_response_head (env : Env) (req : HTTPRequest) (docroot : List Nat) (st : Stat)
    (hm : req.method = bytes "HEAD")
    (hst : env.lstat (build_fspath docroot req.path) = some st) (hreg : st.is_reg = true) :
    do_file_response env req docroot
      = { out := file_response_head env req st.st_size, exit := none } := by
  have hne : strcmp_eq req.method (bytes "HEAD") = true := by
    rw [hm]
    decide
  unfold do_file_response
  simp only [get_fileinfo_regular env docroot req.path st hst hreg, hne, guess_content_type]
  simp [file_response_head, ← content_type_line]

theorem do_file_response_unresolved (env : Env) (req : HTTPRequest) (docroot : List Nat)
    (h : ¬ resolves env docroot req.path) :
    do_file_response env req docroot = { out := not_found env req, exit := none } := by
  unfold do_file_response
  simp [get_fileinfo_unresolved env docroot req.path h]

theorem respond_to_get_or_head (env : Env) (req : HTTPRequest) (docroot : List Nat)
    (hm : req.method = bytes "GET" ∨ req.method = bytes "HEAD") :
    respond_to env req docroot = do_file_response env req docroot := by
  unfold respond_to
  rcases hm with h | h
  · simp [strcmp_eq, h]
  · simp [strcmp_eq, h]

theorem respond_to_post (env : Env) (req : HTTPRequest) (docroot : List Nat)
    (hm : req.method = bytes "POST") :
    respond_to env req docroot = { out := method_not_allowed env req, exit := none } := by
  unfold respond_to
  rw [hm]
  have h1 : strcmp_eq (bytes "POST") (bytes "GET") = false := by decide
  have h2 : strcmp_eq (bytes "POST") (bytes "HEAD") = false := by decide
  have h3 : strcmp_eq (bytes "POST") (bytes "POST") = true := by decide
  simp [h1, h2, h3]

theorem respond_to_other (env : Env) (req : HTTPRequest) (docroot : List Nat)
    (h1 : req.method ≠ bytes "GET") (h2 : req.method ≠ bytes "HEAD")
    (h3 : req.method ≠ bytes "POST") :
    respond_to env req docroot = { out := not_implemented env req, exit := none } := by
  unfold respond_to
  simp [strcmp_eq, h1, h2, h3]

theorem not_found_eq (env : Env) (req : HTTPRequest) :
    not_found env req = error_response_head env req (bytes "404 Not Found")
      ++ (if strcmp_eq req.method (bytes "HEAD") then []
          else bytes "<html>\r\n"
            ++ bytes "<header><title>Not Found</title><header>\r\n"
            ++ bytes "<body><p>File not found</p></body>\r\n"
            ++ bytes "</html>\r\n") := rfl

theorem method_not_allowed_eq (env : Env) (req : HTTPRequest) :
    method_not_allowed env req = error_response_head env req (bytes "405 Method Not Allowed")
      ++ (bytes "<html>\r\n"
        ++ bytes "<header>\r\n"
        ++ bytes "<title>405 Method Not Allowed</title>\r\n"
        ++ bytes "<header>\r\n"
        ++ bytes "<body>\r\n"
        ++ (bytes "<p>The request method " ++ req.method ++ bytes " is not allowed</p>\r\n")
        ++ bytes "</body>\r\n"
        ++ bytes "</html>\r\n") := rfl

theorem not_implemented_eq (env : Env) (req : HTTPRequest) :
    not_implemented env req = error_response_head env req (bytes "501 Not Implemented")
      ++ (bytes "<html>\r\n"
        ++ bytes "<header>\r\n"
        ++ bytes "<title>501 Not Implemented</title>\r\n"
        ++ bytes "<header>\r\n"
        ++ bytes "<body>\r\n"
        ++ (bytes "<p>The request method " ++ req.method ++ bytes " is not implemented</p>\r\n")
        ++ bytes "</body>\r\n"
        ++ bytes "</html>\r\n") := rfl

/-- C3: `respond_to` writes one response, whose status follows from the method
and the file resolution: 200 for GET or HEAD on a path that resolves, 404 for
GET or HEAD on one that does not, 405 for POST with a body naming POST, and
501 for any other method with a body naming that method. -/
theorem respond_to_status (env : Env) (req : HTTPRequest) (docroot : List Nat) :
    ((req.method = bytes "GET" ∨ req.method = bytes "HEAD") →
      resolves env docroot req.path →
      ∃ size body, (respond_to env req docroot).out = file_response_head env req size ++ body
        ∧ has_status (respond_to env req docroot).out (bytes "200 OK"))
    ∧ ((req.method = bytes "GET" ∨ req.method = bytes "HEAD") →
      ¬ resolves env docroot req.path →
      ∃ body, respond_to env req docroot
          = { out := error_response_head env req (bytes "404 Not Found") ++ body, exit := none }
        ∧ has_status (respond_to env req docroot).out (bytes "404 Not Found"))
    ∧ (req.method = bytes "POST" →
      ∃ body, respond_to env req docroot
          = { out := error_response_head env req (bytes "405 Method Not Allowed") ++ body,
              exit := none }
        ∧ has_status (respond_to env req docroot).out (bytes "405 Method Not Allowed")
        ∧ bytes "The request method POST is not allowed" <:+: body)
    ∧ (req.method ≠ bytes "GET" → req.method ≠ bytes "HEAD" → req.method ≠ bytes "POST" →
      ∃ body, respond_to env req docroot
          = { out := error_response_head env req (bytes "501 Not Implemented") ++ body,
              exit := none }
        ∧ has_status (respond_to env req docroot).out (bytes "501 Not Implemented")
        ∧ (bytes "The request method " ++ req.method ++ bytes " is not implemented")
            <:+: body) := by
  refine ⟨?_, ?_, ?_, ?_⟩
  · rintro hm ⟨st, hst, hreg⟩
    rw [respond_to_get_or_head env req docroot hm]
    have hinfo := get_fileinfo_regular env docroot req.path st hst hreg
    refine ⟨st.st_size, ?_⟩
    unfold do_file_response
    simp only [hinfo, guess_content_type, Bool.not_true, Bool.false_eq_true, if_false]
    have hhead : output_common_header_fields env req (bytes "200 OK")
        ++ (bytes "Content-Length: " ++ fmt_ld st.st_size ++ bytes "\r\n")
        ++ (bytes "Content-Type: " ++ bytes "text/plain" ++ bytes "\r\n")
        ++ bytes "\r\n" = file_response_head env req st.st_size := by
      simp [file_response_head, ← content_type_line]
    rw [hhead]
    have hs := has_status_file_response_head env req st.st_size
    split
    · exact ⟨[], by simp, hs⟩
    · split
      · exact ⟨[], by simp, hs⟩
      · split
        · exact ⟨[], by simp, hs⟩
        · exact ⟨_, rfl, has_status_append _ _ _ hs⟩
  · intro hm hres
    rw [respond_to_get_or_head env req docroot hm, do_file_response_unresolved env req docroot hres,
      not_found_eq]
    exact ⟨_, rfl, has_status_append _ _ _ (has_status_error_response_head env req _)⟩
  · intro hm
    rw [respond_to_post env req docroot hm, method_not_allowed_eq]
    refine ⟨_, rfl, has_status_append _ _ _ (has_status_error_response_head env req _), ?_⟩
    refine ⟨bytes "<html>\r\n" ++ bytes "<header>\r\n"
        ++ bytes "<title>405 Method Not Allowed</title>\r\n" ++ bytes "<header>\r\n"
        ++ bytes "<body>\r\n" ++ bytes "<p>", bytes "</p>\r\n" ++ bytes "</body>\r\n"
        ++ bytes "</html>\r\n", ?_⟩
    have ha : bytes "<p>The request method " = bytes "<p>" ++ bytes "The request method " := by
      decide
    have hb : bytes " is not allowed</p>\r\n" = bytes " is not allowed" ++ bytes "</p>\r\n" := by
      decide
    have hc : bytes "The request method POST is not allowed"
        = bytes "The request method " ++ bytes "POST" ++ bytes " is not allowed" := by decide
    rw [hm, ha, hb, hc]
    simp only [List.append_assoc]
  · intro h1 h2 h3
    rw [respond_to_other env req docroot h1 h2 h3, not_implemented_eq]
    refine ⟨_, rfl, has_status_append _ _ _ (has_status_error_response_head env req _), ?_⟩
    refine ⟨bytes "<html>\r\n" ++ bytes "<header>\r\n"
        ++ bytes "<title>501 Not Implemented</title>\r\n" ++ bytes "<header>\r\n"
        ++ bytes "<body>\r\n" ++ bytes "<p>", bytes "</p>\r\n" ++ bytes "</body>\r\n"
        ++ bytes "</html>\r\n", ?_⟩
    have ha : bytes "<p>The request method " = bytes "<p>" ++ bytes "The request method " := by
      decide
    have hb : bytes " is not implemented</p>\r\n"
        = bytes " is not implemented" ++ bytes "</p>\r\n" := by decide
    rw [ha, hb]
    simp only [List.append_assoc]

/-! ## The file response (C4, C5, C6) -/

theorem one_file_lstat (date path content : List Nat) :
    (one_file date path content).lstat path
      = some { is_reg := true, st_size := (content.length : Nat) } := by
  simp [one_file]

theorem one_file_open_read (date path content : List Nat) :
    (one_file date path content).open_read path = some content := by
  simp [one_file]

/-- C4: for a GET request whose path resolves to a regular file that opens
with content `c`, of any length, the copy loop ends within its fuel having
written `c`, and the response is the 200 header block followed by exactly `c`. -/
theorem do_file_response_copies_file (env : Env) (req : HTTPRequest) (docroot : List Nat)
    (st : Stat) (c : List Nat) (hm : req.method = bytes "GET")
    (hst : env.lstat (build_fspath docroot req.path) = some st) (hreg : st.is_reg = true)
    (hopen : env.open_read (build_fspath docroot req.path) = some c) :
    copy_blocks (c.length + 1) c = some c
    ∧ do_file_response env req docroot
        = { out := file_response_head env req st.st_size ++ c, exit := none } :=
  ⟨copy_blocks_all _ c (Nat.lt_succ_self _),
    do_file_response_get env req docroot st c hm hst hreg hopen⟩

/-- A file of 2500 bytes, more than two blocks, through `do_file_response_copies_file`. -/
theorem do_file_response_copies_file_witness :
    copy_blocks (2500 + 1) (List.replicate 2500 65) = some (List.replicate 2500 65)
    ∧ do_file_response (one_file [] (bytes "/www//a.txt") (List.replicate 2500 65))
        { HTTPRequest.blank with method := bytes "GET", path := bytes "/a.txt" } (bytes "/www")
      = { out := file_response_head (one_file [] (bytes "/www//a.txt") (List.replicate 2500 65))
                   { HTTPRequest.blank with method := bytes "GET", path := bytes "/a.txt" } 2500
                 ++ List.replicate 2500 65,
          exit := none } := by
  have hp : build_fspath (bytes "/www") (bytes "/a.txt") = bytes "/www//a.txt" := by decide
  have h := do_file_response_copies_file
    (one_file [] (bytes "/www//a.txt") (List.replicate 2500 65))
    { HTTPRequest.blank with method := bytes "GET", path := bytes "/a.txt" } (bytes "/www")
    { is_reg := true, st_size := ((List.replicate 2500 65).length : Nat) } (List.replicate 2500 65)
    rfl (hp ▸ one_file_lstat _ _ _) rfl (hp ▸ one_file_open_read _ _ _)
  simp only [List.length_replicate, Nat.cast_ofNat] at h
  exact h

theorem one_file_lstat_other (date path content p : List Nat) (h : p ≠ path) :
    (one_file date path content).lstat p = none := by
  simp [one_file, h]

theorem file_response_head_blank_line (env : Env) (req : HTTPRequest) (size : Int) :
    bytes "\r\n\r\n" <:+ file_response_head env req size := by
  have h : bytes "Content-Type: text/plain\r\n" ++ bytes "\r\n"
      = bytes "Content-Type: text/plain" ++ bytes "\r\n\r\n" := by decide
  unfold file_response_head
  rw [List.append_assoc, h, ← List.append_assoc]
  exact List.suffix_append _ _

theorem error_response_head_blank_line (env : Env) (req : HTTPRequest) (status : List Nat) :
    bytes "\r\n\r\n" <:+ error_response_head env req status := by
  have h : bytes "Content-Type: text/html\r\n" ++ bytes "\r\n"
      = bytes "Content-Type: text/html" ++ bytes "\r\n\r\n" := by decide
  unfold error_response_head
  rw [List.append_assoc, h, ← List.append_assoc]
  exact List.suffix_append _ _

/-- C6: for a HEAD request the response is a header block and nothing more,
the 200 block when the path resolves and the 404 block when it does not; in
both cases the output ends with the blank line. -/
theorem respond_to_head_no_body (env : Env) (req : HTTPRequest) (docroot : List Nat)
    (hm : req.method = bytes "HEAD") :
    (∀ st, env.lstat (build_fspath docroot req.path) = some st → st.is_reg = true →
      respond_to env req docroot = { out := file_response_head env req st.st_size, exit := none })
    ∧ (¬ resolves env docroot req.path →
      respond_to env req docroot
        = { out := error_response_head env req (bytes "404 Not Found"), exit := none })
    ∧ bytes "\r\n\r\n" <:+ (respond_to env req docroot).out := by
  have h200 : ∀ st, env.lstat (build_fspath docroot req.path) = some st → st.is_reg = true →
      respond_to env req docroot
        = { out := file_response_head env req st.st_size, exit := none } := by
    intro st hst hreg
    rw [respond_to_get_or_head env req docroot (Or.inr hm)]
    exact do_file_response_head env req docroot st hm hst hreg
  have h404 : ¬ resolves env docroot req.path →
      respond_to env req docroot
        = { out := error_response_head env req (bytes "404 Not Found"), exit := none } := by
    intro hres
    have hhead : strcmp_eq req.method (bytes "HEAD") = true := by
      rw [hm]
      decide
    rw [respond_to_get_or_head env req docroot (Or.inr hm),
      do_file_response_unresolved env req docroot hres, not_found_eq, hhead]
    simp
  refine ⟨h200, h404, ?_⟩
  by_cases hres : resolves env docroot req.path
  · obtain ⟨st, hst, hreg⟩ := hres
    rw [h200 st hst hreg]
    exact file_response_head_blank_line env req _
  · rw [h404 hres]
    exact error_response_head_blank_line env req _

/-- A HEAD request for a path that does not resolve, through `respond_to_head_no_body`. -/
theorem respond_to_head_no_body_witness :
    respond_to (one_file [] (bytes "/www//a.txt") (bytes "hello"))
        { HTTPRequest.blank with method := bytes "HEAD", path := bytes "/b.txt" } (bytes "/www")
      = { out := error_response_head (one_file [] (bytes "/www//a.txt") (bytes "hello"))
            { HTTPRequest.blank with method := bytes "HEAD", path := bytes "/b.txt" }
            (bytes "404 Not Found"),
          exit := none } :=
  (respond_to_head_no_body (one_file [] (bytes "/www//a.txt") (bytes "hello"))
    { HTTPRequest.blank with method := bytes "HEAD", path := bytes "/b.txt" } (bytes "/www")
    rfl).2.1 (by
      rintro ⟨st, hst, _⟩
      rw [one_file_lstat_other _ _ _ _ (by decide)] at hst
      cases hst)

/-! ## Paths that do not resolve (C7) -/

/-- C7, as stated, fails for every method but GET and HEAD: a POST and a
DELETE for a path that does not resolve are answered 405 and 501, not 404. -/
theorem respond_to_not_found_counterexample :
    ¬ resolves (one_file [] (bytes "/www//a.txt") (bytes "hello")) (bytes "/www") (bytes "/b.txt")
    ∧ read_request (bytes "POST /b.txt HTTP/1.0\r\n\r\n")
        = .ok { HTTPRequest.blank with method := bytes "POST", path := bytes "/b.txt" } []
    ∧ has_status (respond_to (one_file [] (bytes "/www//a.txt") (bytes "hello"))
          { HTTPRequest.blank with method := bytes "POST", path := bytes "/b.txt" }
          (bytes "/www")).out (bytes "405 Method Not Allowed")
    ∧ ¬ has_status (respond_to (one_file [] (bytes "/www//a.txt") (bytes "hello"))
          { HTTPRequest.blank with method := bytes "POST", path := bytes "/b.txt" }
          (bytes "/www")).out (bytes "404 Not Found")
    ∧ read_request (bytes "DELETE /b.txt HTTP/1.0\r\n\r\n")
        = .ok { HTTPRequest.blank with method := bytes "DELETE", path := bytes "/b.txt" } []
    ∧ has_status (respond_to (one_file [] (bytes "/www//a.txt") (bytes "hello"))
          { HTTPRequest.blank with method := bytes "DELETE", path := bytes "/b.txt" }
          (bytes "/www")).out (bytes "501 Not Implemented") := by
  refine ⟨?_, by decide, by decide, by decide, by decide, by decide⟩
  rintro ⟨st, hst, _⟩
  rw [one_file_lstat_other _ _ _ _ (by decide)] at hst
  cases hst

/-- C7 (amended): for a request whose method is GET or HEAD and whose path does
not resolve to an existing regular file, the status is 404 and, unless the
method is HEAD, the body holds the text "File not found". -/
theorem respond_to_not_found (env : Env) (req : HTTPRequest) (docroot : List Nat)
    (hm : req.method = bytes "GET" ∨ req.method = bytes "HEAD")
    (hres : ¬ resolves env docroot req.path) :
    has_status (respond_to env req docroot).out (bytes "404 Not Found")
    ∧ (req.method ≠ bytes "HEAD" →
        ∃ body, respond_to env req docroot
            = { out := error_response_head env req (bytes "404 Not Found") ++ body,
                exit := none }
          ∧ bytes "File not found" <:+: body) := by
  rw [respond_to_get_or_head env req docroot hm, do_file_response_unresolved env req docroot hres,
    not_found_eq]
  refine ⟨has_status_append _ _ _ (has_status_error_response_head env req _), ?_⟩
  intro hne
  have hhead : strcmp_eq req.method (bytes "HEAD") = false := by
    simp [strcmp_eq, hne]
  rw [hhead]
  refine ⟨_, rfl, ?_⟩
  simp only [Bool.false_eq_true, if_false]
  refine ⟨bytes "<html>\r\n" ++ bytes "<header><title>Not Found</title><header>\r\n"
    ++ bytes "<body><p>", bytes "</p></body>\r\n" ++ bytes "</html>\r\n", ?_⟩
  have h : bytes "<body><p>File not found</p></body>\r\n"
      = bytes "<body><p>" ++ bytes "File not found" ++ bytes "</p></body>\r\n" := by decide
  rw [h]
  simp only [List.append_assoc]

/-- A GET for a path that does not resolve, through `respond_to_not_found`. -/
theorem respond_to_not_found_witness :
    has_status (respond_to (one_file [] (bytes "/www//a.txt") (bytes "hello"))
        { HTTPRequest.blank with method := bytes "GET", path := bytes "/b.txt" }
        (bytes "/www")).out (bytes "404 Not Found") :=
  (respond_to_not_found (one_file [] (bytes "/www//a.txt") (bytes "hello"))
    { HTTPRequest.blank with method := bytes "GET", path := bytes "/b.txt" } (bytes "/www")
    (Or.inl rfl) (by
      rintro ⟨st, hst, _⟩
      rw [one_file_lstat_other _ _ _ _ (by decide)] at hst
      cases hst)).1

/-! ## Header lookup (C13) -/

theorem tolower_eq_iff (x y : Nat) : tolower x = tolower y ↔ same_letter x y := by
  unfold tolower same_letter
  constructor
  · intro h
    split at h <;> split at h <;> omega
  · intro h
    split <;> split <;> omega

theorem strcasecmp_eq_iff (s t : List Nat) : strcasecmp_eq s t = true ↔ eq_ignore_case s t := by
  unfold strcasecmp_eq eq_ignore_case
  rw [beq_iff_eq]
  induction s generalizing t with
  | nil =>
    cases t with
    | nil => simp
    | cons y t => simp
  | cons x s ih =>
    cases t with
    | nil => simp
    | cons y t =>
      simp only [List.map_cons, List.cons.injEq, List.forall₂_cons, ih t, tolower_eq_iff]

theorem lookup_none_iff (hs : List HTTPHeaderField) (name : List Nat) :
    lookup_header_field_value hs name = none ↔ ∀ h ∈ hs, ¬ eq_ignore_case h.name name := by
  induction hs with
  | nil => simp [lookup_header_field_value]
  | cons h next ih =>
    unfold lookup_header_field_value
    by_cases hc : strcasecmp_eq h.name name = true
    · have he := (strcasecmp_eq_iff _ _).1 hc
      simp [hc, he]
    · have he : ¬ eq_ignore_case h.name name := fun e => hc ((strcasecmp_eq_iff _ _).2 e)
      simp [hc, he, ih]

theorem lookup_some_iff (hs : List HTTPHeaderField) (name v : List Nat) :
    lookup_header_field_value hs name = some v ↔
      ∃ before h after, hs = before ++ h :: after
        ∧ (∀ g ∈ before, ¬ eq_ignore_case g.name name)
        ∧ eq_ignore_case h.name name ∧ h.value = v := by
  induction hs with
  | nil => simp [lookup_header_field_value]
  | cons h next ih =>
    unfold lookup_header_field_value
    by_cases hc : strcasecmp_eq h.name name = true
    · have he := (strcasecmp_eq_iff _ _).1 hc
      rw [if_pos hc]
      constructor
      · intro hv
        exact ⟨[], h, next, rfl, by simp, he, Option.some.inj hv⟩
      · rintro ⟨before, g, after, heq, hnot, _, hval⟩
        cases before with
        | nil =>
          simp only [List.nil_append, List.cons.injEq] at heq
          rw [heq.1, hval]
        | cons b before =>
          simp only [List.cons_append, List.cons.injEq] at heq
          exact absurd (heq.1 ▸ he) (hnot b (by simp))
    · have he : ¬ eq_ignore_case h.name name := fun e => hc ((strcasecmp_eq_iff _ _).2 e)
      rw [if_neg hc, ih]
      constructor
      · rintro ⟨before, g, after, heq, hnot, hg, hval⟩
        refine ⟨h :: before, g, after, by simp [heq], ?_, hg, hval⟩
        intro x hx
        rcases List.mem_cons.1 hx with hx | hx
        · rw [hx]; exact he
        · exact hnot x hx
      · rintro ⟨before, g, after, heq, hnot, hg, hval⟩
        cases before with
        | nil =>
          simp only [List.nil_append, List.cons.injEq] at heq
          exact absurd (heq.1 ▸ hg) he
        | cons b before =>
          simp only [List.cons_append, List.cons.injEq] at heq
          exact ⟨before, g, after, heq.2, fun x hx => hnot x (by simp [hx]), hg, hval⟩

/-- C13: `lookup_header_field_value` returns a value exactly when it is the
value of the first field of the list, in storage order, whose name equals the
requested name ignoring ASCII letter case, and returns NULL exactly when no
field of the list has such a name. -/
theorem lookup_header_field_value_first_match (hs : List HTTPHeaderField) (name : List Nat) :
    (∀ v, lookup_header_field_value hs name = some v ↔
      ∃ before h after, hs = before ++ h :: after
        ∧ (∀ g ∈ before, ¬ eq_ignore_case g.name name)
        ∧ eq_ignore_case h.name name ∧ h.value = v)
    ∧ (lookup_header_field_value hs name = none ↔
        ∀ h ∈ hs, ¬ eq_ignore_case h.name name) :=
  ⟨fun v => lookup_some_iff hs name v, lookup_none_iff hs name⟩

/-! ## Order of the response header lines (C12) -/

theorem do_file_response_resolved (env : Env) (req : HTTPRequest) (docroot : List Nat)
    (st : Stat) (hst : env.lstat (build_fspath docroot req.path) = some st)
    (hreg : st.is_reg = true) :
    ∃ body, (do_file_response env req docroot).out
      = file_response_head env req st.st_size ++ body := by
  have hinfo := get_fileinfo_regular env docroot req.path st hst hreg
  unfold do_file_response
  simp only [hinfo, guess_content_type, Bool.not_true, Bool.false_eq_true, if_false]
  have hhead : output_common_header_fields env req (bytes "200 OK")
      ++ (bytes "Content-Length: " ++ fmt_ld st.st_size ++ bytes "\r\n")
      ++ (bytes "Content-Type: " ++ bytes "text/plain" ++ bytes "\r\n")
      ++ bytes "\r\n" = file_response_head env req st.st_size := by
    simp [file_response_head, ← content_type_line]
  rw [hhead]
  split
  · exact ⟨[], by simp⟩
  · split
    · exact ⟨[], by simp⟩
    · split
      · exact ⟨[], by simp⟩
      · exact ⟨_, rfl⟩

/-- Every response is the 200 header block for the size `lstat` reported, or
an error header block with one of three statuses, followed by a body. -/
theorem respond_to_shape (env : Env) (req : HTTPRequest) (docroot : List Nat) :
    (∃ st body, env.lstat (build_fspath docroot req.path) = some st
        ∧ (respond_to env req docroot).out = file_response_head env req st.st_size ++ body)
    ∨ (∃ status body, (status = bytes "404 Not Found" ∨ status = bytes "405 Method Not Allowed"
          ∨ status = bytes "501 Not Implemented")
        ∧ (respond_to env req docroot).out = error_response_head env req status ++ body) := by
  by_cases hm : req.method = bytes "GET" ∨ req.method = bytes "HEAD"
  · rw [respond_to_get_or_head env req docroot hm]
    by_cases hres : resolves env docroot req.path
    · obtain ⟨st, hst, hreg⟩ := hres
      obtain ⟨body, hb⟩ := do_file_response_resolved env req docroot st hst hreg
      exact Or.inl ⟨st, body, hst, hb⟩
    · rw [do_file_response_unresolved env req docroot hres, not_found_eq]
      exact Or.inr ⟨_, _, Or.inl rfl, rfl⟩
  · have h1 : req.method ≠ bytes "GET" := fun h => hm (Or.inl h)
    have h2 : req.method ≠ bytes "HEAD" := fun h => hm (Or.inr h)
    by_cases h3 : req.method = bytes "POST"
    · rw [respond_to_post env req docroot h3, method_not_allowed_eq]
      exact Or.inr ⟨_, _, Or.inr (Or.inl rfl), rfl⟩
    · rw [respond_to_other env req docroot h1 h2 h3, not_implemented_eq]
      exact Or.inr ⟨_, _, Or.inr (Or.inr rfl), rfl⟩

theorem output_common_header_fields_lines (env : Env) (req : HTTPRequest) (status : List Nat) :
    output_common_header_fields env req status
      = bytes "HTTP/1.0 " ++ status ++ bytes "\r\n"
        ++ (bytes "Date: " ++ env.date ++ bytes "\r\n")
        ++ bytes "Server: LittleHTTP/1.0\r\n"
        ++ bytes "Connection: close\r\n" := by
  have h1 : bytes "HTTP/1." ++ fmt_ld (HTTP_MINOR_VERSION : Nat) ++ bytes " " = bytes "HTTP/1.0 " := by
    decide
  have h2 : bytes "Server: " ++ SERVER_NAME ++ bytes "/" ++ SERVER_VERSION ++ bytes "\r\n"
      = bytes "Server: LittleHTTP/1.0\r\n" := by decide
  unfold output_common_header_fields
  rw [h1, h2]

/-- C12: every response starts with the status line, then the `Date` line, the
`Server: LittleHTTP/1.0` line and the `Connection: close` line, each ended by
CRLF, and only then its own header lines: `Content-Length` with the size and
`Content-Type` for a 200 response, `Content-Type` alone for the others,
followed by the blank line. -/
theorem respond_to_header_order (env : Env) (req : HTTPRequest) (docroot : List Nat) :
    ∃ status specific,
      (respond_to env req docroot).out
        = bytes "HTTP/1.0 " ++ status ++ bytes "\r\n"
          ++ (bytes "Date: " ++ env.date ++ bytes "\r\n")
          ++ bytes "Server: LittleHTTP/1.0\r\n"
          ++ bytes "Connection: close\r\n"
          ++ specific
      ∧ ((status = bytes "200 OK"
          ∧ ∃ st body, env.lstat (build_fspath docroot req.path) = some st
            ∧ specific = bytes "Content-Length: " ++ fmt_ld st.st_size ++ bytes "\r\n"
                ++ bytes "Content-Type: text/plain\r\n" ++ bytes "\r\n" ++ body)
        ∨ ((status = bytes "404 Not Found" ∨ status = bytes "405 Method Not Allowed"
              ∨ status = bytes "501 Not Implemented")
          ∧ ∃ body, specific = bytes "Content-Type: text/html\r\n" ++ bytes "\r\n" ++ body)) := by
  rcases respond_to_shape env req docroot with ⟨st, body, hst, hout⟩ | ⟨status, body, hs, hout⟩
  · refine ⟨bytes "200 OK", _, ?_, Or.inl ⟨rfl, st, body, hst, rfl⟩⟩
    rw [hout, file_response_head, output_common_header_fields_lines]
    simp only [List.append_assoc]
  · refine ⟨status, _, ?_, Or.inr ⟨hs, body, rfl⟩⟩
    rw [hout, error_response_head, output_common_header_fields_lines]
    simp only [List.append_assoc]

/-! ## One header line (C15, C16) -/

theorem strchr_some (s l r : List Nat) (c : Nat) (h : strchr s c = some (l, r)) :
    s = l ++ c :: r ∧ c ∉ l := by
  induction s generalizing l with
  | nil => simp [strchr] at h
  | cons x s ih =>
    unfold strchr at h
    by_cases hx : x = c
    · rw [if_pos hx] at h
      simp only [Option.some.injEq, Prod.mk.injEq] at h
      rw [← h.1, ← h.2, hx]
      simp
    · rw [if_neg hx] at h
      split at h
      · cases h
      · rename_i l1 r1 hs
        simp only [Option.some.injEq, Prod.mk.injEq] at h
        rw [h.2] at hs
        obtain ⟨h1, h2⟩ := ih l1 hs
        rw [← h.1]
        refine ⟨by rw [h1]; simp, ?_⟩
        intro hc
        rcases List.mem_cons.1 hc with hc | hc
        · exact hx hc.symm
        · exact h2 hc

theorem strchr_mem (s : List Nat) (c : Nat) (h : c ∈ s) : ∃ l r, strchr s c = some (l, r) := by
  cases hs : strchr s c with
  | some lr => exact ⟨lr.1, lr.2, rfl⟩
  | none =>
    exfalso
    induction s with
    | nil => simp at h
    | cons x s ih =>
      unfold strchr at hs
      by_cases hx : x = c
      · rw [if_pos hx] at hs
        cases hs
      · rw [if_neg hx] at hs
        rcases List.mem_cons.1 h with hc | hc
        · exact hx hc.symm
        · split at hs
          · rename_i hn
            exact ih hc hn
          · cases hs

/-- In the line `fgets` stores, nothing follows a LF. -/
theorem fgets_chars_lf_last (inp : List Nat) (n : Nat) (a b : List Nat)
    (h : (fgets_chars inp n).1 = a ++ LF :: b) : b = [] := by
  induction inp generalizing n a with
  | nil => simp [fgets_chars] at h
  | cons c s ih =>
    unfold fgets_chars at h
    by_cases h0 : n = 0
    · rw [if_pos h0] at h
      simp at h
    · rw [if_neg h0] at h
      by_cases hc : c = LF
      · rw [if_pos hc] at h
        cases a with
        | nil =>
          simp only [List.nil_append, List.cons.injEq] at h
          exact h.2.symm
        | cons x a =>
          simp only [List.cons_append, List.cons.injEq] at h
          have := h.2
          simp at this
      · rw [if_neg hc] at h
        cases a with
        | nil =>
          simp only [List.nil_append, List.cons_eq_cons] at h
          exact absurd h.1 hc
        | cons x a =>
          simp only [List.cons_append, List.cons_eq_cons] at h
          exact ih (n - 1) a h.2

theorem fgets_lf_last (size : Nat) (inp line rest a b : List Nat)
    (hf : fgets size inp = some (line, rest)) (h : line = a ++ LF :: b) : b = [] := by
  cases inp with
  | nil => simp [fgets] at hf
  | cons c s =>
    simp only [fgets, Option.some.injEq] at hf
    have h1 : (fgets_chars (c :: s) (size - 1)).1 = line := by rw [hf]
    exact fgets_chars_lf_last (c :: s) (size - 1) a b (h1.trans h)

theorem cstr_eq_cons (s t : List Nat) (c : Nat) (h : cstr s = c :: t) :
    ∃ s1, s = c :: s1 ∧ cstr s1 = t := by
  cases s with
  | nil => simp [cstr] at h
  | cons x s =>
    unfold cstr at h
    by_cases hx : x = NUL
    · rw [if_pos hx] at h
      cases h
    · rw [if_neg hx] at h
      simp only [List.cons.injEq] at h
      exact ⟨s, by rw [h.1], h.2⟩

/-- The line `fgets` stored is an empty line exactly when the test of
`read_header_field` says so. -/
theorem blank_line_test (size : Nat) (inp line rest : List Nat)
    (hf : fgets size inp = some (line, rest)) :
    (line.head? = some LF ∨ cstr line = CRLF) ↔ (line = [LF] ∨ line = [CR, LF]) := by
  constructor
  · rintro (h | h)
    · left
      cases line with
      | nil => simp at h
      | cons c l =>
        simp only [List.head?_cons, Option.some.injEq] at h
        have := fgets_lf_last size inp (c :: l) rest [] l hf (by rw [h]; rfl)
        rw [h, this]
    · right
      obtain ⟨s1, h1, h2⟩ := cstr_eq_cons line [LF] CR h
      obtain ⟨s2, h3, _⟩ := cstr_eq_cons s1 [] LF h2
      have := fgets_lf_last size inp line rest [CR] s2 hf (by rw [h1, h3]; rfl)
      rw [h1, h3, this]
  · rintro (h | h)
    · left
      rw [h]
      rfl
    · right
      rw [h]
      decide

/-- `read_header_field` on the line that `fgets` stored. -/
theorem read_header_field_of_line (inp line rest : List Nat)
    (hf : fgets LINE_BUF_SIZE inp = some (line, rest)) :
    read_header_field inp =
      if line = [LF] ∨ line = [CR, LF] then .ok none rest
      else match strchr (cstr line) COLON with
        | none => .exit .header_parse rest none
        | some (name, p) => .ok (some { name := name, value := skip_strspn_blank p }) rest := by
  unfold read_header_field
  rw [hf]
  simp only []
  by_cases hb : line = [LF] ∨ line = [CR, LF]
  · rw [if_pos hb, if_pos ((blank_line_test _ inp line rest hf).2 hb)]
  · rw [if_neg hb, if_neg (fun h => hb ((blank_line_test _ inp line rest hf).1 h))]

/-- C16, as stated, fails on a line with a NUL byte before its first colon:
the line holds a ':' and is not empty, yet the parser exits. -/
theorem read_header_field_outcomes_counterexample :
    COLON ∈ bytes "a" ++ [NUL] ++ bytes ":b\r\n"
    ∧ fgets LINE_BUF_SIZE (bytes "a" ++ [NUL] ++ bytes ":b\r\n" ++ bytes "\r\n")
        = some (bytes "a" ++ [NUL] ++ bytes ":b\r\n", bytes "\r\n")
    ∧ read_header_field (bytes "a" ++ [NUL] ++ bytes ":b\r\n" ++ bytes "\r\n")
        = .exit .header_parse (bytes "\r\n") none := by
  refine ⟨by decide, by decide, by decide⟩

/-- C16 (amended): for the line that `fgets` read in the header block,
`read_header_field` signals the end of the block exactly when the line is
`"\n"` or `"\r\n"`; otherwise, when the line holds no ':' before its first NUL
byte, it exits at the parse error; otherwise it returns a header field. -/
theorem read_header_field_outcomes (inp line rest : List Nat)
    (hf : fgets LINE_BUF_SIZE inp = some (line, rest)) :
    (read_header_field inp = .ok none rest ↔ line = [LF] ∨ line = [CR, LF])
    ∧ (line ≠ [LF] → line ≠ [CR, LF] → COLON ∉ cstr line →
        read_header_field inp = .exit .header_parse rest none)
    ∧ (line ≠ [LF] → line ≠ [CR, LF] → COLON ∈ cstr line →
        ∃ h, read_header_field inp = .ok (some h) rest) := by
  have h := read_header_field_of_line inp line rest hf
  refine ⟨?_, ?_, ?_⟩
  · constructor
    · intro hr
      by_contra hb
      rw [h, if_neg hb] at hr
      split at hr <;> cases hr
    · intro hb
      rw [h, if_pos hb]
  · intro h1 h2 hc
    rw [h, if_neg (by rintro (e | e); exact h1 e; exact h2 e), strchr_none _ _ hc]
  · intro h1 h2 hc
    obtain ⟨l, r, hs⟩ := strchr_mem _ _ hc
    rw [h, if_neg (by rintro (e | e); exact h1 e; exact h2 e), hs]
    exact ⟨_, rfl⟩

/-- A line without colon, through `read_header_field_outcomes`. -/
theorem read_header_field_outcomes_witness :
    read_header_field (bytes "Host example\r\n\r\n") = .exit .header_parse (bytes "\r\n") none :=
  (read_header_field_outcomes (bytes "Host example\r\n\r\n") (bytes "Host example\r\n")
    (bytes "\r\n") (by decide)).2.1 (by decide) (by decide) (by decide)

theorem skip_strspn_blank_eq_dropWhile (p : List Nat) :
    skip_strspn_blank p = p.dropWhile (fun c => c == SP || c == HT) := by
  induction p with
  | nil => rfl
  | cons c p ih =>
    unfold skip_strspn_blank
    by_cases h : c = SP ∨ c = HT
    · rw [if_pos h, ih, List.dropWhile_cons_of_pos (by simpa using h)]
    · rw [if_neg h, List.dropWhile_cons_of_neg (by simpa using h)]

/-- C15, as stated, fails: the value keeps the line terminator (`"5\r\n"`, not
`"5"`); a NUL byte before the colon makes the parser exit although the line
holds a ':'; a NUL byte after it cuts the value short; and of a header line of
5002 bytes only the first 4095 are read, so the value is cut short too. -/
theorem read_header_field_name_value_counterexample :
    read_header_field (bytes "Content-Length: 5\r\n")
        = .ok (some { name := bytes "Content-Length", value := bytes "5\r\n" }) []
    ∧ read_header_field (bytes "X-A" ++ [NUL] ++ bytes "b: 1\r\n") = .exit .header_parse [] none
    ∧ read_header_field (bytes "X: a" ++ [NUL] ++ bytes "b\r\n")
        = .ok (some { name := bytes "X", value := bytes "a" }) []
    ∧ read_header_field
          (bytes "X:" ++ List.replicate 4093 97 ++ (List.replicate 907 97 ++ bytes "\r\n"))
        = .ok (some { name := bytes "X", value := List.replicate 4093 97 })
            (List.replicate 907 97 ++ bytes "\r\n") := by
  refine ⟨by decide, by decide, by decide, ?_⟩
  have hlit : ∀ c ∈ bytes "X:", c ≠ LF ∧ c ≠ NUL := by decide
  have hmem : ∀ c ∈ bytes "X:" ++ List.replicate 4093 97, c ≠ LF ∧ c ≠ NUL := by
    intro c hc
    rcases List.mem_append.1 hc with h | h
    · exact hlit c h
    · have := List.eq_of_mem_replicate h
      subst this
      decide
  have hlen : (bytes "X:" ++ List.replicate 4093 97).length = LINE_BUF_SIZE - 1 := by
    rw [List.length_append, List.length_replicate]
    decide
  have hf := fgets_full (bytes "X:" ++ List.replicate 4093 97)
    (List.replicate 907 97 ++ bytes "\r\n") (fun h => (hmem LF h).1 rfl) hlen
  have hnb : ¬ (bytes "X:" ++ List.replicate 4093 97 = [LF]
      ∨ bytes "X:" ++ List.replicate 4093 97 = [CR, LF]) := by
    rintro (h | h)
    · have := congrArg List.length h
      rw [hlen] at this
      revert this
      decide
    · have := congrArg List.length h
      rw [hlen] at this
      revert this
      decide
  have hparts : bytes "X:" ++ List.replicate 4093 97
      = bytes "X" ++ COLON :: List.replicate 4093 97 := by
    have h0 : bytes "X:" = bytes "X" ++ [COLON] := by decide
    rw [h0, List.append_assoc]
    rfl
  have hskip : skip_strspn_blank (List.replicate 4093 97) = List.replicate 4093 97 := by
    have hr : List.replicate 4093 97 = 97 :: List.replicate 4092 97 := rfl
    rw [hr]
    unfold skip_strspn_blank
    rw [if_neg (by decide)]
  rw [read_header_field_of_line _ _ _ hf, if_neg hnb,
    cstr_no_nul _ (fun h => (hmem NUL h).2 rfl), hparts, strchr_split _ _ _ (by decide)]
  simp only [hskip]

/-- C15 (amended): for a header line `name ':' w LF` of at most 4095 bytes
without NUL byte, `name` holding no ':', `read_header_field` returns the field
whose name is `name` and whose value is the text after the ':' through the end
of the line, leading spaces and tabs removed and the line terminator kept. -/
theorem read_header_field_name_value (name w rest : List Nat)
    (hname : ∀ c ∈ name, c ≠ COLON ∧ c ≠ NUL ∧ c ≠ LF) (hw : ∀ c ∈ w, c ≠ NUL ∧ c ≠ LF)
    (hlen : name.length + w.length + 2 ≤ 4095) :
    read_header_field (name ++ [COLON] ++ w ++ [LF] ++ rest)
      = .ok (some { name := name,
                    value := (w ++ [LF]).dropWhile (fun c => c == SP || c == HT) }) rest := by
  have hin : name ++ [COLON] ++ w ++ [LF] ++ rest = (name ++ COLON :: w) ++ LF :: rest := by simp
  have hmem : ∀ c ∈ name ++ COLON :: w, c ≠ LF ∧ c ≠ NUL := by
    intro c hc
    simp only [List.mem_append, List.mem_cons] at hc
    rcases hc with h | h | h
    · exact ⟨(hname c h).2.2, (hname c h).2.1⟩
    · subst h; decide
    · exact ⟨(hw c h).2, (hw c h).1⟩
  have hlf : LF ∉ name ++ COLON :: w := fun h => (hmem LF h).1 rfl
  have hnul : NUL ∉ (name ++ COLON :: w) ++ [LF] := by
    intro h
    rcases List.mem_append.1 h with h | h
    · exact (hmem NUL h).2 rfl
    · simp [NUL, LF] at h
  have hl : (name ++ COLON :: w).length + 1 ≤ LINE_BUF_SIZE - 1 := by
    simp [LINE_BUF_SIZE]
    omega
  have hf := fgets_line LINE_BUF_SIZE _ rest hlf hl
  have hcolon : COLON ∉ name := fun h => (hname COLON h).1 rfl
  have hline : (name ++ COLON :: w) ++ [LF] = name ++ COLON :: (w ++ [LF]) := by simp
  have hnb : ¬ ((name ++ COLON :: w) ++ [LF] = [LF] ∨ (name ++ COLON :: w) ++ [LF] = [CR, LF]) := by
    have hc : COLON ∈ (name ++ COLON :: w) ++ [LF] := by simp
    rintro (h | h)
    · rw [h] at hc
      simp [COLON, LF] at hc
    · rw [h] at hc
      simp [COLON, LF, CR] at hc
  rw [hin, read_header_field_of_line _ _ _ hf, if_neg hnb, cstr_no_nul _ hnul, hline,
    strchr_split _ _ _ hcolon]
  simp only [skip_strspn_blank_eq_dropWhile]

/-- The line `Content-Length: 5` of the specification, through `read_header_field_name_value`. -/
theorem read_header_field_name_value_witness :
    read_header_field (bytes "Content-Length: 5\r\n")
      = .ok (some { name := bytes "Content-Length", value := bytes "5\r\n" }) [] :=
  read_header_field_name_value (bytes "Content-Length") (bytes " 5\r") []
    (by decide) (by decide) (by decide)

/-! ## The spaces of the request line (C17) -/

theorem read_request_line_of_line (req : HTTPRequest) (inp line rest : List Nat)
    (hf : fgets LINE_BUF_SIZE inp = some (line, rest)) :
    read_request_line req inp =
      match strchr (cstr line) SP with
      | none => .exit .request_line_1 rest none
      | some (method, path) =>
        match strchr path SP with
        | none => .exit .request_line_2 rest none
        | some (path, p) =>
          if strncasecmp_eq p (bytes "HTTP/1.") 7 then
            .ok { req with method := upcase method, path := path,
                           protocol_minor_version := atoi (p.drop 7) } rest
          else .exit .request_line_3 rest none := by
  unfold read_request_line
  rw [hf]

theorem count_cstr_le (s : List Nat) (c : Nat) : (cstr s).count c ≤ s.count c := by
  induction s with
  | nil => simp [cstr]
  | cons x s ih =>
    unfold cstr
    by_cases hx : x = NUL
    · rw [if_pos hx]
      simp
    · rw [if_neg hx]
      simp only [List.count_cons]
      omega

theorem fgets_chars_count_le (inp : List Nat) (n c : Nat) (hc : c ≠ LF) :
    ((fgets_chars inp n).1).count c ≤ (inp.takeWhile (fun x => x != LF)).count c := by
  induction inp generalizing n with
  | nil => simp [fgets_chars]
  | cons x s ih =>
    unfold fgets_chars
    by_cases h0 : n = 0
    · rw [if_pos h0]
      simp
    · rw [if_neg h0]
      by_cases hx : x = LF
      · rw [if_pos hx, hx]
        have hz : List.count c [LF] = 0 := List.count_eq_zero.2 (by simpa using hc)
        simp [hz]
      · rw [if_neg hx, List.takeWhile_cons_of_pos (by simpa using hx)]
        have := ih (n - 1)
        simp only [List.count_cons, List.cons]
        omega

/-- C17: a request line with no space, or with one space and no second, makes
`read_request_line` exit with a fatal error, and so `read_request` produces no
request. -/
theorem read_request_line_missing_space (req : HTTPRequest) (inp : List Nat)
    (h : (inp.takeWhile (fun x => x != LF)).count SP < 2) :
    ∃ msg rest, (msg = .no_request_line ∨ msg = .request_line_1 ∨ msg = .request_line_2)
      ∧ read_request_line req inp = .exit msg rest none
      ∧ read_request inp = .exit msg rest none := by
  have key : ∃ msg rest,
      (msg = Fatal.no_request_line ∨ msg = .request_line_1 ∨ msg = .request_line_2)
      ∧ ∀ r : HTTPRequest, read_request_line r inp = .exit msg rest none := by
    cases hf : fgets LINE_BUF_SIZE inp with
    | none =>
      refine ⟨.no_request_line, inp, Or.inl rfl, ?_⟩
      intro r
      unfold read_request_line
      rw [hf]
    | some lr =>
      obtain ⟨line, rest⟩ := lr
      have hline : line = (fgets_chars inp (LINE_BUF_SIZE - 1)).1 := by
        cases inp with
        | nil => simp [fgets] at hf
        | cons c s =>
          simp only [fgets, Option.some.injEq] at hf
          rw [hf]
      have hcount : (cstr line).count SP < 2 := by
        have h1 := count_cstr_le line SP
        have h2 := fgets_chars_count_le inp (LINE_BUF_SIZE - 1) SP (by decide)
        rw [← hline] at h2
        omega
      cases hs : strchr (cstr line) SP with
      | none =>
        refine ⟨.request_line_1, rest, Or.inr (Or.inl rfl), ?_⟩
        intro r
        rw [read_request_line_of_line r inp line rest hf, hs]
      | some mx =>
        obtain ⟨m, x⟩ := mx
        obtain ⟨h1, _⟩ := strchr_some _ _ _ _ hs
        have hx : SP ∉ x := by
          rw [h1, List.count_append, List.count_cons_self] at hcount
          exact List.count_eq_zero.1 (by omega)
        refine ⟨.request_line_2, rest, Or.inr (Or.inr rfl), ?_⟩
        intro r
        rw [read_request_line_of_line r inp line rest hf, hs]
        simp only []
        rw [strchr_none x SP hx]
  obtain ⟨msg, rest, hmsg, hall⟩ := key
  refine ⟨msg, rest, hmsg, hall req, ?_⟩
  unfold read_request
  rw [hall HTTPRequest.blank]

/-- A request line with one space only, through `read_request_line_missing_space`. -/
theorem read_request_line_missing_space_witness :
    ∃ msg rest, (msg = .no_request_line ∨ msg = .request_line_1 ∨ msg = .request_line_2)
      ∧ read_request_line HTTPRequest.blank (bytes "GET /index.html\r\n\r\n")
          = .exit msg rest none
      ∧ read_request (bytes "GET /index.html\r\n\r\n") = .exit msg rest none :=
  read_request_line_missing_space HTTPRequest.blank (bytes "GET /index.html\r\n\r\n") (by decide)

/-! ## The protocol prefix (C18) -/

theorem strncasecmp_eq_iff (p lit : List Nat) (n : Nat) (hn : lit.length = n) :
    strncasecmp_eq p lit n = true ↔ ∃ q t, p = q ++ t ∧ eq_ignore_case q lit := by
  have hlit : lit.take n = lit := by rw [← hn]; exact List.take_length lit
  have hiff : strncasecmp_eq p lit n = true ↔ eq_ignore_case (p.take n) lit := by
    rw [← strcasecmp_eq_iff]
    unfold strncasecmp_eq strcasecmp_eq
    rw [hlit]
  rw [hiff]
  constructor
  · intro h
    exact ⟨p.take n, p.drop n, (List.take_append_drop n p).symm, h⟩
  · rintro ⟨q, t, hp, hq⟩
    have hlen : q.length = n := by rw [← hn]; exact List.Forall₂.length_eq hq
    rw [hp, ← hlen, List.take_left']
    · exact hq
    · rfl

/-- `read_request_line` on a line with its two spaces found. -/
theorem read_request_line_of_parts (req : HTTPRequest) (inp line rest M P p : List Nat)
    (hf : fgets LINE_BUF_SIZE inp = some (line, rest))
    (hline : cstr line = M ++ SP :: (P ++ SP :: p)) (hM : SP ∉ M) (hP : SP ∉ P) :
    read_request_line req inp =
      if strncasecmp_eq p (bytes "HTTP/1.") 7 then
        .ok { req with method := upcase M, path := P,
                       protocol_minor_version := atoi (p.drop 7) } rest
      else .exit .request_line_3 rest none := by
  rw [read_request_line_of_line req inp line rest hf, hline, strchr_split _ _ _ hM]
  simp only []
  rw [strchr_split _ _ _ hP]

/-- C18, as stated, fails: the prefix is compared without regard to letter
case, so a request line whose third part starts with `http/1.` is accepted. -/
theorem read_request_line_protocol_counterexample :
    ¬ (bytes "HTTP/1." <+: bytes "http/1.0\r\n")
    ∧ read_request (bytes "GET / http/1.0\r\n\r\n")
        = .ok { protocol_minor_version := 0, method := bytes "GET", path := bytes "/",
                header := [], body := none, length := 0 } [] := by
  refine ⟨by decide, by decide⟩

/-- C18 (amended): for a request line `M SP P SP p`, `read_request_line`
accepts the line exactly when `p` starts with `HTTP/1.` compared without
regard to ASCII letter case; otherwise it exits with the third parse error of
the request line. -/
theorem read_request_line_protocol (req : HTTPRequest) (inp line rest M P p : List Nat)
    (hf : fgets LINE_BUF_SIZE inp = some (line, rest))
    (hline : cstr line = M ++ SP :: (P ++ SP :: p)) (hM : SP ∉ M) (hP : SP ∉ P) :
    ((∃ r s, read_request_line req inp = .ok r s)
        ↔ ∃ q t, p = q ++ t ∧ eq_ignore_case q (bytes "HTTP/1."))
    ∧ ((∃ q t, p = q ++ t ∧ eq_ignore_case q (bytes "HTTP/1.")) →
        read_request_line req inp
          = .ok { req with method := upcase M, path := P,
                           protocol_minor_version := atoi (p.drop 7) } rest)
    ∧ ((¬ ∃ q t, p = q ++ t ∧ eq_ignore_case q (bytes "HTTP/1.")) →
        read_request_line req inp = .exit .request_line_3 rest none) := by
  have h := read_request_line_of_parts req inp line rest M P p hf hline hM hP
  have hiff := strncasecmp_eq_iff p (bytes "HTTP/1.") 7 (by decide)
  have hyes : (∃ q t, p = q ++ t ∧ eq_ignore_case q (bytes "HTTP/1.")) →
      read_request_line req inp
        = .ok { req with method := upcase M, path := P,
                         protocol_minor_version := atoi (p.drop 7) } rest := by
    intro hq
    rw [h, if_pos (hiff.2 hq)]
  have hno : (¬ ∃ q t, p = q ++ t ∧ eq_ignore_case q (bytes "HTTP/1.")) →
      read_request_line req inp = .exit .request_line_3 rest none := by
    intro hq
    rw [h, if_neg (fun e => hq (hiff.1 e))]
  refine ⟨⟨?_, fun hq => ⟨_, _, hyes hq⟩⟩, hyes, hno⟩
  rintro ⟨r, s, hr⟩
  by_contra hq
  rw [hno hq] at hr
  cases hr

/-- The request line `GET / Http/1.1`, through `read_request_line_protocol`. -/
theorem read_request_line_protocol_witness :
    read_request_line HTTPRequest.blank (bytes "GET / Http/1.1\r\n\r\n")
      = .ok { HTTPRequest.blank with method := bytes "GET", path := bytes "/",
                                     protocol_minor_version := 1 } (bytes "\r\n") :=
  (read_request_line_protocol HTTPRequest.blank (bytes "GET / Http/1.1\r\n\r\n")
    (bytes "GET / Http/1.1\r\n") (bytes "\r\n") (bytes "GET") (bytes "/") (bytes "Http/1.1\r\n")
    (by decide) (by decide) (by decide) (by decide)).2.1
    ⟨bytes "Http/1.", bytes "1\r\n", by decide, by
      unfold eq_ignore_case
      have h1 : bytes "Http/1." = [72, 116, 116, 112, 47, 49, 46] := by decide
      rw [h1, bytes_http]
      simp [same_letter]⟩

/-! ## Lines longer than the line buffer (C19) -/

theorem strtol_digits_cons (x : Nat) (d t : List Nat) (hd : ∀ c ∈ x :: d, isdigit c = true)
    (ht : ∀ c, t.head? = some c → isdigit c = false)
    (hmax : (decimal_number (x :: d) : Int) ≤ LONG_MAX) :
    strtol (x :: d ++ t) = decimal_number (x :: d) := by
  have hx : 48 ≤ x ∧ x ≤ 57 := by simpa [isdigit] using hd x (by simp)
  have hxs : isspace x = false := by
    simp only [isspace, Bool.or_eq_false_iff, beq_eq_false_iff_ne, Bool.and_eq_false_iff,
      decide_eq_false_iff_not]
    omega
  have h45 : x ≠ 45 := by omega
  have h43 : x ≠ 43 := by omega
  have hv := digits_value_append (x :: d) t 0 hd ht
  simp only [List.cons_append] at hv
  have hs : skip_space (x :: (d ++ t)) = x :: (d ++ t) := by simp [skip_space, hxs]
  unfold strtol
  rw [List.cons_append, hs]
  simp only [h45, h43, if_false]
  rw [hv]
  exact min_eq_right hmax

theorem atoi_digits_cons (x : Nat) (d t : List Nat) (hd : ∀ c ∈ x :: d, isdigit c = true)
    (ht : ∀ c, t.head? = some c → isdigit c = false)
    (hmax : decimal_number (x :: d) < 2 ^ 31) :
    atoi (x :: d ++ t) = decimal_number (x :: d) := by
  have h1 : (decimal_number (x :: d) : Int) < 2 ^ 31 := by exact_mod_cast hmax
  have h2 : (decimal_number (x :: d) : Int) ≤ LONG_MAX := by
    unfold LONG_MAX
    omega
  unfold atoi
  rw [strtol_digits_cons x d t hd ht h2]
  exact long_to_int_small _ (by omega) h1

theorem sample_long_line :
    (∀ c ∈ bytes "GET / HTTP/1.0" ++ List.replicate 4081 97, c ≠ LF ∧ c ≠ NUL)
    ∧ (bytes "GET / HTTP/1.0" ++ List.replicate 4081 97).length = LINE_BUF_SIZE - 1 := by
  have hlit : ∀ c ∈ bytes "GET / HTTP/1.0", c ≠ LF ∧ c ≠ NUL := by decide
  constructor
  · intro c hc
    rcases List.mem_append.1 hc with h | h
    · exact hlit c h
    · have := List.eq_of_mem_replicate h
      subst this
      decide
  · rw [List.length_append, List.length_replicate]
    decide

theorem with_rest_read_request_line (req : HTTPRequest) (chunk more : List Nat)
    (hf1 : fgets LINE_BUF_SIZE (chunk ++ more) = some (chunk, more))
    (hf2 : fgets LINE_BUF_SIZE chunk = some (chunk, [])) :
    read_request_line req (chunk ++ more) = (read_request_line req chunk).with_rest more := by
  rw [read_request_line_of_line req _ _ _ hf1, read_request_line_of_line req _ _ _ hf2]
  split
  · rfl
  · split
    · rfl
    · split <;> rfl

theorem with_rest_read_header_field (chunk more : List Nat)
    (hf1 : fgets LINE_BUF_SIZE (chunk ++ more) = some (chunk, more))
    (hf2 : fgets LINE_BUF_SIZE chunk = some (chunk, [])) :
    read_header_field (chunk ++ more) = (read_header_field chunk).with_rest more := by
  rw [read_header_field_of_line _ _ _ hf1, read_header_field_of_line _ _ _ hf2]
  split
  · rfl
  · split <;> rfl

/-- C19, as stated, fails: no "line too long" error exists.  A request line
of 4101 bytes is read as a request line of 4095 bytes and a header line, and
the request parses. -/
theorem long_line_counterexample :
    4095 < (bytes "GET / HTTP/1.0" ++ List.replicate 4081 97 ++ bytes "b: x\r\n").length
    ∧ LF ∉ bytes "GET / HTTP/1.0" ++ List.replicate 4081 97 ++ bytes "b: x\r"
    ∧ read_request (bytes "GET / HTTP/1.0" ++ List.replicate 4081 97 ++ bytes "b: x\r\n"
          ++ bytes "\r\n")
        = .ok { protocol_minor_version := 0, method := bytes "GET", path := bytes "/",
                header := [{ name := bytes "b", value := bytes "x\r\n" }],
                body := none, length := 0 } [] := by
  have hmem := sample_long_line.1
  refine ⟨?_, ?_, ?_⟩
  · rw [List.length_append, List.length_append, List.length_replicate]
    decide
  · intro h
    rcases List.mem_append.1 h with h | h
    · exact (hmem LF h).1 rfl
    · revert h
      decide
  · have hf := fgets_full (bytes "GET / HTTP/1.0" ++ List.replicate 4081 97) (bytes "b: x\r\n\r\n")
      (fun h => (hmem LF h).1 rfl) sample_long_line.2
    have hparts : bytes "GET / HTTP/1.0" ++ List.replicate 4081 97
        = bytes "GET" ++ SP :: (bytes "/" ++ SP :: (bytes "HTTP/1." ++
            (48 :: [] ++ List.replicate 4081 97))) := by
      have h0 : bytes "GET / HTTP/1.0"
          = bytes "GET" ++ SP :: (bytes "/" ++ SP :: (bytes "HTTP/1." ++ [48])) := by decide
      rw [h0]
      simp only [List.append_assoc, List.cons_append, List.nil_append]
    have hline := read_request_line_of_parts HTTPRequest.blank _ _ _ (bytes "GET") (bytes "/")
      (bytes "HTTP/1." ++ (48 :: [] ++ List.replicate 4081 97)) hf
      (by rw [cstr_no_nul _ (fun h => (hmem NUL h).2 rfl), hparts]) (by decide) (by decide)
    have hcmp : strncasecmp_eq (bytes "HTTP/1." ++ (48 :: [] ++ List.replicate 4081 97))
        (bytes "HTTP/1.") 7 = true :=
      (strncasecmp_eq_iff _ _ 7 (by decide)).2 ⟨bytes "HTTP/1.", _, rfl, by
        unfold eq_ignore_case
        rw [bytes_http]
        simp [same_letter]⟩
    have hdrop : (bytes "HTTP/1." ++ (48 :: [] ++ List.replicate 4081 97)).drop 7
        = 48 :: [] ++ List.replicate 4081 97 := by
      have h7 : (bytes "HTTP/1.").length = 7 := by decide
      rw [← h7, List.drop_left]
    have hatoi : atoi (48 :: [] ++ List.replicate 4081 97) = 0 := by
      have h := atoi_digits_cons 48 [] (List.replicate 4081 97) (by decide)
        (by
          intro c hc
          have hr : List.replicate 4081 97 = 97 :: List.replicate 4080 97 := rfl
          rw [hr] at hc
          simp only [List.head?_cons, Option.some.injEq] at hc
          rw [← hc]
          decide)
        (by decide)
      rw [h]
      decide
    rw [if_pos hcmp, hdrop, hatoi] at hline
    have hin : bytes "GET / HTTP/1.0" ++ List.replicate 4081 97 ++ bytes "b: x\r\n" ++ bytes "\r\n"
        = bytes "GET / HTTP/1.0" ++ List.replicate 4081 97 ++ bytes "b: x\r\n\r\n" := by
      have h0 : bytes "b: x\r\n\r\n" = bytes "b: x\r\n" ++ bytes "\r\n" := by decide
      rw [h0]
      simp only [List.append_assoc]
    unfold read_request
    rw [hin, hline]
    decide

/-- C19 (amended): when the first 4095 bytes of the input hold no LF, so that
the line is longer than the line buffer allows, `fgets` stores these 4095 bytes
as a line of its own and leaves the rest unread; `read_request_line` and
`read_header_field` treat them as they would if the input ended there, and the
rest of the line is read as the next line. -/
theorem long_line_is_split (req : HTTPRequest) (chunk more : List Nat) (hlf : LF ∉ chunk)
    (hlen : chunk.length = 4095) :
    fgets LINE_BUF_SIZE (chunk ++ more) = some (chunk, more)
    ∧ read_request_line req (chunk ++ more) = (read_request_line req chunk).with_rest more
    ∧ read_header_field (chunk ++ more) = (read_header_field chunk).with_rest more := by
  have hf1 := fgets_full chunk more hlf hlen
  have hf2 : fgets LINE_BUF_SIZE chunk = some (chunk, []) := by
    have h := fgets_full chunk [] hlf hlen
    rwa [List.append_nil] at h
  exact ⟨hf1, with_rest_read_request_line req chunk more hf1 hf2,
    with_rest_read_header_field chunk more hf1 hf2⟩

/-- A request line of 4101 bytes, through `long_line_is_split`. -/
theorem long_line_is_split_witness :
    fgets LINE_BUF_SIZE
        (bytes "GET / HTTP/1.0" ++ List.replicate 4081 97 ++ bytes "b: x\r\n\r\n")
      = some (bytes "GET / HTTP/1.0" ++ List.replicate 4081 97, bytes "b: x\r\n\r\n") :=
  (long_line_is_split HTTPRequest.blank (bytes "GET / HTTP/1.0" ++ List.replicate 4081 97)
    (bytes "b: x\r\n\r\n") (fun h => (sample_long_line.1 LF h).1 rfl) sample_long_line.2).1

/-! ## What a returned request satisfies (C20) -/

/-- What `read_request` has done when it returns a request. -/
theorem read_request_ok_inv (inp rest : List Nat) (req : HTTPRequest)
    (h : read_request inp = .ok req rest) :
    ∃ r0 s1 s2, read_request_line HTTPRequest.blank inp = .ok r0 s1
      ∧ read_header_fields (s1.length + 1) s1 [] = .ok req.header s2
      ∧ req.method = r0.method ∧ req.path = r0.path
      ∧ req.protocol_minor_version = r0.protocol_minor_version
      ∧ content_length req = .ok req.length
      ∧ ((req.length = 0 ∧ req.body = none ∧ rest = s2)
        ∨ (req.length ≠ 0 ∧ req.length ≤ MAX_REQUEST_BODY_LENGTH
            ∧ req.length.toNat ≤ s2.length
            ∧ req.body = some (s2.take req.length.toNat)
            ∧ rest = s2.drop req.length.toNat)) := by
  unfold read_request at h
  split at h
  · cases h
  · rename_i r0 s1 hline
    split at h
    · cases h
    · rename_i header s2 hhead
      split at h
      · cases h
      · rename_i len hlen
        have hcl : content_length { r0 with header := header } = .ok len := hlen
        by_cases h0 : len ≠ 0
        · rw [if_pos h0] at h
          by_cases hbig : len > MAX_REQUEST_BODY_LENGTH
          · rw [if_pos hbig] at h
            cases h
          · rw [if_neg hbig] at h
            unfold fread at h
            by_cases hav : len.toNat ≤ s2.length
            · rw [if_pos hav] at h
              simp only [Outcome.ok.injEq] at h
              obtain ⟨hreq, hrest⟩ := h
              subst hreq
              exact ⟨r0, s1, s2, hline, hhead, rfl, rfl, rfl, hcl,
                Or.inr ⟨h0, not_lt.1 hbig, hav, rfl, hrest.symm⟩⟩
            · rw [if_neg hav] at h
              cases h
        · rw [if_neg h0] at h
          simp only [Outcome.ok.injEq] at h
          obtain ⟨hreq, hrest⟩ := h
          subst hreq
          exact ⟨r0, s1, s2, hline, hhead, rfl, rfl, rfl, hcl,
            Or.inl ⟨not_not.1 h0, rfl, hrest.symm⟩⟩

/-- C20: a request returned by `read_request` has `0 ≤ length ≤ 1048576`; its
length is 0 when it has no `Content-Length` field or when the value of that
field parses to 0, and then it has no body; and a body, when present, holds
exactly `length` bytes. -/
theorem read_request_length_invariant (inp rest : List Nat) (req : HTTPRequest)
    (h : read_request inp = .ok req rest) :
    0 ≤ req.length ∧ req.length ≤ 1048576
    ∧ (lookup_header_field_value req.header (bytes "Content-Length") = none → req.length = 0)
    ∧ (∀ val, lookup_header_field_value req.header (bytes "Content-Length") = some val →
        req.length = atol val)
    ∧ (req.length = 0 → req.body = none)
    ∧ (∀ b, req.body = some b → (b.length : Int) = req.length) := by
  obtain ⟨r0, s1, s2, _, _, _, _, _, hcl, hbody⟩ := read_request_ok_inv inp rest req h
  have hlen0 : lookup_header_field_value req.header (bytes "Content-Length") = none →
      req.length = 0 := by
    intro hn
    unfold content_length at hcl
    rw [hn] at hcl
    simp only [Except.ok.injEq] at hcl
    exact hcl.symm
  have hlenv : ∀ val, lookup_header_field_value req.header (bytes "Content-Length") = some val →
      req.length = atol val ∧ 0 ≤ atol val := by
    intro val hv
    unfold content_length at hcl
    rw [hv] at hcl
    simp only [] at hcl
    by_cases hneg : atol val < 0
    · rw [if_pos hneg] at hcl
      cases hcl
    · rw [if_neg hneg] at hcl
      simp only [Except.ok.injEq] at hcl
      exact ⟨hcl.symm, not_lt.1 hneg⟩
  have hnonneg : 0 ≤ req.length := by
    cases hl : lookup_header_field_value req.header (bytes "Content-Length") with
    | none => rw [hlen0 hl]
    | some val =>
      rw [(hlenv val hl).1]
      exact (hlenv val hl).2
  refine ⟨hnonneg, ?_, hlen0, fun val hv => (hlenv val hv).1, ?_, ?_⟩
  · rcases hbody with ⟨h0, _, _⟩ | ⟨_, hmax, _⟩
    · rw [h0]
      decide
    · unfold MAX_REQUEST_BODY_LENGTH at hmax
      omega
  · intro h0
    rcases hbody with ⟨_, hb, _⟩ | ⟨hne, _⟩
    · exact hb
    · exact absurd h0 hne
  · intro b hb
    rcases hbody with ⟨_, hnone, _⟩ | ⟨_, _, hav, hsome, _⟩
    · rw [hnone] at hb
      cases hb
    · rw [hsome] at hb
      simp only [Option.some.injEq] at hb
      rw [← hb, List.length_take, Nat.min_eq_left hav]
      exact Int.toNat_of_nonneg hnonneg

/-- The request with `Content-Length: 5` and body `HELLO`, through
`read_request_length_invariant`. -/
theorem read_request_length_invariant_witness :
    (0 : Int) ≤ 5 ∧ (5 : Int) ≤ 1048576
    ∧ ∀ b, some (bytes "HELLO") = some b → (b.length : Int) = 5 :=
  have h := read_request_length_invariant
    (bytes "GET / HTTP/1.0\r\nContent-Length: 5\r\n\r\nHELLO") []
    { protocol_minor_version := 0, method := bytes "GET", path := bytes "/",
      header := [{ name := bytes "Content-Length", value := bytes "5\r\n" }],
      body := some (bytes "HELLO"), length := 5 } (by decide)
  ⟨h.1, h.2.1, h.2.2.2.2.2⟩

/-! ## A `Content-Length` value that is not a number (C11) -/

theorem atol_no_number (val : List Nat)
    (h : ∀ c, (skip_space val).head? = some c → isdigit c = false ∧ c ≠ 45 ∧ c ≠ 43) :
    atol val = 0 := by
  unfold atol strtol
  cases hs : skip_space val with
  | nil => rfl
  | cons c t =>
    obtain ⟨hd, h45, h43⟩ := h c (by rw [hs]; rfl)
    simp only [h45, h43, if_false, digits_value, hd, Bool.false_eq_true, Nat.cast_zero]
    exact min_eq_right (by unfold LONG_MAX; omega)

theorem respond_to_has_status (env : Env) (req : HTTPRequest) (docroot : List Nat) :
    ∃ status, has_status (respond_to env req docroot).out status := by
  rcases respond_to_shape env req docroot with ⟨st, body, _, hout⟩ | ⟨status, body, _, hout⟩
  · exact ⟨_, hout ▸ has_status_append _ _ _ (has_status_file_response_head env req _)⟩
  · exact ⟨_, hout ▸ has_status_append _ _ _ (has_status_error_response_head env req status)⟩

theorem service_of_read_request (env : Env) (inp docroot rest : List Nat) (req : HTTPRequest)
    (h : read_request inp = .ok req rest) :
    service env inp docroot = respond_to env req docroot := by
  unfold service
  rw [h]

/-- C11, as stated, fails: `Content-Length: abc` is read as length 0, the
request parses and is answered; `Content-Length: 5x` is read as length 5. -/
theorem content_length_not_a_number_counterexample :
    read_request (bytes "GET /a.txt HTTP/1.0\r\nContent-Length: abc\r\n\r\n")
        = .ok { protocol_minor_version := 0, method := bytes "GET", path := bytes "/a.txt",
                header := [{ name := bytes "Content-Length", value := bytes "abc\r\n" }],
                body := none, length := 0 } []
    ∧ has_status (service (one_file [] (bytes "/www//a.txt") (bytes "hello"))
          (bytes "GET /a.txt HTTP/1.0\r\nContent-Length: abc\r\n\r\n") (bytes "/www")).out
        (bytes "200 OK")
    ∧ read_request (bytes "GET /a.txt HTTP/1.0\r\nContent-Length: 5x\r\n\r\nHELLO")
        = .ok { protocol_minor_version := 0, method := bytes "GET", path := bytes "/a.txt",
                header := [{ name := bytes "Content-Length", value := bytes "5x\r\n" }],
                body := some (bytes "HELLO"), length := 5 } [] := by
  refine ⟨by decide, by decide, by decide⟩

/-- C11 (amended): a `Content-Length` value is read as `atol` reads it, with no
check that it is a number.  A value that, after leading white space, starts
with neither a sign nor a digit is read as 0: the request parses with no body
and is answered.  A value that starts with digits followed by other text is
read as the number of those digits: with that many bytes after the header
block the request parses with them as its body and is answered. -/
theorem content_length_not_a_number (env : Env) (inp s1 rest val docroot : List Nat)
    (req : HTTPRequest) (header : List HTTPHeaderField)
    (hline : read_request_line HTTPRequest.blank inp = .ok req s1)
    (hhead : read_header_fields (s1.length + 1) s1 [] = .ok header rest)
    (hval : lookup_header_field_value header (bytes "Content-Length") = some val) :
    ((∀ c, (skip_space val).head? = some c → isdigit c = false ∧ c ≠ 45 ∧ c ≠ 43) →
      read_request inp = .ok { req with header := header, length := 0, body := none } rest
      ∧ ∃ status, has_status (service env inp docroot).out status)
    ∧ (∀ x d t, val = x :: d ++ t → (∀ c ∈ x :: d, isdigit c = true) →
        (∀ c, t.head? = some c → isdigit c = false) →
        1 ≤ decimal_number (x :: d) → decimal_number (x :: d) ≤ 1048576 →
        decimal_number (x :: d) ≤ rest.length →
        read_request inp
          = .ok { req with header := header, length := decimal_number (x :: d),
                           body := some (rest.take (decimal_number (x :: d))) }
              (rest.drop (decimal_number (x :: d)))
        ∧ ∃ status, has_status (service env inp docroot).out status) := by
  have h := read_request_after_headers inp s1 rest val req header hline hhead hval
  constructor
  · intro hno
    have h0 := atol_no_number val hno
    rw [h0] at h
    simp only [lt_self_iff_false, if_false, if_true] at h
    refine ⟨h, ?_⟩
    rw [service_of_read_request env inp docroot rest _ h]
    exact respond_to_has_status env _ docroot
  · intro x d t hv hd ht h1 h2 hav
    have hmax : (decimal_number (x :: d) : Int) ≤ LONG_MAX := by
      unfold LONG_MAX
      omega
    have hn : atol val = decimal_number (x :: d) := by
      rw [hv]
      exact strtol_digits_cons x d t hd ht hmax
    have hneg : ¬ ((decimal_number (x :: d) : Int) < 0) := by omega
    have hz : ¬ ((decimal_number (x :: d) : Int) = 0) := by omega
    have hbig : ¬ ((decimal_number (x :: d) : Int) > MAX_REQUEST_BODY_LENGTH) := by
      unfold MAX_REQUEST_BODY_LENGTH
      omega
    rw [hn] at h
    simp only [hneg, hz, hbig, if_false, Int.toNat_ofNat, hav, if_true] at h
    refine ⟨h, ?_⟩
    rw [service_of_read_request env inp docroot _ _ h]
    exact respond_to_has_status env _ docroot

/-- The request `Content-Length: abc`, through `content_length_not_a_number`. -/
theorem content_length_not_a_number_witness :
    read_request (bytes "GET /a.txt HTTP/1.0\r\nContent-Length: abc\r\n\r\n")
      = .ok { protocol_minor_version := 0, method := bytes "GET", path := bytes "/a.txt",
              header := [{ name := bytes "Content-Length", value := bytes "abc\r\n" }],
              body := none, length := 0 } [] :=
  ((content_length_not_a_number (one_file [] (bytes "/www//a.txt") (bytes "hello"))
    (bytes "GET /a.txt HTTP/1.0\r\nContent-Length: abc\r\n\r\n")
    (bytes "Content-Length: abc\r\n\r\n") [] (bytes "abc\r\n") (bytes "/www")
    { HTTPRequest.blank with method := bytes "GET", path := bytes "/a.txt" }
    [{ name := bytes "Content-Length", value := bytes "abc\r\n" }]
    (by decide) (by decide) (by decide)).1 (by decide)).1

/-! ## Fields with the same name (C14) -/

/-- The header loop stores the fields in the reverse of the order in which it
received them. -/
theorem read_header_fields_reverse (fuel : Nat) (inp rest : List Nat)
    (acc hs : List HTTPHeaderField) :
    read_header_fields fuel inp acc = .ok hs rest ↔
      ∃ fs, fields_in_wire_order fuel inp = some (fs, rest) ∧ hs = fs.reverse ++ acc := by
  induction fuel generalizing inp acc with
  | zero => simp [read_header_fields, fields_in_wire_order]
  | succ f ih =>
    unfold read_header_fields fields_in_wire_order
    cases hr : read_header_field inp with
    | exit msg r a => simp
    | ok v r =>
      cases v with
      | none =>
        simp only [Outcome.ok.injEq, Option.some.injEq, Prod.mk.injEq]
        constructor
        · rintro ⟨h1, h2⟩
          exact ⟨[], ⟨rfl, h2⟩, by simp [h1]⟩
        · rintro ⟨fs, ⟨h1, h2⟩, h3⟩
          rw [← h1] at h3
          exact ⟨by simpa using h3.symm, h2⟩
      | some h =>
        simp only []
        rw [ih r (h :: acc)]
        constructor
        · rintro ⟨fs, h1, h2⟩
          refine ⟨h :: fs, ?_, by simp [h2]⟩
          rw [h1]
        · rintro ⟨fs, h1, h2⟩
          cases hw : fields_in_wire_order f r with
          | none =>
            rw [hw] at h1
            cases h1
          | some p =>
            obtain ⟨fs1, r1⟩ := p
            rw [hw] at h1
            simp only [Option.some.injEq, Prod.mk.injEq] at h1
            refine ⟨fs1, by rw [h1.2], ?_⟩
            rw [h2, ← h1.1]
            simp

/-- C14, as stated, fails: of two `Content-Length` fields the one received
last is found, and it decides the body length. -/
theorem lookup_duplicate_counterexample :
    fields_in_wire_order 100 (bytes "Content-Length: 3\r\nContent-Length: 5\r\n\r\nHELLO")
        = some ([{ name := bytes "Content-Length", value := bytes "3\r\n" },
                 { name := bytes "Content-Length", value := bytes "5\r\n" }], bytes "HELLO")
    ∧ read_request (bytes "GET / HTTP/1.0\r\nContent-Length: 3\r\nContent-Length: 5\r\n\r\nHELLO")
        = .ok { protocol_minor_version := 0, method := bytes "GET", path := bytes "/",
                header := [{ name := bytes "Content-Length", value := bytes "5\r\n" },
                           { name := bytes "Content-Length", value := bytes "3\r\n" }],
                body := some (bytes "HELLO"), length := 5 } []
    ∧ lookup_header_field_value
          [{ name := bytes "Content-Length", value := bytes "5\r\n" },
           { name := bytes "Content-Length", value := bytes "3\r\n" }] (bytes "Content-Length")
        = some (bytes "5\r\n") := by
  refine ⟨by decide, by decide, by decide⟩

/-- C14 (amended): when the header block holds, in wire order, the fields
`before`, then `h`, then `after`, where the name of `h` equals the requested
name ignoring case and no field of `after` has such a name, looking the name up
in the request returned by `read_request` gives the value of `h`, the field
received last among those with that name; for `Content-Length` this value is
the one that decides the body length. -/
theorem lookup_duplicate_last_received (inp rest s1 s2 name : List Nat) (req r0 : HTTPRequest)
    (before after : List HTTPHeaderField) (h : HTTPHeaderField)
    (hreq : read_request inp = .ok req rest)
    (hline : read_request_line HTTPRequest.blank inp = .ok r0 s1)
    (hwire : fields_in_wire_order (s1.length + 1) s1 = some (before ++ h :: after, s2))
    (hname : eq_ignore_case h.name name)
    (hafter : ∀ g ∈ after, ¬ eq_ignore_case g.name name) :
    req.header = after.reverse ++ h :: before.reverse
    ∧ lookup_header_field_value req.header name = some h.value
    ∧ (name = bytes "Content-Length" → req.length = atol h.value) := by
  obtain ⟨r1, t1, t2, hline1, hhead, _, _, _, hcl, _⟩ := read_request_ok_inv inp rest req hreq
  rw [hline] at hline1
  simp only [Outcome.ok.injEq] at hline1
  rw [← hline1.2] at hhead
  obtain ⟨fs, hfs, hrev⟩ := (read_header_fields_reverse _ _ _ _ _).1 hhead
  rw [hwire] at hfs
  simp only [Option.some.injEq, Prod.mk.injEq] at hfs
  have hheader : req.header = after.reverse ++ h :: before.reverse := by
    rw [hrev, ← hfs.1]
    simp
  have hlook : lookup_header_field_value req.header name = some h.value := by
    rw [hheader]
    exact (lookup_some_iff _ _ _).2 ⟨after.reverse, h, before.reverse, rfl,
      fun g hg => hafter g (List.mem_reverse.1 hg), hname, rfl⟩
  refine ⟨hheader, hlook, ?_⟩
  intro hn
  rw [hn] at hlook
  unfold content_length at hcl
  rw [hlook] at hcl
  simp only [] at hcl
  by_cases hneg : atol h.value < 0
  · rw [if_pos hneg] at hcl
    cases hcl
  · rw [if_neg hneg] at hcl
    simp only [Except.ok.injEq] at hcl
    exact hcl.symm

/-- Two `Content-Length` fields, 3 then 5, through `lookup_duplicate_last_received`. -/
theorem lookup_duplicate_last_received_witness :
    lookup_header_field_value
        [{ name := bytes "Content-Length", value := bytes "5\r\n" },
         { name := bytes "Content-Length", value := bytes "3\r\n" }] (bytes "Content-Length")
      = some (bytes "5\r\n") :=
  (lookup_duplicate_last_received
    (bytes "GET / HTTP/1.0\r\nContent-Length: 3\r\nContent-Length: 5\r\n\r\nHELLO") []
    (bytes "Content-Length: 3\r\nContent-Length: 5\r\n\r\nHELLO") (bytes "HELLO")
    (bytes "Content-Length")
    { protocol_minor_version := 0, method := bytes "GET", path := bytes "/",
      header := [{ name := bytes "Content-Length", value := bytes "5\r\n" },
                 { name := bytes "Content-Length", value := bytes "3\r\n" }],
      body := some (bytes "HELLO"), length := 5 }
    { HTTPRequest.blank with method := bytes "GET", path := bytes "/" }
    [{ name := bytes "Content-Length", value := bytes "3\r\n" }] []
    { name := bytes "Content-Length", value := bytes "5\r\n" }
    (by decide) (by decide) (by decide)
    ((strcasecmp_eq_iff _ _).1 (by decide)) (by simp)).2.1

/-! ## The minor version (C21) -/

theorem read_request_line_ok_inv (req r : HTTPRequest) (inp rest : List Nat)
    (h : read_request_line req inp = .ok r rest) :
    ∃ line M P p, fgets LINE_BUF_SIZE inp = some (line, rest)
      ∧ cstr line = M ++ SP :: (P ++ SP :: p) ∧ SP ∉ M ∧ SP ∉ P
      ∧ strncasecmp_eq p (bytes "HTTP/1.") 7 = true
      ∧ r = { req with method := upcase M, path := P,
                       protocol_minor_version := atoi (p.drop 7) } := by
  cases hf : fgets LINE_BUF_SIZE inp with
  | none =>
    unfold read_request_line at h
    rw [hf] at h
    cases h
  | some lr =>
    obtain ⟨line, rest1⟩ := lr
    rw [read_request_line_of_line req inp line rest1 hf] at h
    split at h
    · cases h
    · rename_i M x hs1
      split at h
      · cases h
      · rename_i P p hs2
        obtain ⟨h1, hM⟩ := strchr_some _ _ _ _ hs1
        obtain ⟨h2, hP⟩ := strchr_some _ _ _ _ hs2
        by_cases hc : strncasecmp_eq p (bytes "HTTP/1.") 7 = true
        · rw [if_pos hc] at h
          simp only [Outcome.ok.injEq] at h
          refine ⟨line, M, P, p, ?_, ?_, hM, hP, hc, h.1.symm⟩
          · rw [h.2]
          · rw [h1, h2]
        · rw [if_neg hc] at h
          cases h

theorem long_to_int_range (v : Int) : -(2 ^ 31) ≤ long_to_int v ∧ long_to_int v < 2 ^ 31 := by
  unfold long_to_int
  omega

/-- C21, as stated, fails: the minor version is whatever number follows
`HTTP/1.`, here 5 and -7. -/
theorem minor_version_counterexample :
    read_request (bytes "GET / HTTP/1.5\r\n\r\n")
        = .ok { protocol_minor_version := 5, method := bytes "GET", path := bytes "/",
                header := [], body := none, length := 0 } []
    ∧ read_request (bytes "GET / HTTP/1.-7\r\n\r\n")
        = .ok { protocol_minor_version := -7, method := bytes "GET", path := bytes "/",
                header := [], body := none, length := 0 } [] := by
  refine ⟨by decide, by decide⟩

/-- C21 (amended): the minor version of a request returned by `read_request`
is the `int` that `atoi` reads from the text after the seven bytes of the
protocol prefix in the request line `M SP P SP p`; it lies between `-2 ^ 31`
and `2 ^ 31 - 1` and is not confined to 0 and 1. -/
theorem minor_version_is_atoi (inp rest : List Nat) (req : HTTPRequest)
    (h : read_request inp = .ok req rest) :
    -(2 ^ 31) ≤ req.protocol_minor_version ∧ req.protocol_minor_version < 2 ^ 31
    ∧ ∃ line rest1 M P p, fgets LINE_BUF_SIZE inp = some (line, rest1)
        ∧ cstr line = M ++ SP :: (P ++ SP :: p) ∧ SP ∉ M ∧ SP ∉ P
        ∧ req.protocol_minor_version = atoi (p.drop 7) := by
  obtain ⟨r0, s1, s2, hline, _, _, _, hv, _, _⟩ := read_request_ok_inv inp rest req h
  obtain ⟨line, M, P, p, hf, hc, hM, hP, _, hr⟩ := read_request_line_ok_inv _ _ _ _ hline
  have hver : req.protocol_minor_version = atoi (p.drop 7) := by
    rw [hv, hr]
  refine ⟨?_, ?_, line, s1, M, P, p, hf, hc, hM, hP, hver⟩
  · rw [hver]
    exact (long_to_int_range _).1
  · rw [hver]
    exact (long_to_int_range _).2

/-- The request line `GET / HTTP/1.5`, through `minor_version_is_atoi`. -/
theorem minor_version_is_atoi_witness :
    -(2 ^ 31) ≤ (5 : Int) ∧ (5 : Int) < 2 ^ 31
    ∧ ∃ line rest1 M P p, fgets LINE_BUF_SIZE (bytes "GET / HTTP/1.5\r\n\r\n") = some (line, rest1)
        ∧ cstr line = M ++ SP :: (P ++ SP :: p) ∧ SP ∉ M ∧ SP ∉ P
        ∧ (5 : Int) = atoi (p.drop 7) :=
  minor_version_is_atoi (bytes "GET / HTTP/1.5\r\n\r\n") []
    { protocol_minor_version := 5, method := bytes "GET", path := bytes "/",
      header := [], body := none, length := 0 } (by decide)

/-! ## The file system path (C22) -/

/-- C22: `build_fspath d u` is `d`, one '/', then `u`, both unchanged, of
length `len d + 1 + len u`; `get_fileinfo` hands exactly this path to `lstat`
and records it, and `do_file_response` opens the recorded path, so `..`
segments and a leading '/' of `u` reach the file system as they are. -/
theorem build_fspath_is_concatenation (env : Env) (d u : List Nat) :
    build_fspath d u = d ++ [47] ++ u
    ∧ (build_fspath d u).length = d.length + 1 + u.length
    ∧ (get_fileinfo env d u).path = d ++ [47] ++ u
    ∧ ((get_fileinfo env d u).ok = true ↔
        ∃ st, env.lstat (d ++ [47] ++ u) = some st ∧ st.is_reg = true)
    ∧ (∀ req : HTTPRequest, req.path = u → req.method = bytes "GET" →
        ∀ st c, env.lstat (d ++ [47] ++ u) = some st → st.is_reg = true →
          env.open_read (d ++ [47] ++ u) = some c →
          do_file_response env req d
            = { out := file_response_head env req st.st_size ++ c, exit := none })
    ∧ build_fspath (bytes "/www") (bytes "/../etc/passwd") = bytes "/www//../etc/passwd" := by
  have hb : build_fspath d u = d ++ [47] ++ u := by
    have h47 : bytes "/" = [47] := by decide
    unfold build_fspath
    rw [h47]
  refine ⟨hb, ?_, ?_, ?_, ?_, by decide⟩
  · rw [hb]
    simp only [List.length_append, List.length_cons, List.length_nil]
  · rw [← hb]
    unfold get_fileinfo
    simp only []
    split
    · rfl
    · split <;> rfl
  · rw [← hb]
    constructor
    · intro hok
      by_contra hres
      rw [get_fileinfo_unresolved env d u hres] at hok
      cases hok
    · rintro ⟨st, hst, hreg⟩
      rw [get_fileinfo_regular env d u st hst hreg]
  · intro req hp hm st c hst hreg hopen
    rw [← hb, ← hp] at hst hopen
    exact do_file_response_get env req d st c hm hst hreg hopen

/-! ## What the response depends on (C27, C28) -/

theorem output_common_header_fields_req (env : Env) (r1 r2 : HTTPRequest) (status : List Nat) :
    output_common_header_fields env r1 status = output_common_header_fields env r2 status := rfl

/-- The response depends on the request through its method and path only. -/
theorem respond_to_congr (env : Env) (r1 r2 : HTTPRequest) (docroot : List Nat)
    (hm : r1.method = r2.method) (hp : r1.path = r2.path) :
    respond_to env r1 docroot = respond_to env r2 docroot := by
  unfold respond_to do_file_response not_found method_not_allowed not_implemented
  rw [hm, hp]
  simp only [output_common_header_fields_req env r1 r2]

theorem respond_to_http_1_0 (env : Env) (req : HTTPRequest) (docroot : List Nat) :
    bytes "HTTP/1.0 " <+: (respond_to env req docroot).out := by
  obtain ⟨status, hs⟩ := respond_to_has_status env req docroot
  unfold has_status at hs
  exact List.IsPrefix.trans
    ((List.prefix_append _ _).trans (List.prefix_append _ _)) hs

/-- C27: the response to a request that parsed starts with `HTTP/1.0 `, and
the whole response is the same whatever minor version the request carried. -/
theorem status_line_minor_version (env : Env) (inp docroot rest : List Nat) (req : HTTPRequest)
    (h : read_request inp = .ok req rest) :
    bytes "HTTP/1.0 " <+: (service env inp docroot).out
    ∧ bytes "HTTP/1." ++ fmt_ld (HTTP_MINOR_VERSION : Nat) ++ bytes " " = bytes "HTTP/1.0 "
    ∧ ∀ v : Int, respond_to env { req with protocol_minor_version := v } docroot
        = service env inp docroot := by
  rw [service_of_read_request env inp docroot rest req h]
  exact ⟨respond_to_http_1_0 env req docroot, by decide,
    fun v => respond_to_congr env _ req docroot rfl rfl⟩

/-- A request sent as HTTP/1.1, through `status_line_minor_version`. -/
theorem status_line_minor_version_witness :
    bytes "HTTP/1.0 " <+: (service (one_file [] (bytes "/www//a.txt") (bytes "hello"))
        (bytes "GET /a.txt HTTP/1.1\r\n\r\n") (bytes "/www")).out :=
  (status_line_minor_version (one_file [] (bytes "/www//a.txt") (bytes "hello"))
    (bytes "GET /a.txt HTTP/1.1\r\n\r\n") (bytes "/www") []
    { protocol_minor_version := 1, method := bytes "GET", path := bytes "/a.txt",
      header := [], body := none, length := 0 } (by decide)).1

/-- C28: two requests that parsed to the same upcased method and the same
path get the same response, byte for byte, from the same document root, file
system and clock; their header fields, bodies, minor versions and the letter
case of the method as sent play no part. -/
theorem service_depends_on_method_and_path (env : Env) (inp1 inp2 docroot rest1 rest2 : List Nat)
    (r1 r2 : HTTPRequest) (h1 : read_request inp1 = .ok r1 rest1)
    (h2 : read_request inp2 = .ok r2 rest2) (hm : r1.method = r2.method)
    (hp : r1.path = r2.path) :
    service env inp1 docroot = service env inp2 docroot := by
  rw [service_of_read_request env inp1 docroot rest1 r1 h1,
    service_of_read_request env inp2 docroot rest2 r2 h2]
  exact respond_to_congr env r1 r2 docroot hm hp

/-- A lower-case HTTP/1.1 request with a header field and a body against a
plain HTTP/1.0 request, through `service_depends_on_method_and_path`. -/
theorem service_depends_on_method_and_path_witness :
    service (one_file [] (bytes "/www//a.txt") (bytes "hello"))
        (bytes "get /a.txt HTTP/1.1\r\nContent-Length: 2\r\n\r\nhi") (bytes "/www")
      = service (one_file [] (bytes "/www//a.txt") (bytes "hello"))
        (bytes "GET /a.txt HTTP/1.0\r\n\r\n") (bytes "/www") :=
  service_depends_on_method_and_path (one_file [] (bytes "/www//a.txt") (bytes "hello"))
    (bytes "get /a.txt HTTP/1.1\r\nContent-Length: 2\r\n\r\nhi")
    (bytes "GET /a.txt HTTP/1.0\r\n\r\n") (bytes "/www") [] []
    { protocol_minor_version := 1, method := bytes "GET", path := bytes "/a.txt",
      header := [{ name := bytes "Content-Length", value := bytes "2\r\n" }],
      body := some (bytes "hi"), length := 2 }
    { protocol_minor_version := 0, method := bytes "GET", path := bytes "/a.txt",
      header := [], body := none, length := 0 }
    (by decide) (by decide) rfl rfl

/-! ## Storage order of the header fields (C25) -/

theorem read_header_field_lf (tail : List Nat) :
    read_header_field (LF :: tail) = .ok none tail := by
  simp [read_header_field, fgets, fgets_chars, LINE_BUF_SIZE, LF]

theorem read_header_field_field_line (f : List Nat × List Nat) (rest : List Nat)
    (hname : ∀ c ∈ f.1, c ≠ COLON ∧ c ≠ NUL ∧ c ≠ LF) (hw : ∀ c ∈ f.2, c ≠ NUL ∧ c ≠ LF)
    (hlen : f.1.length + f.2.length + 2 ≤ 4095) :
    read_header_field (field_line f ++ [LF] ++ rest) = .ok (some (field_of_line f)) rest := by
  obtain ⟨name, w⟩ := f
  simp only [] at hname hw hlen
  unfold field_line field_of_line
  simp only []
  have hin : name ++ COLON :: w ++ [LF] ++ rest = (name ++ COLON :: w) ++ LF :: rest := by simp
  have hmem : ∀ c ∈ name ++ COLON :: w, c ≠ LF ∧ c ≠ NUL := by
    intro c hc
    simp only [List.mem_append, List.mem_cons] at hc
    rcases hc with h | h | h
    · exact ⟨(hname c h).2.2, (hname c h).2.1⟩
    · subst h; decide
    · exact ⟨(hw c h).2, (hw c h).1⟩
  have hlf : LF ∉ name ++ COLON :: w := fun h => (hmem LF h).1 rfl
  have hnul : NUL ∉ (name ++ COLON :: w) ++ [LF] := by
    intro h
    rcases List.mem_append.1 h with h | h
    · exact (hmem NUL h).2 rfl
    · simp [NUL, LF] at h
  have hl : (name ++ COLON :: w).length + 1 ≤ LINE_BUF_SIZE - 1 := by
    simp [LINE_BUF_SIZE]
    omega
  have hf := fgets_line LINE_BUF_SIZE _ rest hlf hl
  have hcolon : COLON ∉ name := fun h => (hname COLON h).1 rfl
  have hline : (name ++ COLON :: w) ++ [LF] = name ++ COLON :: (w ++ [LF]) := by simp
  have hnb : ¬ ((name ++ COLON :: w) ++ [LF] = [LF] ∨ (name ++ COLON :: w) ++ [LF] = [CR, LF]) := by
    have hc : COLON ∈ (name ++ COLON :: w) ++ [LF] := by simp
    rintro (h | h)
    · rw [h] at hc
      simp [COLON, LF] at hc
    · rw [h] at hc
      simp [COLON, LF, CR] at hc
  rw [hin, read_header_field_of_line _ _ _ hf, if_neg hnb, cstr_no_nul _ hnul, hline,
    strchr_split _ _ _ hcolon]
  simp only [skip_strspn_blank_eq_dropWhile]

/-- A header block written as lines `name ':' w LF` and ended by an empty line
is received as the fields these lines stand for, in the order of the lines. -/
theorem fields_in_wire_order_lines (ls : List (List Nat × List Nat)) (fuel : Nat)
    (e rest : List Nat) (he : e = [LF] ∨ e = CRLF)
    (hwf : ∀ f ∈ ls, (∀ c ∈ f.1, c ≠ COLON ∧ c ≠ NUL ∧ c ≠ LF) ∧ (∀ c ∈ f.2, c ≠ NUL ∧ c ≠ LF)
      ∧ f.1.length + f.2.length + 2 ≤ 4095)
    (hfuel : ls.length < fuel) :
    fields_in_wire_order fuel (lines_on_wire [LF] (ls.map field_line) ++ e ++ rest)
      = some (ls.map field_of_line, rest) := by
  induction ls generalizing fuel with
  | nil =>
    cases fuel with
    | zero => simp at hfuel
    | succ n =>
      unfold fields_in_wire_order
      rcases he with he | he
      · rw [he]
        simp only [List.map_nil, lines_on_wire, List.nil_append, List.singleton_append,
          read_header_field_lf]
      · rw [he]
        simp only [List.map_nil, lines_on_wire, List.nil_append, CRLF, List.cons_append,
          read_header_field_crlf]
  | cons f ls ih =>
    cases fuel with
    | zero => simp at hfuel
    | succ n =>
      obtain ⟨h1, h2, h3⟩ := hwf f (by simp)
      have hin : lines_on_wire [LF] ((f :: ls).map field_line) ++ e ++ rest
          = field_line f ++ [LF] ++ (lines_on_wire [LF] (ls.map field_line) ++ e ++ rest) := by
        simp [lines_on_wire]
      unfold fields_in_wire_order
      rw [hin, read_header_field_field_line f _ h1 h2 h3]
      simp only []
      rw [ih n (fun g hg => hwf g (by simp [hg])) (by simpa using hfuel)]
      simp

theorem lines_on_wire_length (eol : List Nat) (ls : List (List Nat)) (h : eol ≠ []) :
    ls.length ≤ (lines_on_wire eol ls).length := by
  induction ls with
  | nil => simp [lines_on_wire]
  | cons l ls ih =>
    have : 0 < eol.length := List.length_pos.2 h
    simp only [lines_on_wire, List.length_cons, List.length_append]
    omega

/-- C25: the header list of a returned request is the reverse of the fields
in the order received, every field present once; when the header block is
written as the lines `name ':' w LF` followed by the empty line, the list is
the fields of these lines, last line first. -/
theorem header_list_reverses_wire_order (inp rest s1 : List Nat) (req r0 : HTTPRequest)
    (hreq : read_request inp = .ok req rest)
    (hline : read_request_line HTTPRequest.blank inp = .ok r0 s1) :
    (∃ fs s2, fields_in_wire_order (s1.length + 1) s1 = some (fs, s2)
      ∧ req.header = fs.reverse ∧ req.header.Perm fs)
    ∧ (∀ (ls : List (List Nat × List Nat)) (e after : List Nat), (e = [LF] ∨ e = CRLF) →
        (∀ f ∈ ls, (∀ c ∈ f.1, c ≠ COLON ∧ c ≠ NUL ∧ c ≠ LF) ∧ (∀ c ∈ f.2, c ≠ NUL ∧ c ≠ LF)
          ∧ f.1.length + f.2.length + 2 ≤ 4095) →
        s1 = lines_on_wire [LF] (ls.map field_line) ++ e ++ after →
        req.header = (ls.map field_of_line).reverse) := by
  obtain ⟨r1, t1, t2, hline1, hhead, _⟩ := read_request_ok_inv inp rest req hreq
  rw [hline] at hline1
  simp only [Outcome.ok.injEq] at hline1
  rw [← hline1.2] at hhead
  obtain ⟨fs, hfs, hrev⟩ := (read_header_fields_reverse _ _ _ _ _).1 hhead
  rw [List.append_nil] at hrev
  refine ⟨⟨fs, t2, hfs, hrev, hrev ▸ List.reverse_perm fs⟩, ?_⟩
  intro ls e after he hwf hs1
  have hlen : ls.length < s1.length + 1 := by
    have h1 := lines_on_wire_length [LF] (ls.map field_line) (by simp)
    rw [List.length_map] at h1
    rw [hs1]
    simp only [List.length_append]
    omega
  have h2 := fields_in_wire_order_lines ls (s1.length + 1) e after he hwf hlen
  rw [← hs1, hfs] at h2
  simp only [Option.some.injEq, Prod.mk.injEq] at h2
  rw [hrev, h2.1]

/-- Three header fields, through `header_list_reverses_wire_order`. -/
theorem header_list_reverses_wire_order_witness :
    ∃ fs s2, fields_in_wire_order (bytes "A: 1\r\nB: 2\r\nC: 3\r\n\r\n").length.succ
        (bytes "A: 1\r\nB: 2\r\nC: 3\r\n\r\n") = some (fs, s2)
      ∧ [{ name := bytes "C", value := bytes "3\r\n" }, { name := bytes "B", value := bytes "2\r\n" },
         ({ name := bytes "A", value := bytes "1\r\n" } : HTTPHeaderField)] = fs.reverse
      ∧ [{ name := bytes "C", value := bytes "3\r\n" }, { name := bytes "B", value := bytes "2\r\n" },
         ({ name := bytes "A", value := bytes "1\r\n" } : HTTPHeaderField)].Perm fs :=
  (header_list_reverses_wire_order (bytes "GET / HTTP/1.0\r\nA: 1\r\nB: 2\r\nC: 3\r\n\r\n") []
    (bytes "A: 1\r\nB: 2\r\nC: 3\r\n\r\n")
    { protocol_minor_version := 0, method := bytes "GET", path := bytes "/",
      header := [{ name := bytes "C", value := bytes "3\r\n" },
                 { name := bytes "B", value := bytes "2\r\n" },
                 { name := bytes "A", value := bytes "1\r\n" }],
      body := none, length := 0 }
    { HTTPRequest.blank with method := bytes "GET", path := bytes "/" }
    (by decide) (by decide)).1

/-! ## End of file inside the header block (C26) -/

theorem fgets_eol_lf (l t : List Nat) (hlf : LF ∉ l) (hlen : l.length ≤ 4094) :
    fgets LINE_BUF_SIZE (l ++ [LF] ++ t) = some (l ++ [LF], t) := by
  have h := fgets_line LINE_BUF_SIZE l t hlf (by simp [LINE_BUF_SIZE]; omega)
  rw [List.append_assoc]
  exact h

theorem fgets_chars_eof (l : List Nat) (n : Nat) (hlf : LF ∉ l) (hn : l.length ≤ n) :
    fgets_chars l n = (l, []) := by
  induction l generalizing n with
  | nil => simp [fgets_chars]
  | cons c l ih =>
    have h0 : n ≠ 0 := by simp at hn; omega
    have hc : c ≠ LF := fun h => hlf (by simp [h])
    have hl : LF ∉ l := fun h => hlf (by simp [h])
    have hn1 : l.length ≤ n - 1 := by simp at hn; omega
    simp [fgets_chars, h0, hc, ih (n - 1) hl hn1]

theorem fgets_eof (l : List Nat) (hne : l ≠ []) (hlf : LF ∉ l) (hlen : l.length ≤ 4094) :
    fgets LINE_BUF_SIZE l = some (l, []) := by
  have h := fgets_chars_eof l (LINE_BUF_SIZE - 1) hlf (by simp [LINE_BUF_SIZE]; omega)
  cases l with
  | nil => exact absurd rfl hne
  | cons c l => simpa [fgets] using h

/-- `read_header_field` on a line that is not empty returns a field or
exits; it does not signal the end of the header block. -/
theorem read_header_field_not_blank (inp line rest : List Nat)
    (hf : fgets LINE_BUF_SIZE inp = some (line, rest))
    (hnb : ¬ (line = [LF] ∨ line = [CR, LF])) :
    (∃ h, read_header_field inp = .ok (some h) rest)
    ∨ read_header_field inp = .exit .header_parse rest none := by
  rw [read_header_field_of_line inp line rest hf, if_neg hnb]
  split
  · exact Or.inr rfl
  · exact Or.inl ⟨_, rfl⟩

theorem read_header_field_nil : read_header_field [] = .exit .header_read [] none := rfl

/-- A header block whose lines are all non-empty and that ends at end of file
makes the header loop exit. -/
theorem read_header_fields_eof (ls : List (List Nat)) (last : List Nat) (fuel : Nat)
    (acc : List HTTPHeaderField)
    (hls : ∀ l ∈ ls, LF ∉ l ∧ l.length ≤ 4094 ∧ l ≠ [] ∧ l ≠ [CR])
    (hlast : LF ∉ last ∧ last.length ≤ 4094) :
    ∃ msg rest alloc,
      read_header_fields fuel (lines_on_wire [LF] ls ++ last) acc = .exit msg rest alloc := by
  induction ls generalizing fuel acc with
  | nil =>
    simp only [lines_on_wire, List.nil_append]
    cases fuel with
    | zero => exact ⟨_, _, _, rfl⟩
    | succ n =>
      unfold read_header_fields
      by_cases hne : last = []
      · rw [hne, read_header_field_nil]
        exact ⟨_, _, _, rfl⟩
      · have hf := fgets_eof last hne hlast.1 hlast.2
        have hnb : ¬ (last = [LF] ∨ last = [CR, LF]) := by
          rintro (h | h)
          · exact hlast.1 (by rw [h]; simp)
          · exact hlast.1 (by rw [h]; simp)
        rcases read_header_field_not_blank last last [] hf hnb with ⟨h, hr⟩ | hr
        · rw [hr]
          simp only []
          cases n with
          | zero => exact ⟨_, _, _, rfl⟩
          | succ k =>
            unfold read_header_fields
            rw [read_header_field_nil]
            exact ⟨_, _, _, rfl⟩
        · rw [hr]
          exact ⟨_, _, _, rfl⟩
  | cons l ls ih =>
    obtain ⟨h1, h2, h3, h4⟩ := hls l (by simp)
    have hin : lines_on_wire [LF] (l :: ls) ++ last
        = l ++ [LF] ++ (lines_on_wire [LF] ls ++ last) := by
      simp [lines_on_wire]
    rw [hin]
    cases fuel with
    | zero => exact ⟨_, _, _, rfl⟩
    | succ n =>
      unfold read_header_fields
      have hf := fgets_eol_lf l (lines_on_wire [LF] ls ++ last) h1 h2
      have hnb : ¬ (l ++ [LF] = [LF] ∨ l ++ [LF] = [CR, LF]) := by
        rintro (h | h)
        · exact h3 (by simpa using h)
        · have h5 : l ++ [LF] = [CR] ++ [LF] := h
          exact h4 (List.append_cancel_right h5)
      rcases read_header_field_not_blank _ _ _ hf hnb with ⟨h, hr⟩ | hr
      · rw [hr]
        simp only []
        exact ih n (h :: acc) (fun x hx => hls x (by simp [hx]))
      · rw [hr]
        exact ⟨_, _, _, rfl⟩

theorem read_request_exit_in_headers (inp s : List Nat) (r : HTTPRequest)
    (hline : read_request_line HTTPRequest.blank inp = .ok r s)
    (hh : ∃ msg rest alloc, read_header_fields (s.length + 1) s [] = .exit msg rest alloc) :
    ∃ msg rest alloc, read_request inp = .exit msg rest alloc := by
  obtain ⟨msg, rest, alloc, hh⟩ := hh
  refine ⟨msg, rest, alloc, ?_⟩
  unfold read_request
  rw [hline]
  simp only []
  rw [hh]

theorem read_request_line_rest (req r : HTTPRequest) (inp line rest s : List Nat)
    (hf : fgets LINE_BUF_SIZE inp = some (line, rest))
    (h : read_request_line req inp = .ok r s) : s = rest := by
  obtain ⟨line1, _, _, _, hf1, _⟩ := read_request_line_ok_inv req r inp s h
  rw [hf] at hf1
  simp only [Option.some.injEq, Prod.mk.injEq] at hf1
  exact hf1.2.symm

theorem read_request_line_exit_or_ok (req : HTTPRequest) (inp : List Nat) :
    (∃ msg rest alloc, read_request_line req inp = .exit msg rest alloc)
    ∨ (∃ r s, read_request_line req inp = .ok r s) := by
  cases h : read_request_line req inp with
  | ok r s => exact Or.inr ⟨r, s, rfl⟩
  | exit m s a => exact Or.inl ⟨m, s, a, rfl⟩

/-- C26 (amended): a stream made of LF-terminated lines and a last piece
without LF, none longer than 4094 bytes, in which no line after the first is
empty (`""` or `"\r"`), so that the stream ends before an empty line has ended
the header block, makes `read_request` exit with a fatal error of the source,
whatever header fields it has read. -/
theorem eof_before_empty_line (lines : List (List Nat)) (last : List Nat)
    (hlines : ∀ l ∈ lines, LF ∉ l ∧ l.length ≤ 4094)
    (hlast : LF ∉ last ∧ last.length ≤ 4094)
    (hhead : ∀ l ∈ lines.tail, l ≠ [] ∧ l ≠ [CR]) :
    ∃ msg rest alloc, read_request (lines_on_wire [LF] lines ++ last) = .exit msg rest alloc
      ∧ msg ≠ .fuel := by
  have key : ∃ msg rest alloc,
      read_request (lines_on_wire [LF] lines ++ last) = .exit msg rest alloc := by
    rcases read_request_line_exit_or_ok HTTPRequest.blank (lines_on_wire [LF] lines ++ last)
      with ⟨m, s, a, he⟩ | ⟨r, s, hr⟩
    · refine ⟨m, s, a, ?_⟩
      unfold read_request
      rw [he]
    · cases lines with
      | nil =>
        simp only [lines_on_wire, List.nil_append] at hr ⊢
        by_cases hne : last = []
        · rw [hne] at hr
          cases hr
        · have hs := read_request_line_rest _ _ _ _ _ _ (fgets_eof last hne hlast.1 hlast.2) hr
          rw [hs] at hr
          exact read_request_exit_in_headers last [] r hr ⟨_, _, _, rfl⟩
      | cons l ls =>
        obtain ⟨h1, h2⟩ := hlines l (by simp)
        have hin : lines_on_wire [LF] (l :: ls) ++ last
            = l ++ [LF] ++ (lines_on_wire [LF] ls ++ last) := by
          simp [lines_on_wire]
        rw [hin] at hr ⊢
        have hs := read_request_line_rest _ _ _ _ _ _
          (fgets_eol_lf l (lines_on_wire [LF] ls ++ last) h1 h2) hr
        rw [hs] at hr
        refine read_request_exit_in_headers _ _ r hr ?_
        exact read_header_fields_eof ls last _ []
          (fun x hx => ⟨(hlines x (by simp [hx])).1, (hlines x (by simp [hx])).2,
            (hhead x (by simpa using hx)).1, (hhead x (by simpa using hx)).2⟩) hlast
  obtain ⟨msg, rest, alloc, h⟩ := key
  exact ⟨msg, rest, alloc, h, fun hm => read_request_not_fuel _ rest alloc (hm ▸ h)⟩

/-- A stream that holds a valid request line and one header line, through
`eof_before_empty_line`. -/
theorem eof_before_empty_line_witness :
    ∃ msg rest alloc, read_request (bytes "GET / HTTP/1.0\r\nHost: a\r\n") = .exit msg rest alloc
      ∧ msg ≠ .fuel :=
  eof_before_empty_line [bytes "GET / HTTP/1.0\r", bytes "Host: a\r"] []
    (by decide) (by decide) (by decide)

/-- The request line `GET / HTTP/1.0` followed on the same line by text that
does not start with a digit. -/
theorem read_request_line_sample (req : HTTPRequest) (inp t rest : List Nat)
    (hf : fgets LINE_BUF_SIZE inp = some (bytes "GET / HTTP/1.0" ++ t, rest))
    (hnul : NUL ∉ t) (ht : ∀ c, t.head? = some c → isdigit c = false) :
    read_request_line req inp
      = .ok { req with method := bytes "GET", path := bytes "/",
                       protocol_minor_version := 0 } rest := by
  have hlit : ∀ c ∈ bytes "GET / HTTP/1.0", c ≠ NUL := by decide
  have hnul2 : NUL ∉ bytes "GET / HTTP/1.0" ++ t := by
    intro h
    rcases List.mem_append.1 h with h | h
    · exact hlit NUL h rfl
    · exact hnul h
  have hparts : bytes "GET / HTTP/1.0" ++ t
      = bytes "GET" ++ SP :: (bytes "/" ++ SP :: (bytes "HTTP/1." ++ (48 :: [] ++ t))) := by
    have h0 : bytes "GET / HTTP/1.0"
        = bytes "GET" ++ SP :: (bytes "/" ++ SP :: (bytes "HTTP/1." ++ [48])) := by decide
    rw [h0]
    simp only [List.append_assoc, List.cons_append, List.nil_append]
  have hline := read_request_line_of_parts req inp _ rest (bytes "GET") (bytes "/")
    (bytes "HTTP/1." ++ (48 :: [] ++ t)) hf
    (by rw [cstr_no_nul _ hnul2, hparts]) (by decide) (by decide)
  have hcmp : strncasecmp_eq (bytes "HTTP/1." ++ (48 :: [] ++ t)) (bytes "HTTP/1.") 7 = true :=
    (strncasecmp_eq_iff _ _ 7 (by decide)).2 ⟨bytes "HTTP/1.", _, rfl, by
      unfold eq_ignore_case
      rw [bytes_http]
      simp [same_letter]⟩
  have hdrop : (bytes "HTTP/1." ++ (48 :: [] ++ t)).drop 7 = 48 :: [] ++ t := by
    have h7 : (bytes "HTTP/1.").length = 7 := by decide
    rw [← h7, List.drop_left]
  have hatoi : atoi (48 :: [] ++ t) = 0 := by
    rw [atoi_digits_cons 48 [] t (by decide) ht (by decide)]
    decide
  have hup : upcase (bytes "GET") = bytes "GET" := by decide
  rw [if_pos hcmp, hdrop, hatoi, hup] at hline
  exact hline

/-- C26, as stated, fails: a stream that is one line of 4095 bytes and its LF,
with no empty line in it, parses, because `fgets` reads the LF left over from
the long line as an empty line. -/
theorem eof_before_empty_line_counterexample :
    LF ∉ bytes "GET / HTTP/1.0" ++ List.replicate 4081 97
    ∧ read_request (bytes "GET / HTTP/1.0" ++ List.replicate 4081 97 ++ [LF])
        = .ok { protocol_minor_version := 0, method := bytes "GET", path := bytes "/",
                header := [], body := none, length := 0 } [] := by
  have hmem := sample_long_line.1
  refine ⟨fun h => (hmem LF h).1 rfl, ?_⟩
  have hf := fgets_full (bytes "GET / HTTP/1.0" ++ List.replicate 4081 97) [LF]
    (fun h => (hmem LF h).1 rfl) sample_long_line.2
  have hline := read_request_line_sample HTTPRequest.blank _ (List.replicate 4081 97) [LF] hf
    (fun h => by
      have := List.eq_of_mem_replicate h
      revert this
      decide)
    (by
      intro c hc
      have hr : List.replicate 4081 97 = 97 :: List.replicate 4080 97 := rfl
      rw [hr] at hc
      simp only [List.head?_cons, Option.some.injEq] at hc
      rw [← hc]
      decide)
  unfold read_request
  rw [hline]
  decide

/-! ## CRLF and LF line terminators (C23) -/

theorem cstr_append_of_nul (a b : List Nat) (h : NUL ∈ a) : cstr (a ++ b) = cstr a := by
  induction a with
  | nil => simp at h
  | cons c a ih =>
    by_cases hc : c = NUL
    · simp [cstr, hc]
    · rcases List.mem_cons.1 h with h | h
      · exact absurd h.symm hc
      · simp [cstr, hc, ih h]

theorem cstr_eol (l : List Nat) :
    ∃ s e1 e2, cstr (l ++ CRLF) = s ++ e1 ∧ cstr (l ++ [LF]) = s ++ e2 ∧ eol_pair e1 e2 := by
  by_cases h : NUL ∈ l
  · exact ⟨cstr l, [], [], by rw [cstr_append_of_nul l _ h]; simp,
      by rw [cstr_append_of_nul l _ h]; simp, Or.inl ⟨rfl, rfl⟩⟩
  · refine ⟨l, CRLF, [LF], ?_, ?_, Or.inr ⟨rfl, rfl⟩⟩
    · exact cstr_no_nul _ (by
        intro hm
        rcases List.mem_append.1 hm with hm | hm
        · exact h hm
        · revert hm
          decide)
    · exact cstr_no_nul _ (by
        intro hm
        rcases List.mem_append.1 hm with hm | hm
        · exact h hm
        · revert hm
          decide)

theorem eol_pair_not_mem (e1 e2 : List Nat) (c : Nat) (he : eol_pair e1 e2) (h1 : c ≠ CR)
    (h2 : c ≠ LF) : c ∉ e1 ∧ c ∉ e2 := by
  rcases he with ⟨ha, hb⟩ | ⟨ha, hb⟩
  · rw [ha, hb]
    simp
  · rw [ha, hb]
    simp [CRLF, h1, h2]

theorem strchr_append_right (s e : List Nat) (c : Nat) (h : c ∉ e) :
    strchr (s ++ e) c =
      match strchr s c with
      | none => none
      | some (l, r) => some (l, r ++ e) := by
  induction s with
  | nil =>
    simp only [List.nil_append, strchr]
    exact strchr_none e c h
  | cons x s ih =>
    by_cases hx : x = c
    · simp [strchr, hx]
    · rw [List.cons_append, strchr, if_neg hx, ih, strchr, if_neg hx]
      cases strchr s c with
      | none => rfl
      | some lr => rfl

theorem digits_value_eol (d : List Nat) (acc : Nat) :
    digits_value (d ++ CRLF) acc = digits_value (d ++ [LF]) acc := by
  induction d generalizing acc with
  | nil => rfl
  | cons c d ih =>
    simp [digits_value, ih]

theorem strtol_crlf_lf (d : List Nat) : strtol (d ++ CRLF) = strtol (d ++ [LF]) := by
  induction d with
  | nil => decide
  | cons c d ih =>
    by_cases hs : isspace c = true
    · have h1 : ∀ x, strtol (c :: x) = strtol x := by
        intro x
        unfold strtol
        simp only [skip_space, hs, if_true]
      rw [List.cons_append, List.cons_append, h1, h1, ih]
    · have h1 : ∀ x, skip_space (c :: x) = c :: x := by
        intro x
        simp only [skip_space, hs]
        rfl
      unfold strtol
      rw [List.cons_append, List.cons_append, h1, h1]
      simp only []
      rw [digits_value_eol d 0, ← List.cons_append, ← List.cons_append, digits_value_eol (c :: d) 0]

theorem strtol_eol (d e1 e2 : List Nat) (he : eol_pair e1 e2) :
    strtol (d ++ e1) = strtol (d ++ e2) := by
  rcases he with ⟨ha, hb⟩ | ⟨ha, hb⟩
  · rw [ha, hb]
  · rw [ha, hb]
    exact strtol_crlf_lf d

theorem skip_strspn_blank_append (p e : List Nat)
    (he : ∀ c, e.head? = some c → c ≠ SP ∧ c ≠ HT) :
    skip_strspn_blank (p ++ e) = skip_strspn_blank p ++ e := by
  induction p with
  | nil =>
    cases e with
    | nil => rfl
    | cons c e =>
      obtain ⟨h1, h2⟩ := he c rfl
      simp [skip_strspn_blank, h1, h2]
  | cons c p ih =>
    by_cases hc : c = SP ∨ c = HT
    · simp [skip_strspn_blank, hc, ih]
    · simp [skip_strspn_blank, hc]

theorem eol_pair_head (e1 e2 : List Nat) (he : eol_pair e1 e2) :
    (∀ c, e1.head? = some c → c = CR ∨ c = LF) ∧ (∀ c, e2.head? = some c → c = CR ∨ c = LF) := by
  rcases he with ⟨ha, hb⟩ | ⟨ha, hb⟩
  · rw [ha, hb]
    simp
  · rw [ha, hb]
    simp [CRLF]

theorem forall₂_mem_left {R : Nat → Nat → Prop} (q lit : List Nat) (h : List.Forall₂ R q lit)
    (x : Nat) (hx : x ∈ q) : ∃ y ∈ lit, R x y := by
  induction h with
  | nil => simp at hx
  | cons hr _ ih =>
    rcases List.mem_cons.1 hx with hx | hx
    · exact ⟨_, by simp, hx ▸ hr⟩
    · obtain ⟨y, hy, hxy⟩ := ih hx
      exact ⟨y, by simp [hy], hxy⟩

theorem eq_ignore_case_http_no_eol (q : List Nat) (h : eq_ignore_case q (bytes "HTTP/1."))
    (x : Nat) (hx : x ∈ q) : x ≠ CR ∧ x ≠ LF := by
  obtain ⟨y, hy, hxy⟩ := forall₂_mem_left q _ h x hx
  have hlit : ∀ y ∈ bytes "HTTP/1.", y ≠ 13 ∧ y ≠ 10 := by decide
  obtain ⟨h1, h2⟩ := hlit y hy
  unfold same_letter at hxy
  constructor
  · intro hc
    simp only [CR] at hc
    omega
  · intro hc
    simp only [LF] at hc
    omega

/-- The protocol prefix is found in `p` followed by a line end exactly when it
is found in `p`. -/
theorem strncasecmp_eq_append_eol (p e : List Nat) (he : ∀ c, e.head? = some c → c = CR ∨ c = LF) :
    strncasecmp_eq (p ++ e) (bytes "HTTP/1.") 7 = strncasecmp_eq p (bytes "HTTP/1.") 7 := by
  have hiff1 := strncasecmp_eq_iff (p ++ e) (bytes "HTTP/1.") 7 (by decide)
  have hiff2 := strncasecmp_eq_iff p (bytes "HTTP/1.") 7 (by decide)
  have hto : strncasecmp_eq (p ++ e) (bytes "HTTP/1.") 7 = true
      → strncasecmp_eq p (bytes "HTTP/1.") 7 = true := by
    intro h
    obtain ⟨q, t, hqt, hq⟩ := hiff1.1 h
    rcases List.append_eq_append_iff.1 hqt with ⟨a, ha, hb⟩ | ⟨a, ha, hb⟩
    swap
    · exact hiff2.2 ⟨q, a, ha, hq⟩
    · cases a with
      | nil =>
        rw [List.append_nil] at ha
        exact hiff2.2 ⟨q, [], by rw [ha]; simp, hq⟩
      | cons x a =>
        exfalso
        have hxe : e.head? = some x := by rw [hb]; rfl
        have hxq : x ∈ q := by rw [ha]; simp
        have := eq_ignore_case_http_no_eol q hq x hxq
        rcases he x hxe with hx | hx
        · exact this.1 hx
        · exact this.2 hx
  have hfrom : strncasecmp_eq p (bytes "HTTP/1.") 7 = true
      → strncasecmp_eq (p ++ e) (bytes "HTTP/1.") 7 = true := by
    intro h
    obtain ⟨q, t, hqt, hq⟩ := hiff2.1 h
    exact hiff1.2 ⟨q, t ++ e, by rw [hqt, List.append_assoc], hq⟩
  cases h1 : strncasecmp_eq (p ++ e) (bytes "HTTP/1.") 7 with
  | true => exact (hto h1).symm
  | false =>
    cases h2 : strncasecmp_eq p (bytes "HTTP/1.") 7 with
    | false => rfl
    | true =>
      rw [hfrom h2] at h1
      cases h1

theorem strncasecmp_eq_length (p : List Nat) (h : strncasecmp_eq p (bytes "HTTP/1.") 7 = true) :
    7 ≤ p.length := by
  obtain ⟨q, t, hqt, hq⟩ := (strncasecmp_eq_iff p (bytes "HTTP/1.") 7 (by decide)).1 h
  have hl : q.length = 7 := List.Forall₂.length_eq hq
  rw [hqt, List.length_append]
  omega

theorem fgets_eol_crlf (l t : List Nat) (hlf : LF ∉ l) (hlen : l.length ≤ 4093) :
    fgets LINE_BUF_SIZE (l ++ CRLF ++ t) = some (l ++ CRLF, t) := by
  have hlf2 : LF ∉ l ++ [CR] := by
    intro h
    rcases List.mem_append.1 h with h | h
    · exact hlf h
    · revert h
      decide
  have h := fgets_line LINE_BUF_SIZE (l ++ [CR]) t hlf2 (by simp [LINE_BUF_SIZE]; omega)
  have e1 : l ++ CRLF ++ t = l ++ [CR] ++ LF :: t := by simp [CRLF]
  have e2 : l ++ CRLF = l ++ [CR] ++ [LF] := by simp [CRLF]
  rw [e1, e2]
  exact h

/-- The request line read from two C strings that differ in their line end
only: the same exit, or the same request. -/
theorem read_request_line_eol (req : HTTPRequest) (inp1 inp2 line1 line2 rest1 rest2 : List Nat)
    (s e1 e2 : List Nat)
    (hf1 : fgets LINE_BUF_SIZE inp1 = some (line1, rest1))
    (hf2 : fgets LINE_BUF_SIZE inp2 = some (line2, rest2))
    (hc1 : cstr line1 = s ++ e1) (hc2 : cstr line2 = s ++ e2) (he : eol_pair e1 e2) :
    (∃ msg, read_request_line req inp1 = .exit msg rest1 none
      ∧ read_request_line req inp2 = .exit msg rest2 none)
    ∨ (∃ r, read_request_line req inp1 = .ok r rest1
      ∧ read_request_line req inp2 = .ok r rest2) := by
  obtain ⟨hsp1, hsp2⟩ := eol_pair_not_mem e1 e2 SP he (by decide) (by decide)
  obtain ⟨hh1, hh2⟩ := eol_pair_head e1 e2 he
  rw [read_request_line_of_line req inp1 line1 rest1 hf1,
    read_request_line_of_line req inp2 line2 rest2 hf2, hc1, hc2,
    strchr_append_right s e1 SP hsp1, strchr_append_right s e2 SP hsp2]
  cases strchr s SP with
  | none => exact Or.inl ⟨_, rfl, rfl⟩
  | some mx =>
    obtain ⟨m, x⟩ := mx
    simp only []
    rw [strchr_append_right x e1 SP hsp1, strchr_append_right x e2 SP hsp2]
    cases strchr x SP with
    | none => exact Or.inl ⟨_, rfl, rfl⟩
    | some pp =>
      obtain ⟨path, p⟩ := pp
      simp only []
      rw [strncasecmp_eq_append_eol p e1 hh1, strncasecmp_eq_append_eol p e2 hh2]
      by_cases hcmp : strncasecmp_eq p (bytes "HTTP/1.") 7 = true
      · rw [if_pos hcmp, if_pos hcmp]
        have h7 := strncasecmp_eq_length p hcmp
        have hd1 : (p ++ e1).drop 7 = p.drop 7 ++ e1 := List.drop_append_of_le_length h7
        have hd2 : (p ++ e2).drop 7 = p.drop 7 ++ e2 := List.drop_append_of_le_length h7
        have hat : atoi ((p ++ e1).drop 7) = atoi ((p ++ e2).drop 7) := by
          unfold atoi
          rw [hd1, hd2, strtol_eol _ e1 e2 he]
        rw [hat]
        exact Or.inr ⟨_, rfl, rfl⟩
      · rw [if_neg hcmp, if_neg hcmp]
        exact Or.inl ⟨_, rfl, rfl⟩

/-- A header line that is not empty, sent with CRLF and with LF: the same
exit, or two fields with the same name and the same number in their values. -/
theorem read_header_field_eol (l t1 t2 : List Nat) (hlf : LF ∉ l) (hlen : l.length ≤ 4093)
    (h0 : l ≠ []) (h1 : l ≠ [CR]) :
    (read_header_field (l ++ CRLF ++ t1) = .exit .header_parse t1 none
      ∧ read_header_field (l ++ [LF] ++ t2) = .exit .header_parse t2 none)
    ∨ (∃ f1 f2, read_header_field (l ++ CRLF ++ t1) = .ok (some f1) t1
      ∧ read_header_field (l ++ [LF] ++ t2) = .ok (some f2) t2 ∧ same_field f1 f2) := by
  have hf1 := fgets_eol_crlf l t1 hlf hlen
  have hf2 := fgets_eol_lf l t2 hlf (by omega)
  have hnb1 : ¬ (l ++ CRLF = [LF] ∨ l ++ CRLF = [CR, LF]) := by
    rintro (h | h)
    · have := congrArg List.length h
      simp [CRLF] at this
    · have h5 : l ++ CRLF = [] ++ CRLF := h
      exact h0 (List.append_cancel_right h5)
  have hnb2 : ¬ (l ++ [LF] = [LF] ∨ l ++ [LF] = [CR, LF]) := by
    rintro (h | h)
    · exact h0 (by simpa using h)
    · have h5 : l ++ [LF] = [CR] ++ [LF] := h
      exact h1 (List.append_cancel_right h5)
  obtain ⟨s, e1, e2, hc1, hc2, he⟩ := cstr_eol l
  obtain ⟨hco1, hco2⟩ := eol_pair_not_mem e1 e2 COLON he (by decide) (by decide)
  obtain ⟨hh1, hh2⟩ := eol_pair_head e1 e2 he
  rw [read_header_field_of_line _ _ _ hf1, read_header_field_of_line _ _ _ hf2, if_neg hnb1,
    if_neg hnb2, hc1, hc2, strchr_append_right s e1 COLON hco1,
    strchr_append_right s e2 COLON hco2]
  cases strchr s COLON with
  | none => exact Or.inl ⟨rfl, rfl⟩
  | some np =>
    obtain ⟨name, p⟩ := np
    refine Or.inr ⟨_, _, rfl, rfl, rfl, ?_⟩
    simp only []
    rw [skip_strspn_blank_append p e1 (fun c hc => by
        rcases hh1 c hc with h | h <;> rw [h] <;> decide),
      skip_strspn_blank_append p e2 (fun c hc => by
        rcases hh2 c hc with h | h <;> rw [h] <;> decide)]
    exact strtol_eol _ e1 e2 he

/-- The header loop on a block sent with CRLF and with LF: the same exit, or
two lists of fields that agree in names and in the numbers of their values. -/
theorem read_header_fields_eol (ls : List (List Nat)) (body : List Nat) (fuel1 fuel2 : Nat)
    (acc1 acc2 : List HTTPHeaderField)
    (hls : ∀ l ∈ ls, LF ∉ l ∧ l.length ≤ 4093 ∧ l ≠ [] ∧ l ≠ [CR])
    (hf1 : ls.length < fuel1) (hf2 : ls.length < fuel2)
    (hacc : List.Forall₂ same_field acc1 acc2) :
    (∃ msg r1 a1 r2 a2,
      read_header_fields fuel1 (lines_on_wire CRLF ls ++ CRLF ++ body) acc1 = .exit msg r1 a1
      ∧ read_header_fields fuel2 (lines_on_wire [LF] ls ++ [LF] ++ body) acc2 = .exit msg r2 a2)
    ∨ (∃ hs1 hs2,
      read_header_fields fuel1 (lines_on_wire CRLF ls ++ CRLF ++ body) acc1 = .ok hs1 body
      ∧ read_header_fields fuel2 (lines_on_wire [LF] ls ++ [LF] ++ body) acc2 = .ok hs2 body
      ∧ List.Forall₂ same_field hs1 hs2) := by
  induction ls generalizing fuel1 fuel2 acc1 acc2 with
  | nil =>
    cases fuel1 with
    | zero => simp at hf1
    | succ n1 =>
      cases fuel2 with
      | zero => simp at hf2
      | succ n2 =>
        refine Or.inr ⟨acc1, acc2, ?_, ?_, hacc⟩
        · simp only [lines_on_wire, List.nil_append, CRLF, List.cons_append, read_header_fields,
            read_header_field_crlf]
        · simp only [lines_on_wire, List.nil_append, List.cons_append, read_header_fields,
            read_header_field_lf]
  | cons l ls ih =>
    cases fuel1 with
    | zero => simp at hf1
    | succ n1 =>
      cases fuel2 with
      | zero => simp at hf2
      | succ n2 =>
        obtain ⟨h1, h2, h3, h4⟩ := hls l (by simp)
        have hin1 : lines_on_wire CRLF (l :: ls) ++ CRLF ++ body
            = l ++ CRLF ++ (lines_on_wire CRLF ls ++ CRLF ++ body) := by
          simp [lines_on_wire]
        have hin2 : lines_on_wire [LF] (l :: ls) ++ [LF] ++ body
            = l ++ [LF] ++ (lines_on_wire [LF] ls ++ [LF] ++ body) := by
          simp [lines_on_wire]
        rw [hin1, hin2]
        rcases read_header_field_eol l (lines_on_wire CRLF ls ++ CRLF ++ body)
          (lines_on_wire [LF] ls ++ [LF] ++ body) h1 h2 h3 h4 with ⟨e1, e2⟩ | ⟨f1, f2, e1, e2, hf⟩
        · have u1 : read_header_fields (n1 + 1)
              (l ++ CRLF ++ (lines_on_wire CRLF ls ++ CRLF ++ body)) acc1
              = .exit .header_parse (lines_on_wire CRLF ls ++ CRLF ++ body) none := by
            rw [read_header_fields, e1]
          have u2 : read_header_fields (n2 + 1)
              (l ++ [LF] ++ (lines_on_wire [LF] ls ++ [LF] ++ body)) acc2
              = .exit .header_parse (lines_on_wire [LF] ls ++ [LF] ++ body) none := by
            rw [read_header_fields, e2]
          exact Or.inl ⟨_, _, _, _, _, u1, u2⟩
        · have hrec := ih n1 n2 (f1 :: acc1) (f2 :: acc2) (fun x hx => hls x (by simp [hx]))
            (by simpa using hf1) (by simpa using hf2) (List.Forall₂.cons hf hacc)
          have u1 : read_header_fields (n1 + 1)
              (l ++ CRLF ++ (lines_on_wire CRLF ls ++ CRLF ++ body)) acc1
              = read_header_fields n1 (lines_on_wire CRLF ls ++ CRLF ++ body) (f1 :: acc1) := by
            rw [read_header_fields, e1]
          have u2 : read_header_fields (n2 + 1)
              (l ++ [LF] ++ (lines_on_wire [LF] ls ++ [LF] ++ body)) acc2
              = read_header_fields n2 (lines_on_wire [LF] ls ++ [LF] ++ body) (f2 :: acc2) := by
            rw [read_header_fields, e2]
          rw [u1, u2]
          exact hrec

theorem lookup_same_field (hs1 hs2 : List HTTPHeaderField) (name : List Nat)
    (h : List.Forall₂ same_field hs1 hs2) :
    (lookup_header_field_value hs1 name = none ∧ lookup_header_field_value hs2 name = none)
    ∨ (∃ v1 v2, lookup_header_field_value hs1 name = some v1
        ∧ lookup_header_field_value hs2 name = some v2 ∧ atol v1 = atol v2) := by
  induction h with
  | nil => exact Or.inl ⟨rfl, rfl⟩
  | @cons f1 f2 t1 t2 hf _ ih =>
    unfold lookup_header_field_value
    rw [← hf.1]
    by_cases hc : strcasecmp_eq f1.name name = true
    · rw [if_pos hc, if_pos hc]
      exact Or.inr ⟨_, _, rfl, rfl, hf.2⟩
    · rw [if_neg hc, if_neg hc]
      exact ih

theorem content_length_same_field (r1 r2 : HTTPRequest)
    (h : List.Forall₂ same_field r1.header r2.header) :
    content_length r1 = content_length r2 := by
  unfold content_length
  rcases lookup_same_field r1.header r2.header (bytes "Content-Length") h with
    ⟨h1, h2⟩ | ⟨v1, v2, h1, h2, hv⟩
  · rw [h1, h2]
  · rw [h1, h2]
    simp only [hv]

theorem names_same_field (hs1 hs2 : List HTTPHeaderField)
    (h : List.Forall₂ same_field hs1 hs2) :
    hs1.map (fun f => f.name) = hs2.map (fun f => f.name) := by
  induction h with
  | nil => rfl
  | cons hf _ ih => simp only [List.map_cons, hf.1, ih]

/-- `read_request` once the request line and the header block have been read. -/
theorem read_request_after_block (inp s1 rest : List Nat) (req : HTTPRequest)
    (header : List HTTPHeaderField)
    (hline : read_request_line HTTPRequest.blank inp = .ok req s1)
    (hhead : read_header_fields (s1.length + 1) s1 [] = .ok header rest) :
    read_request inp =
      match content_length { req with header := header } with
      | .error msg => .exit msg rest none
      | .ok length =>
        if length ≠ 0 then
          if length > MAX_REQUEST_BODY_LENGTH then .exit .body_too_long rest none
          else if length.toNat ≤ rest.length then
            .ok { req with header := header, length := length,
                           body := some (rest.take length.toNat) } (rest.drop length.toNat)
          else .exit .body_read [] (some length.toNat)
        else .ok { req with header := header, length := length, body := none } rest := by
  unfold read_request
  rw [hline]
  simp only []
  rw [hhead]
  simp only []
  cases content_length { req with header := header } with
  | error m => rfl
  | ok len =>
    simp only []
    by_cases h0 : len ≠ 0
    · rw [if_pos h0, if_pos h0]
      by_cases hbig : len > MAX_REQUEST_BODY_LENGTH
      · rw [if_pos hbig, if_pos hbig]
      · rw [if_neg hbig, if_neg hbig]
        unfold fread
        by_cases hav : len.toNat ≤ rest.length
        · rw [if_pos hav, if_pos hav]
        · rw [if_neg hav, if_neg hav]
    · rw [if_neg h0, if_neg h0]

theorem read_request_exit_at_line (inp rest : List Nat) (msg : Fatal) (alloc : Option Nat)
    (h : read_request_line HTTPRequest.blank inp = .exit msg rest alloc) :
    read_request inp = .exit msg rest alloc := by
  unfold read_request
  rw [h]

theorem read_request_exit_at_block (inp s1 rest : List Nat) (req : HTTPRequest) (msg : Fatal)
    (alloc : Option Nat)
    (hline : read_request_line HTTPRequest.blank inp = .ok req s1)
    (hhead : read_header_fields (s1.length + 1) s1 [] = .exit msg rest alloc) :
    read_request inp = .exit msg rest alloc := by
  unfold read_request
  rw [hline]
  simp only []
  rw [hhead]

theorem read_request_line_blank_line (req : HTTPRequest) (body : List Nat) :
    read_request_line req (CRLF ++ body) = .exit .request_line_1 body none
    ∧ read_request_line req ([LF] ++ body) = .exit .request_line_1 body none := by
  constructor
  · simp [read_request_line, fgets, fgets_chars, LINE_BUF_SIZE, CRLF, CR, LF, cstr, NUL, strchr,
      SP]
  · simp [read_request_line, fgets, fgets_chars, LINE_BUF_SIZE, LF, cstr, NUL, strchr, SP]

/-- C23 (amended): for a request whose request line and header lines hold no
LF and at most 4093 bytes each, and whose header lines are neither empty nor a
single CR, `read_request` does the same on the form that ends every line, and
the header block, with CRLF and on the form that ends them with LF: it exits
at the same `log_exit` on both, or returns on both a request with the same
method, path, minor version, header names in the same order, length and body,
leaving the same input unread. -/
theorem crlf_or_lf_same_parse (lines : List (List Nat)) (body : List Nat)
    (hlines : ∀ l ∈ lines, LF ∉ l ∧ l.length ≤ 4093)
    (hhead : ∀ l ∈ lines.tail, l ≠ [] ∧ l ≠ [CR]) :
    same_parse (read_request (lines_on_wire CRLF lines ++ CRLF ++ body))
      (read_request (lines_on_wire [LF] lines ++ [LF] ++ body)) := by
  cases lines with
  | nil =>
    obtain ⟨h1, h2⟩ := read_request_line_blank_line HTTPRequest.blank body
    simp only [lines_on_wire, List.nil_append]
    rw [read_request_exit_at_line _ _ _ _ h1, read_request_exit_at_line _ _ _ _ h2]
    rfl
  | cons l ls =>
    obtain ⟨hl1, hl2⟩ := hlines l (by simp)
    have hin1 : lines_on_wire CRLF (l :: ls) ++ CRLF ++ body
        = l ++ CRLF ++ (lines_on_wire CRLF ls ++ CRLF ++ body) := by
      simp [lines_on_wire]
    have hin2 : lines_on_wire [LF] (l :: ls) ++ [LF] ++ body
        = l ++ [LF] ++ (lines_on_wire [LF] ls ++ [LF] ++ body) := by
      simp [lines_on_wire]
    rw [hin1, hin2]
    obtain ⟨s, e1, e2, hc1, hc2, he⟩ := cstr_eol l
    rcases read_request_line_eol HTTPRequest.blank _ _ _ _ _ _ s e1 e2
      (fgets_eol_crlf l (lines_on_wire CRLF ls ++ CRLF ++ body) hl1 hl2)
      (fgets_eol_lf l (lines_on_wire [LF] ls ++ [LF] ++ body) hl1 (by omega)) hc1 hc2 he
      with ⟨msg, x1, x2⟩ | ⟨r, x1, x2⟩
    · rw [read_request_exit_at_line _ _ _ _ x1, read_request_exit_at_line _ _ _ _ x2]
      rfl
    · have hls : ∀ x ∈ ls, LF ∉ x ∧ x.length ≤ 4093 ∧ x ≠ [] ∧ x ≠ [CR] := fun x hx =>
        ⟨(hlines x (by simp [hx])).1, (hlines x (by simp [hx])).2,
          (hhead x (by simpa using hx)).1, (hhead x (by simpa using hx)).2⟩
      have hfuel1 : ls.length < (lines_on_wire CRLF ls ++ CRLF ++ body).length + 1 := by
        have := lines_on_wire_length CRLF ls (by decide)
        simp only [List.length_append]
        omega
      have hfuel2 : ls.length < (lines_on_wire [LF] ls ++ [LF] ++ body).length + 1 := by
        have := lines_on_wire_length [LF] ls (by decide)
        simp only [List.length_append]
        omega
      rcases read_header_fields_eol ls body _ _ [] [] hls hfuel1 hfuel2 List.Forall₂.nil with
        ⟨msg, r1, a1, r2, a2, y1, y2⟩ | ⟨hs1, hs2, y1, y2, hsame⟩
      · rw [read_request_exit_at_block _ _ _ _ _ _ x1 y1,
          read_request_exit_at_block _ _ _ _ _ _ x2 y2]
        rfl
      · rw [read_request_after_block _ _ _ _ _ x1 y1, read_request_after_block _ _ _ _ _ x2 y2,
          content_length_same_field { r with header := hs1 } { r with header := hs2 } hsame]
        have hnames := names_same_field hs1 hs2 hsame
        cases content_length { r with header := hs2 } with
        | error m => rfl
        | ok len =>
          simp only []
          by_cases h0 : len ≠ 0
          · rw [if_pos h0, if_pos h0]
            by_cases hbig : len > MAX_REQUEST_BODY_LENGTH
            · rw [if_pos hbig, if_pos hbig]
              rfl
            · rw [if_neg hbig, if_neg hbig]
              by_cases hav : len.toNat ≤ body.length
              · rw [if_pos hav, if_pos hav]
                exact ⟨rfl, rfl, rfl, hnames, rfl, rfl, rfl⟩
              · rw [if_neg hav, if_neg hav]
                rfl
          · rw [if_neg h0, if_neg h0]
            exact ⟨rfl, rfl, rfl, hnames, rfl, rfl, rfl⟩

theorem sample_line_4094 :
    (∀ c ∈ List.replicate 4080 97, c ≠ LF ∧ c ≠ NUL)
    ∧ (bytes "GET / HTTP/1.0" ++ List.replicate 4080 97).length = 4094
    ∧ LF ∉ bytes "GET / HTTP/1.0" ++ List.replicate 4080 97
    ∧ ∀ x t, (List.replicate 4080 97 ++ x :: t).head? = some 97 := by
  have hrep : ∀ c ∈ List.replicate 4080 97, c ≠ LF ∧ c ≠ NUL := by
    intro c hc
    have := List.eq_of_mem_replicate hc
    subst this
    decide
  have hlit : ∀ c ∈ bytes "GET / HTTP/1.0", c ≠ LF := by decide
  refine ⟨hrep, ?_, ?_, ?_⟩
  · rw [List.length_append, List.length_replicate]
    decide
  · intro h
    rcases List.mem_append.1 h with h | h
    · exact hlit LF h rfl
    · exact (hrep LF h).1 rfl
  · intro x t
    have hr : List.replicate 4080 97 = 97 :: List.replicate 4079 97 := rfl
    rw [hr]
    rfl

/-- C23, as stated, fails in two ways.  A request line of 4094 bytes fits the
line buffer with LF but not with CRLF: on the CRLF form the LF left over is
read as the empty line and the request comes back without header field and
body.  And a header line that is a single CR ends the header block on the LF
form while it is a parse error on the CRLF form. -/
theorem crlf_or_lf_counterexample :
    (bytes "GET / HTTP/1.0" ++ List.replicate 4080 97).length = 4094
    ∧ read_request (bytes "GET / HTTP/1.0" ++ List.replicate 4080 97
          ++ bytes "\r\nContent-Length: 5\r\n\r\nHELLO")
        = .ok { protocol_minor_version := 0, method := bytes "GET", path := bytes "/",
                header := [], body := none, length := 0 }
            (bytes "Content-Length: 5\r\n\r\nHELLO")
    ∧ read_request (bytes "GET / HTTP/1.0" ++ List.replicate 4080 97
          ++ bytes "\nContent-Length: 5\n\nHELLO")
        = .ok { protocol_minor_version := 0, method := bytes "GET", path := bytes "/",
                header := [{ name := bytes "Content-Length", value := bytes "5\n" }],
                body := some (bytes "HELLO"), length := 5 } []
    ∧ read_request (bytes "GET / HTTP/1.0\r\n" ++ bytes "\r\r\n" ++ bytes "\r\n")
        = .exit .header_parse (bytes "\r\n") none
    ∧ read_request (bytes "GET / HTTP/1.0\n" ++ bytes "\r\n" ++ bytes "\n")
        = .ok { protocol_minor_version := 0, method := bytes "GET", path := bytes "/",
                header := [], body := none, length := 0 } (bytes "\n") := by
  obtain ⟨hrep, hlen, hlf, hhd⟩ := sample_line_4094
  refine ⟨hlen, ?_, ?_, by decide, by decide⟩
  · have hin : bytes "GET / HTTP/1.0" ++ List.replicate 4080 97
          ++ bytes "\r\nContent-Length: 5\r\n\r\nHELLO"
        = (bytes "GET / HTTP/1.0" ++ (List.replicate 4080 97 ++ [CR]))
          ++ bytes "\nContent-Length: 5\r\n\r\nHELLO" := by
      have h0 : bytes "\r\nContent-Length: 5\r\n\r\nHELLO"
          = [CR] ++ bytes "\nContent-Length: 5\r\n\r\nHELLO" := by decide
      rw [h0]
      simp only [List.append_assoc]
    have hf := fgets_full (bytes "GET / HTTP/1.0" ++ (List.replicate 4080 97 ++ [CR]))
      (bytes "\nContent-Length: 5\r\n\r\nHELLO")
      (by
        rw [← List.append_assoc]
        intro h
        rcases List.mem_append.1 h with h | h
        · exact hlf h
        · revert h
          decide)
      (by
        rw [← List.append_assoc, List.length_append, hlen]
        decide)
    have hline := read_request_line_sample HTTPRequest.blank _ (List.replicate 4080 97 ++ [CR]) _
      hf
      (by
        intro h
        rcases List.mem_append.1 h with h | h
        · exact (hrep NUL h).2 rfl
        · revert h
          decide)
      (by
        intro c hc
        rw [hhd CR []] at hc
        simp only [Option.some.injEq] at hc
        rw [← hc]
        decide)
    unfold read_request
    rw [hin, hline]
    decide
  · have hin : bytes "GET / HTTP/1.0" ++ List.replicate 4080 97
          ++ bytes "\nContent-Length: 5\n\nHELLO"
        = bytes "GET / HTTP/1.0" ++ (List.replicate 4080 97 ++ [LF])
          ++ bytes "Content-Length: 5\n\nHELLO" := by
      have h0 : bytes "\nContent-Length: 5\n\nHELLO"
          = [LF] ++ bytes "Content-Length: 5\n\nHELLO" := by decide
      rw [h0]
      simp only [List.append_assoc]
    have hf := fgets_eol_lf (bytes "GET / HTTP/1.0" ++ List.replicate 4080 97)
      (bytes "Content-Length: 5\n\nHELLO") hlf (by rw [hlen])
    rw [List.append_assoc (bytes "GET / HTTP/1.0")] at hf
    have hline := read_request_line_sample HTTPRequest.blank _ (List.replicate 4080 97 ++ [LF]) _
      hf
      (by
        intro h
        rcases List.mem_append.1 h with h | h
        · exact (hrep NUL h).2 rfl
        · revert h
          decide)
      (by
        intro c hc
        rw [hhd LF []] at hc
        simp only [Option.some.injEq] at hc
        rw [← hc]
        decide)
    unfold read_request
    rw [hin, hline]
    decide

/-- A request with one header field and a body, through `crlf_or_lf_same_parse`. -/
theorem crlf_or_lf_same_parse_witness :
    same_parse (read_request (bytes "GET / HTTP/1.0\r\nContent-Length: 5\r\n\r\nHELLO"))
      (read_request (bytes "GET / HTTP/1.0\nContent-Length: 5\n\nHELLO")) :=
  crlf_or_lf_same_parse [bytes "GET / HTTP/1.0", bytes "Content-Length: 5"] (bytes "HELLO")
    (by decide) (by decide)

end Httpd
